import Mathlib

/-!
# Shallow embedding of the bffnt font-container codec

This file embeds the `bffnt_headers` Go package (the FFNT container header,
the KRNG kerning table, and the document-level `BFFNT` encode/decode
pipeline) into Lean and proves the specification claims about it.

Modelling conventions:
* a byte is a `Nat` in `0..255`; buffers are `List Nat`;
* Go's fixed-width unsigned integers are `Nat` with explicit `% 2^w` at the
  operations where Go truncates (`uint16` multiplication/addition used for
  kerning offsets, `uint16`/`uint32` stores);
* Go's `int16` values are `Int`, converted through two's complement at the
  byte boundary;
* Go panics (out-of-range slice indexing, failed assertions) are modelled as
  `Except.error`; `binary.BigEndian` reads/writes are big-endian byte
  arithmetic.
-/

namespace Bffnt

inductive DecodeError where
  | truncatedInput
  | formatError
  deriving DecidableEq

instance {ε α : Type} [DecidableEq ε] [DecidableEq α] : DecidableEq (Except ε α) := fun x y =>
  match x, y with
  | .ok a, .ok b =>
      if h : a = b then isTrue (by rw [h]) else isFalse (by intro hh; cases hh; exact h rfl)
  | .error a, .error b =>
      if h : a = b then isTrue (by rw [h]) else isFalse (by intro hh; cases hh; exact h rfl)
  | .ok _, .error _ => isFalse (by intro hh; cases hh)
  | .error _, .ok _ => isFalse (by intro hh; cases hh)

abbrev Bytes := List Nat

/-- Big-endian bytes of a `uint16` store (Go truncates the value mod 2^16). -/
def u16BE (v : Nat) : Bytes := [v % 65536 / 256, v % 256]

/-- Big-endian bytes of a `uint32` store (Go truncates the value mod 2^32). -/
def u32BE (v : Nat) : Bytes :=
  [v % 4294967296 / 16777216, v % 16777216 / 65536, v % 65536 / 256, v % 256]

/-- `binary.BigEndian.Uint16` over bytes `p`, `p+1` (positions already checked). -/
def readU16 (raw : Bytes) (p : Nat) : Nat :=
  256 * raw.getD p 0 + raw.getD (p + 1) 0

/-- `binary.BigEndian.Uint32` over bytes `p..p+3`. -/
def readU32 (raw : Bytes) (p : Nat) : Nat :=
  16777216 * raw.getD p 0 + 65536 * raw.getD (p + 1) 0 +
    256 * raw.getD (p + 2) 0 + raw.getD (p + 3) 0

/-- Go slicing `raw[a:b]`: out-of-range or inverted bounds panic, modelled as a
`truncatedInput` error. -/
def sliceE (raw : Bytes) (a b : Nat) : Except DecodeError Bytes :=
  if a ≤ b ∧ b ≤ raw.length then .ok ((raw.drop a).take (b - a)) else .error .truncatedInput

/-- Bounds-checked `binary.BigEndian.Uint16(raw[p : p+2])` with `int` position
arithmetic (no wrap on `p+2`). -/
def readU16E (raw : Bytes) (p : Nat) : Except DecodeError Nat := do
  let s ← sliceE raw p (p + 2)
  pure (readU16 s 0)

/-- Bounds-checked `binary.BigEndian.Uint32(raw[p : p+4])`. -/
def readU32E (raw : Bytes) (p : Nat) : Except DecodeError Nat := do
  let s ← sliceE raw p (p + 4)
  pure (readU32 s 0)

/-- Bounds-checked `binary.BigEndian.Uint16(raw[p : p+2])` where both indices
are Go `uint16` expressions, so the upper bound wraps mod 2^16 (`krng.go`
reads the pair count this way). -/
def readU16W (raw : Bytes) (p : Nat) : Except DecodeError Nat := do
  let s ← sliceE raw p ((p + 2) % 65536)
  pure (readU16 s 0)

/-- `int16(binary.BigEndian.Uint16(..))`: two's-complement view of a 16-bit
value. -/
def toInt16 (v : Nat) : Int :=
  if v % 65536 < 32768 then ((v % 65536 : Nat) : Int) else ((v % 65536 : Nat) : Int) - 65536

/-- Two's-complement reduction of an integer into the `int16` range; used to
model Go conversions to `int16`. -/
def wrapInt16 (z : Int) : Int := (z + 32768) % 65536 - 32768

/-- Byte of a Go `int8` store (two's complement). -/
def int8Byte (z : Int) : Nat := (z % 256).toNat

/-- `int8` view of a byte. -/
def toInt8 (b : Nat) : Int :=
  if b % 256 < 128 then ((b % 256 : Nat) : Int) else ((b % 256 : Nat) : Int) - 256

/-! ## FFNT: the container header (`ffnt.go`) -/

def FFNT_HEADER_SIZE : Nat := 20

structure FFNT where
  MagicHeader : Bytes
  Endianness : Nat
  SectionSize : Nat
  Version : Nat
  TotalFileSize : Nat
  BlockReadNum : Nat
  deriving DecidableEq

/-- `FFNT.Decode`: reads the 20-byte header at offset 0.  The Go code slices
`raw[0:20]` (panic on a shorter buffer, modelled as `truncatedInput`) and
reads each field big-endian. -/
def FFNT.Decode (raw : Bytes) : Except DecodeError FFNT := do
  let headerRaw ← sliceE raw 0 FFNT_HEADER_SIZE
  pure { MagicHeader := headerRaw.take 4
         Endianness := readU16 headerRaw 4
         SectionSize := readU16 headerRaw 6
         Version := readU32 headerRaw 8
         TotalFileSize := readU32 headerRaw 12
         BlockReadNum := readU32 headerRaw 16 }

/-- `FFNT.Encode(totalFileSize)`: writes the 20-byte header, with the
caller-supplied total file size in place of the stored one.  (The source
asserts the result is 20 bytes, which holds exactly when the magic header is
4 bytes long.) -/
def FFNT.Encode (ffnt : FFNT) (totalFileSize : Nat) : Bytes :=
  ffnt.MagicHeader ++ u16BE ffnt.Endianness ++ u16BE ffnt.SectionSize ++
    u32BE ffnt.Version ++ u32BE totalFileSize ++ u32BE ffnt.BlockReadNum

/-! ## KRNG: the kerning table (`krng.go`) -/

def KRNG_HEADER_SIZE : Nat := 8

/-- The bytes of the ASCII magic tag `"KRNG"`. -/
def KRNG_MAGIC_HEADER : Bytes := [75, 82, 78, 71]

structure kerningPair where
  SecondChar : Nat
  KerningValue : Int
  deriving DecidableEq

/-- Go's `map[uint16][]kerningPair` is modelled as an association list with
unique keys.  Every use in the source either looks a key up or sorts the
keys, so the list order never influences results. -/
abbrev KerningMap := List (Nat × List kerningPair)

structure KRNG where
  MagicHeader : Bytes
  SectionSize : Nat
  KerningTable : KerningMap
  deriving DecidableEq

/-- Go map lookup `table[c]` (comma-ok form). -/
def mapLookup (t : KerningMap) (c : Nat) : Option (List kerningPair) :=
  match t with
  | [] => none
  | (k, v) :: rest => if k = c then some v else mapLookup rest c

/-- Go map assignment `table[c] = v` (overwrites an existing key). -/
def mapInsert (t : KerningMap) (c : Nat) (v : List kerningPair) : KerningMap :=
  match t with
  | [] => [(c, v)]
  | (k, w) :: rest => if k = c then (c, v) :: rest else (k, w) :: mapInsert rest c v

/-- Go map indexing `table[c]` in value position: a missing key yields the
zero value (the empty slice). -/
def lookupPairs (t : KerningMap) (c : Nat) : List kerningPair :=
  (mapLookup t c).getD []

/-- `getFirstCharsOrdered`: the keys of the kerning table sorted ascending
(the source converts to `int`, applies `sort.Ints`, and converts back, which
is the same ascending order). -/
def getFirstCharsOrdered (kerningTable : KerningMap) : List Nat :=
  List.insertionSort (· ≤ ·) (kerningTable.map Prod.fst)

/-- The 4 bytes of one `(secondChar, kerningValue)` pair as written by
`binaryWrite` (big-endian `uint16` and `int16`). -/
def pairBytes (p : kerningPair) : Bytes :=
  u16BE p.SecondChar ++ u16BE (p.KerningValue % 65536).toNat

/-- The first-character entry array: for each first char (in the given
order), its `uint16` code and the `uint16` store of the accumulated data
offset divided by two.  `off` is `secondCharDataOffset` of the source. -/
def krngEntryBytes (t : KerningMap) : List Nat → Nat → Bytes
  | [], _ => []
  | c :: rest, off =>
      u16BE c ++ u16BE (off / 2) ++
        krngEntryBytes t rest (off + 2 + 4 * (lookupPairs t c).length)

/-- The kerning data region: for each first char (in the given order), a
`uint16` pair count followed by its pairs. -/
def krngPairArrayBytes (t : KerningMap) (ord : List Nat) : Bytes :=
  ord.flatMap fun c =>
    u16BE (lookupPairs t c).length ++ (lookupPairs t c).flatMap pairBytes

/-- Modelled from the spec: `padToNext4ByteBoundary` is not under `src/`.
Per §4.6/§6 it zero-pads the section data so that, relative to the section's
absolute file offset, the encoded data ends on a 4-byte boundary. -/
def padToNext4ByteBoundary (startOffset : Nat) (b : Bytes) : Bytes :=
  b ++ List.replicate ((4 - (startOffset + b.length) % 4) % 4) 0

/-- `KRNG.Encode` with the first-character emission order generalised to an
explicit parameter; `KRNG.Encode` instantiates it with the ascending key
order, and decoded-but-unnormalised buffers are described by other orders. -/
def KRNG.encodeOrdered (t : KerningMap) (firstChars : List Nat) (startOffset : Nat) : Bytes :=
  if firstChars.isEmpty then [] else
    let dataRaw := u16BE firstChars.length ++
      krngEntryBytes t firstChars (firstChars.length * 4 + 2) ++
      krngPairArrayBytes t firstChars
    let krngData := padToNext4ByteBoundary startOffset dataRaw
    KRNG_MAGIC_HEADER ++ u32BE (KRNG_HEADER_SIZE + krngData.length) ++ krngData

/-- `KRNG.Encode(startOffset)`: an empty table encodes to the empty byte
sequence (`getFirstCharsOrdered` is empty exactly when the table is);
otherwise the count of first chars, the entry array with halved offsets, the
pair arrays, padding, all behind the magic+size section header. -/
def KRNG.Encode (krng : KRNG) (startOffset : Nat) : Bytes :=
  KRNG.encodeOrdered krng.KerningTable (getFirstCharsOrdered krng.KerningTable) startOffset

/-- `strings.Index(string(raw), "KRNG")`: the first byte index where the
4-byte magic occurs, `none` when it does not. -/
def findKRNG : Bytes → Option Nat
  | [] => none
  | b :: rest =>
      if (b :: rest).take 4 = KRNG_MAGIC_HEADER then some 0
      else (findKRNG rest).map (· + 1)

/-- The magic tag occurs at byte index `i`. -/
def matchKRNGAt (raw : Bytes) (i : Nat) : Prop :=
  (raw.drop i).take 4 = KRNG_MAGIC_HEADER

instance (raw : Bytes) (i : Nat) : Decidable (matchKRNGAt raw i) := by
  unfold matchKRNGAt; infer_instance

/-- The inner loop of `KRNG.Decode`: `secondCharCount` pairs read from
`pairData` at `int` positions `0, 4, 8, ...`. -/
def parsePairs (pairData : Bytes) : Nat → Nat → Except DecodeError (List kerningPair)
  | 0, _ => pure []
  | n + 1, pairPos => do
      let secondChar ← readU16E pairData pairPos
      let kerningValue ← readU16E pairData (pairPos + 2)
      let rest ← parsePairs pairData n (pairPos + 4)
      pure (⟨secondChar, toInt16 kerningValue⟩ :: rest)

/-- The outer loop of `KRNG.Decode`: for each first char, read its entry at
`dataPos`, double the stored offset in `uint16` arithmetic, jump there for
the pair count and pair array, and record the pairs in the map.  Returns the
map together with `totalDataBytesRead`. -/
def parseEntries (data : Bytes) :
    Nat → Nat → Nat → KerningMap → Except DecodeError (KerningMap × Nat)
  | 0, _, total, acc => pure (acc, total)
  | i + 1, dataPos, total, acc => do
      let firstChar ← readU16E data dataPos
      let secondCharOffset ← readU16E data (dataPos + 2)
      let realSecondCharOffset := secondCharOffset * 2 % 65536
      let secondCharCount ← readU16W data realSecondCharOffset
      let pairData ← sliceE data ((realSecondCharOffset + 2) % 65536)
        ((realSecondCharOffset + 2 + secondCharCount * 4) % 65536)
      let pairs ← parsePairs pairData secondCharCount 0
      parseEntries data i (dataPos + 4) (total + 6 + 4 * secondCharCount)
        (mapInsert acc firstChar pairs)

/-- The body of `KRNG.Decode` once the magic has been located at
`headerStart`: section header, data slice, first-char count, entry loop, and
the leftover-padding check (`verifyLeftoverBytes` is not under `src/`;
modelled from its use as an assertion that the leftover bytes are zero
padding). -/
def krngDecodeFrom (raw : Bytes) (headerStart : Nat) : Except DecodeError KRNG := do
  let headerRaw ← sliceE raw headerStart (headerStart + KRNG_HEADER_SIZE)
  let sectionSize := readU32 headerRaw 4
  let data ← sliceE raw (headerStart + KRNG_HEADER_SIZE) (headerStart + sectionSize)
  let countSlice ← sliceE data 0 2
  let firstCharCount := readU16 countSlice 0
  let parsed ← parseEntries data firstCharCount 2 2 []
  let padding ← sliceE data parsed.2 data.length
  if padding.all (· = 0) then
    pure { MagicHeader := headerRaw.take 4
           SectionSize := sectionSize
           KerningTable := parsed.1 }
  else .error .formatError

/-- `KRNG.Decode`: locate the section by scanning the whole buffer for the
first occurrence of the magic; if it is absent, return normally with no
kerning table (the zero value of the receiver). -/
def KRNG.Decode (raw : Bytes) : Except DecodeError KRNG :=
  match findKRNG raw with
  | none => pure { MagicHeader := [], SectionSize := 0, KerningTable := [] }
  | some headerStart => krngDecodeFrom raw headerStart

/-- `KRNG.Upscale(scale)`: every kerning value `v` becomes
`int16(math.Ceil(float64(v) * scale))`.  The `float64` arithmetic is modelled
as exact rational arithmetic (exact for the integer factors the program
passes), and the `int16` conversion as two's-complement reduction. -/
def KRNG.Upscale (krng : KRNG) (scale : ℚ) : KRNG :=
  { krng with
      KerningTable := krng.KerningTable.map fun e =>
        (e.1, e.2.map fun p =>
          { SecondChar := p.SecondChar
            KerningValue := wrapInt16 ⌈(p.KerningValue : ℚ) * scale⌉ }) }

/-- The linear scan inside `KRNG.Kern`: the kerning value of the first pair
whose second char matches, else 0. -/
def findPair (pairs : List kerningPair) (r2 : Nat) : Int :=
  match pairs with
  | [] => 0
  | s :: rest => if r2 = s.SecondChar then s.KerningValue else findPair rest r2

/-- `KRNG.Kern(r1, r2)`: 0 when `r1` has no entry or no pair matches `r2`. -/
def KRNG.Kern (krng : KRNG) (r1 r2 : Nat) : Int :=
  match mapLookup krng.KerningTable r1 with
  | some pairs => findPair pairs r2
  | none => 0

/-- The accumulated byte offset (within the section data) of the `i`-th
first-character's pair array, as the specification describes it: start at
`2 + 4 × (number of first chars)` and advance by `2 + 4 × pairCount` per
preceding entry, walking entries in emission order. -/
def trueOffset (t : KerningMap) (ord : List Nat) (i : Nat) : Nat :=
  2 + 4 * ord.length + (((ord.take i).map fun c => 2 + 4 * (lookupPairs t c).length).sum)

/-- A pair array large enough to push the next entry's accumulated offset
past 2^17 bytes (so its halved offset exceeds 16 bits). -/
def bigPairList : List kerningPair := List.replicate 32767 ⟨66, -1⟩

def bigKerningTable : KerningMap := [(65, bigPairList), (67, [⟨68, -1⟩])]

def bigKRNG : KRNG := ⟨KRNG_MAGIC_HEADER, 0, bigKerningTable⟩

/-- A small table whose keys are deliberately out of order. -/
def smallKRNG : KRNG := ⟨KRNG_MAGIC_HEADER, 0, [(66, [⟨67, -1⟩]), (65, [⟨68, 1⟩])]⟩

/-! ## Spec-modelled sections: FINF, TGLP, CWDH, CMAP

The codecs for the font-info block, the texture page, the width chain and
the map chain are part of this repository but not under `src/` (only their
callers in `ffnt.go` are).  They are modelled from the spec: §4.2–§4.5 give
the fields, the chain-walking discipline, the three mapping variants and the
section-header/padding conventions (§6); the byte layout within each fixed
header follows the field order the spec lists. -/

def u8 (v : Nat) : Bytes := [v % 256]

/-- Modelled from the spec: the FINF section is a fixed 32-byte region
(`FINF_HEADER_SIZE` is not under `src/`; 32 = magic+size+metrics+three
offsets in the layout below). -/
def FINF_HEADER_SIZE : Nat := 32

def FINF_MAGIC : Bytes := [70, 73, 78, 70]

structure FINF where
  FontType : Nat
  Height : Nat
  Width : Nat
  Ascent : Nat
  LineFeed : Nat
  AlterCharIndex : Nat
  DefaultLeftWidth : Nat
  DefaultGlyphWidth : Nat
  DefaultCharWidth : Nat
  Encoding : Nat
  TGLPOffset : Nat
  CWDHOffset : Nat
  CMAPOffset : Nat
  deriving DecidableEq

/-- Modelled from the spec (§4.2): `FINF.Encode(tglpOffset, cwdhOffset,
cmapOffset)` re-emits the fixed region with the three caller-computed final
offsets in place of the stored ones. -/
def FINF.Encode (finf : FINF) (tglpOffset cwdhOffset cmapOffset : Nat) : Bytes :=
  FINF_MAGIC ++ u32BE FINF_HEADER_SIZE ++
    u8 finf.FontType ++ u8 finf.Height ++ u8 finf.Width ++ u8 finf.Ascent ++
    u16BE finf.LineFeed ++ u16BE finf.AlterCharIndex ++
    u8 finf.DefaultLeftWidth ++ u8 finf.DefaultGlyphWidth ++ u8 finf.DefaultCharWidth ++
    u8 finf.Encoding ++
    u32BE tglpOffset ++ u32BE cwdhOffset ++ u32BE cmapOffset

/-- Modelled from the spec (§4.2): fixed-offset read immediately after the
container header (bytes 20..52). -/
def FINF.Decode (raw : Bytes) : Except DecodeError FINF := do
  let hdr ← sliceE raw FFNT_HEADER_SIZE (FFNT_HEADER_SIZE + FINF_HEADER_SIZE)
  pure { FontType := hdr.getD 8 0
         Height := hdr.getD 9 0
         Width := hdr.getD 10 0
         Ascent := hdr.getD 11 0
         LineFeed := readU16 hdr 12
         AlterCharIndex := readU16 hdr 14
         DefaultLeftWidth := hdr.getD 16 0
         DefaultGlyphWidth := hdr.getD 17 0
         DefaultCharWidth := hdr.getD 18 0
         Encoding := hdr.getD 19 0
         TGLPOffset := readU32 hdr 20
         CWDHOffset := readU32 hdr 24
         CMAPOffset := readU32 hdr 28 }

def TGLP_MAGIC : Bytes := [84, 71, 76, 80]

/-- The texture glyph page.  The on-disk section size and padding are
derived at encode time and not stored in the structure. -/
structure TGLP where
  CellWidth : Nat
  CellHeight : Nat
  NumOfSheets : Nat
  MaxCharWidth : Nat
  SheetSize : Nat
  BaselinePosition : Nat
  SheetImageFormat : Nat
  NumOfColumns : Nat
  NumOfRows : Nat
  SheetWidth : Nat
  SheetHeight : Nat
  SheetData : Bytes
  deriving DecidableEq

/-- Modelled from the spec (§4.3, §6): geometry header followed by the
payload verbatim, zero-padded to a 4-byte boundary (the TGLP section starts
at byte 52, a multiple of 4, so padding relative to 0 coincides with padding
relative to its absolute offset). -/
def TGLP.Encode (tglp : TGLP) : Bytes :=
  let body := TGLP_MAGIC ++
    u32BE (28 + tglp.SheetData.length + (4 - (28 + tglp.SheetData.length) % 4) % 4) ++
    u8 tglp.CellWidth ++ u8 tglp.CellHeight ++ u8 tglp.NumOfSheets ++ u8 tglp.MaxCharWidth ++
    u32BE tglp.SheetSize ++ u16BE tglp.BaselinePosition ++ u16BE tglp.SheetImageFormat ++
    u16BE tglp.NumOfColumns ++ u16BE tglp.NumOfRows ++
    u16BE tglp.SheetWidth ++ u16BE tglp.SheetHeight ++ tglp.SheetData
  body ++ List.replicate ((4 - body.length % 4) % 4) 0

/-- Modelled from the spec (§4.3): fixed geometry header at the fixed TGLP
position, then `SheetSize` bytes of payload copied verbatim; fails with
`truncatedInput` when the declared sheet size exceeds the buffer. -/
def TGLP.Decode (raw : Bytes) : Except DecodeError TGLP := do
  let hdr ← sliceE raw (FFNT_HEADER_SIZE + FINF_HEADER_SIZE)
    (FFNT_HEADER_SIZE + FINF_HEADER_SIZE + 28)
  let sheetSize := readU32 hdr 12
  let sheetData ← sliceE raw (FFNT_HEADER_SIZE + FINF_HEADER_SIZE + 28)
    (FFNT_HEADER_SIZE + FINF_HEADER_SIZE + 28 + sheetSize)
  pure { CellWidth := hdr.getD 8 0
         CellHeight := hdr.getD 9 0
         NumOfSheets := hdr.getD 10 0
         MaxCharWidth := hdr.getD 11 0
         SheetSize := sheetSize
         BaselinePosition := readU16 hdr 16
         SheetImageFormat := readU16 hdr 18
         NumOfColumns := readU16 hdr 20
         NumOfRows := readU16 hdr 22
         SheetWidth := readU16 hdr 24
         SheetHeight := readU16 hdr 26
         SheetData := sheetData }

def CWDH_MAGIC : Bytes := [67, 87, 68, 72]

structure glyphInfo where
  LeftWidth : Int
  GlyphWidth : Nat
  CharWidth : Nat
  deriving DecidableEq

/-- A width-chain block; the on-disk next-offset is derived at encode time
from sequence order and not stored (spec §3). -/
structure CWDH where
  StartIndex : Nat
  EndIndex : Nat
  Glyphs : List glyphInfo
  deriving DecidableEq

def glyphBytes (g : glyphInfo) : Bytes :=
  [int8Byte g.LeftWidth, g.GlyphWidth % 256, g.CharWidth % 256]

def CWDH.blockBody (c : CWDH) (next : Nat) : Bytes :=
  u16BE c.StartIndex ++ u16BE c.EndIndex ++ u32BE next ++ c.Glyphs.flatMap glyphBytes

/-- Modelled from the spec (§4.4, §6): one width block as a magic+size
section, body, and zero padding to a 4-byte boundary. -/
def CWDH.blockBytes (c : CWDH) (next : Nat) : Bytes :=
  CWDH_MAGIC ++ u32BE (8 + (CWDH.blockBody c next).length +
      (4 - (8 + (CWDH.blockBody c next).length) % 4) % 4) ++
    CWDH.blockBody c next ++
    List.replicate ((4 - (8 + (CWDH.blockBody c next).length) % 4) % 4) 0

def CWDH.blockLen (c : CWDH) : Nat := (CWDH.blockBytes c 0).length

/-- Modelled from the spec (§4.4): `EncodeCWDHs(blocks, startOffset)` walks
the sequence, recomputing each block's next-offset as the payload position
of the following block (8 past its section start) or 0 for the last. -/
def EncodeCWDHs : List CWDH → Nat → Bytes
  | [], _ => []
  | c :: rest, pos =>
      CWDH.blockBytes c (if rest.isEmpty then 0 else pos + CWDH.blockLen c) ++
        EncodeCWDHs rest (pos + CWDH.blockLen c)

def parseGlyphs (raw : Bytes) : Nat → Nat → Except DecodeError (List glyphInfo)
  | 0, _ => pure []
  | n + 1, p => do
      let s ← sliceE raw p (p + 3)
      let rest ← parseGlyphs raw n (p + 3)
      pure ({ LeftWidth := toInt8 (s.getD 0 0), GlyphWidth := s.getD 1 0,
              CharWidth := s.getD 2 0 } :: rest)

/-- Modelled from the spec (§4.4): follow the chain from the given payload
offset, reading `indexEnd - indexBegin + 1` width triples per block, until
the 0 terminal.  Recursion is fuelled; the fuel in `DecodeCWDHs` exceeds any
chain a buffer can hold. -/
def parseCWDHs (raw : Bytes) : Nat → Nat → Except DecodeError (List CWDH)
  | 0, _ => .error .formatError
  | fuel + 1, offset => do
      let startIndex ← readU16E raw offset
      let endIndex ← readU16E raw (offset + 2)
      let nextOffset ← readU32E raw (offset + 4)
      let glyphs ← parseGlyphs raw (endIndex + 1 - startIndex) (offset + 8)
      let rest ← if nextOffset = 0 then pure [] else parseCWDHs raw fuel nextOffset
      pure ({ StartIndex := startIndex, EndIndex := endIndex, Glyphs := glyphs } :: rest)

def DecodeCWDHs (raw : Bytes) (offset : Nat) : Except DecodeError (List CWDH) :=
  parseCWDHs raw (raw.length + 1) offset

def CMAP_MAGIC : Bytes := [67, 77, 65, 80]

/-- The three mapping strategies of a map block (spec §4.5), as a tagged
union: Direct (a single base glyph index), Table (one explicit index per
codepoint in range), Scan (a sparse pair list). -/
inductive MapMethod where
  | direct (baseIndex : Nat)
  | table (entries : List Nat)
  | scan (pairs : List (Nat × Nat))
  deriving DecidableEq

def MapMethod.tag : MapMethod → Nat
  | .direct _ => 0
  | .table _ => 1
  | .scan _ => 2

def MapMethod.payloadBytes : MapMethod → Bytes
  | .direct b => u16BE b
  | .table es => es.flatMap u16BE
  | .scan ps => u16BE ps.length ++ ps.flatMap fun pr => u16BE pr.1 ++ u16BE pr.2

/-- The flattened codepoint array a mapping denotes (spec §4.5): Direct and
Table cover the whole `[codeBegin, codeEnd]` range, Scan lists codepoints
explicitly. -/
def MapMethod.derivedAscii : MapMethod → Nat → Nat → List Nat
  | .direct _, cb, ce => List.range' cb (ce + 1 - cb)
  | .table _, cb, ce => List.range' cb (ce + 1 - cb)
  | .scan ps, _, _ => ps.map Prod.fst

/-- The glyph index of each position of `derivedAscii`: Direct maps
codepoint `c` to `baseIndex + (c - codeBegin)`. -/
def MapMethod.derivedIndex : MapMethod → Nat → Nat → List Nat
  | .direct b, cb, ce => (List.range (ce + 1 - cb)).map (b + ·)
  | .table es, _, _ => es
  | .scan ps, _, _ => ps.map Prod.snd

/-- A map-chain block: the range, the tagged mapping payload, and the
flattened `CharAscii`/`CharIndex` arrays that decode derives from it (these
are what `BFFNT.GlyphIndexes` in `ffnt.go` reads). -/
structure CMAP where
  CodeBegin : Nat
  CodeEnd : Nat
  Mapping : MapMethod
  CharAscii : List Nat
  CharIndex : List Nat
  deriving DecidableEq

def CMAP.blockBody (c : CMAP) (next : Nat) : Bytes :=
  u16BE c.CodeBegin ++ u16BE c.CodeEnd ++ u16BE c.Mapping.tag ++ u32BE next ++
    c.Mapping.payloadBytes

/-- Modelled from the spec (§4.5, §6): one map block as a magic+size
section, body, and zero padding to a 4-byte boundary. -/
def CMAP.blockBytes (c : CMAP) (next : Nat) : Bytes :=
  CMAP_MAGIC ++ u32BE (8 + (CMAP.blockBody c next).length +
      (4 - (8 + (CMAP.blockBody c next).length) % 4) % 4) ++
    CMAP.blockBody c next ++
    List.replicate ((4 - (8 + (CMAP.blockBody c next).length) % 4) % 4) 0

def CMAP.blockLen (c : CMAP) : Nat := (CMAP.blockBytes c 0).length

/-- Modelled from the spec (§4.5): same chain-walking and offset
recomputation as the width chain. -/
def EncodeCMAPs : List CMAP → Nat → Bytes
  | [], _ => []
  | c :: rest, pos =>
      CMAP.blockBytes c (if rest.isEmpty then 0 else pos + CMAP.blockLen c) ++
        EncodeCMAPs rest (pos + CMAP.blockLen c)

def parseU16s (raw : Bytes) : Nat → Nat → Except DecodeError (List Nat)
  | 0, _ => pure []
  | n + 1, p => do
      let v ← readU16E raw p
      let rest ← parseU16s raw n (p + 2)
      pure (v :: rest)

def parseScanPairs (raw : Bytes) : Nat → Nat → Except DecodeError (List (Nat × Nat))
  | 0, _ => pure []
  | n + 1, p => do
      let a ← readU16E raw p
      let b ← readU16E raw (p + 2)
      let rest ← parseScanPairs raw n (p + 4)
      pure ((a, b) :: rest)

/-- Modelled from the spec (§4.5): follow the chain, dispatch once per block
on the stored encoding discriminant (unrecognized values fail with
`formatError`), derive the flattened arrays, continue at the stored next
offset until the 0 terminal. -/
def parseCMAPs (raw : Bytes) : Nat → Nat → Except DecodeError (List CMAP)
  | 0, _ => .error .formatError
  | fuel + 1, offset => do
      let codeBegin ← readU16E raw offset
      let codeEnd ← readU16E raw (offset + 2)
      let method ← readU16E raw (offset + 4)
      let nextOffset ← readU32E raw (offset + 6)
      let mapping ←
        if method = 0 then do
          let base ← readU16E raw (offset + 10)
          pure (MapMethod.direct base)
        else if method = 1 then do
          let es ← parseU16s raw (codeEnd + 1 - codeBegin) (offset + 10)
          pure (MapMethod.table es)
        else if method = 2 then do
          let cnt ← readU16E raw (offset + 10)
          let ps ← parseScanPairs raw cnt (offset + 12)
          pure (MapMethod.scan ps)
        else .error .formatError
      let rest ← if nextOffset = 0 then pure [] else parseCMAPs raw fuel nextOffset
      pure ({ CodeBegin := codeBegin, CodeEnd := codeEnd, Mapping := mapping,
              CharAscii := mapping.derivedAscii codeBegin codeEnd,
              CharIndex := mapping.derivedIndex codeBegin codeEnd } :: rest)

def DecodeCMAPs (raw : Bytes) (offset : Nat) : Except DecodeError (List CMAP) :=
  parseCMAPs raw (raw.length + 1) offset

/-! ## The BFFNT document (`ffnt.go`) -/

structure AsciiIndexPair where
  CharAscii : Nat
  CharIndex : Nat
  deriving DecidableEq

/-- The document aggregate.  The `CWDHIndexMap` cache built by the Go
`Decode` (a rune-to-index map consumed only by the out-of-scope manual width
adjustments) is not part of the codec state and is omitted. -/
structure BFFNT where
  FFNT : FFNT
  FINF : FINF
  TGLP : TGLP
  CWDHs : List CWDH
  CMAPs : List CMAP
  KRNG : KRNG
  deriving DecidableEq

/-- `BFFNT.Encode` with the kerning-section serializer abstracted (it
receives the kerning section's payload start offset). `BFFNT.Encode`
instantiates it with `KRNG.Encode`; buffers whose kerning entries are not in
ascending order instantiate it with an explicit emission order. -/
def BFFNT.encodeWithKrng (b : BFFNT) (krngEnc : Nat → Bytes) : Bytes :=
  let tglpOffset := FFNT_HEADER_SIZE + FINF_HEADER_SIZE + 8
  let tglpRaw := TGLP.Encode b.TGLP
  let cwdhOffset := tglpOffset + tglpRaw.length
  let cwdhsRaw := EncodeCWDHs b.CWDHs cwdhOffset
  let cmapOffset := cwdhOffset + cwdhsRaw.length
  let cmapsRaw := EncodeCMAPs b.CMAPs cmapOffset
  let finfRaw := FINF.Encode b.FINF tglpOffset cwdhOffset cmapOffset
  let krngOffset := cmapOffset + cmapsRaw.length
  let krngRaw := krngEnc krngOffset
  let fileSize := FFNT_HEADER_SIZE + finfRaw.length + tglpRaw.length + cwdhsRaw.length +
    cmapsRaw.length + krngRaw.length
  let ffntRaw := FFNT.Encode b.FFNT fileSize
  ffntRaw ++ finfRaw ++ tglpRaw ++ cwdhsRaw ++ cmapsRaw ++ krngRaw

/-- `BFFNT.Encode`: sections are encoded in dependency order (widths, maps
and page first, font info with the freshly computed offsets, the container
header with the recomputed total size last) and concatenated in the fixed
on-disk order. -/
def BFFNT.Encode (b : BFFNT) : Bytes :=
  BFFNT.encodeWithKrng b (KRNG.Encode b.KRNG)

/-- `BFFNT.Decode`: every section decoded against the same buffer; the
chains start at the offsets stored in the font info block, the kerning table
is located by magic scan. -/
def BFFNT.Decode (raw : Bytes) : Except DecodeError BFFNT := do
  let ffnt ← FFNT.Decode raw
  let finf ← FINF.Decode raw
  let tglp ← TGLP.Decode raw
  let cwdhs ← DecodeCWDHs raw finf.CWDHOffset
  let cmaps ← DecodeCMAPs raw finf.CMAPOffset
  let krng ← KRNG.Decode raw
  pure { FFNT := ffnt, FINF := finf, TGLP := tglp, CWDHs := cwdhs, CMAPs := cmaps,
         KRNG := krng }

/-- `BFFNT.GlyphIndexes`: all `(CharAscii, CharIndex)` entries of the map
chain whose index is not the sentinel 65535, sorted ascending by glyph
index.  Go's `sort.Slice` (an unspecified-tie-order in-place sort by
`CharIndex <`) is modelled as insertion sort by `CharIndex ≤`, which agrees
up to the order of equal-index entries. -/
def BFFNT.GlyphIndexes (b : BFFNT) : List AsciiIndexPair :=
  let pairSlice := b.CMAPs.flatMap fun cmap =>
    (List.range cmap.CharAscii.length).filterMap fun j =>
      if cmap.CharIndex.getD j 0 ≠ 65535 then
        some { CharAscii := cmap.CharAscii.getD j 0, CharIndex := cmap.CharIndex.getD j 0 }
      else none
  List.insertionSort (fun p q => p.CharIndex ≤ q.CharIndex) pairSlice

instance : IsTotal AsciiIndexPair (fun p q => p.CharIndex ≤ q.CharIndex) :=
  ⟨fun a b => Nat.le_total a.CharIndex b.CharIndex⟩

instance : IsTrans AsciiIndexPair (fun p q => p.CharIndex ≤ q.CharIndex) :=
  ⟨fun _ _ _ h1 h2 => Nat.le_trans h1 h2⟩

/-- The byte position at which the TGLP section's payload starts in any
encoded buffer: the section itself starts 8 bytes earlier, at byte 52, with
its magic tag. -/
def tglpPayloadPos : Nat := FFNT_HEADER_SIZE + FINF_HEADER_SIZE + 8

/-- The byte position of the first width block's payload (its section header
sits 8 bytes before it). -/
def cwdhPayloadPos (b : BFFNT) : Nat := tglpPayloadPos + (TGLP.Encode b.TGLP).length

/-- The byte position of the first map block's payload. -/
def cmapPayloadPos (b : BFFNT) : Nat :=
  cwdhPayloadPos b + (EncodeCWDHs b.CWDHs (cwdhPayloadPos b)).length

/-- The byte position at which the kerning section (its magic tag) starts
in any encoded buffer; everything before it is independent of the kerning
entry emission order. -/
def krngSectionStart (b : BFFNT) : Nat :=
  cmapPayloadPos b + (EncodeCMAPs b.CMAPs (cmapPayloadPos b)).length - 8

/-- The normal form decode leaves a map block in: the stored flattened
arrays are re-derived from the mapping (`parseCMAPs` always recomputes
them); every other field is kept. -/
def cmapNorm (c : CMAP) : CMAP :=
  { c with CharAscii := c.Mapping.derivedAscii c.CodeBegin c.CodeEnd,
           CharIndex := c.Mapping.derivedIndex c.CodeBegin c.CodeEnd }

/-- The six intermediate buffers of `BFFNT.encodeWithKrng`, named: the font
info with the three recomputed payload offsets. -/
def finfRawOf (b : BFFNT) : Bytes :=
  FINF.Encode b.FINF tglpPayloadPos (cwdhPayloadPos b) (cmapPayloadPos b)

/-- The encoded texture page of a document. -/
def tglpRawOf (b : BFFNT) : Bytes := TGLP.Encode b.TGLP

/-- The encoded width chain of a document. -/
def cwdhsRawOf (b : BFFNT) : Bytes := EncodeCWDHs b.CWDHs (cwdhPayloadPos b)

/-- The encoded map chain of a document. -/
def cmapsRawOf (b : BFFNT) : Bytes := EncodeCMAPs b.CMAPs (cmapPayloadPos b)

/-- The byte position of the kerning section's payload (its data region),
8 bytes past the section start. -/
def krngPayloadPos (b : BFFNT) : Nat := cmapPayloadPos b + (cmapsRawOf b).length

/-- The recomputed total file size, as a function of the kerning bytes. -/
def fileSizeOf (b : BFFNT) (kr : Bytes) : Nat :=
  FFNT_HEADER_SIZE + (finfRawOf b).length + (tglpRawOf b).length +
    (cwdhsRawOf b).length + (cmapsRawOf b).length + kr.length

/-- The encoded container header, as a function of the kerning bytes. -/
def ffntRawOf (b : BFFNT) (kr : Bytes) : Bytes := FFNT.Encode b.FFNT (fileSizeOf b kr)

abbrev validGlyph (g : glyphInfo) : Prop :=
  -128 ≤ g.LeftWidth ∧ g.LeftWidth ≤ 127 ∧ g.GlyphWidth < 256 ∧ g.CharWidth < 256

abbrev validCWDH (c : CWDH) : Prop :=
  c.StartIndex ≤ c.EndIndex ∧ c.EndIndex < 65536 ∧
    c.Glyphs.length = c.EndIndex + 1 - c.StartIndex ∧ ∀ g ∈ c.Glyphs, validGlyph g

def validMapping : MapMethod → Nat → Nat → Prop
  | .direct base, _, _ => base < 65536
  | .table es, cb, ce => es.length = ce + 1 - cb ∧ ∀ e ∈ es, e < 65536
  | .scan ps, _, _ => ps.length < 65536 ∧ ∀ p ∈ ps, p.1 < 65536 ∧ p.2 < 65536

instance (m : MapMethod) (cb ce : Nat) : Decidable (validMapping m cb ce) :=
  match m with
  | .direct base => inferInstanceAs (Decidable (base < 65536))
  | .table es => inferInstanceAs (Decidable (es.length = ce + 1 - cb ∧ ∀ e ∈ es, e < 65536))
  | .scan ps =>
      inferInstanceAs (Decidable (ps.length < 65536 ∧ ∀ p ∈ ps, p.1 < 65536 ∧ p.2 < 65536))

abbrev validCMAP (c : CMAP) : Prop :=
  c.CodeBegin ≤ c.CodeEnd ∧ c.CodeEnd < 65536 ∧ validMapping c.Mapping c.CodeBegin c.CodeEnd

abbrev validPair (p : kerningPair) : Prop :=
  p.SecondChar < 65536 ∧ -32768 ≤ p.KerningValue ∧ p.KerningValue ≤ 32767

/-- The length of the unpadded kerning data region of a table. -/
def krngDataLen (t : KerningMap) : Nat :=
  2 + 4 * t.length + ((t.map fun e => 2 + 4 * e.2.length).sum)

abbrev validKRNG (t : KerningMap) : Prop :=
  (t.map Prod.fst).Nodup ∧
    (∀ e ∈ t, e.1 < 65536 ∧ e.2.length < 65536 ∧ ∀ p ∈ e.2, validPair p) ∧
    krngDataLen t < 65536

/-- Well-formedness of a document: every field fits its on-disk width, the
declared sheet size is the payload size, both chains are non-empty, glyph
counts match the declared ranges, the kerning table is intact, the whole
file fits the 32-bit size field, and the kerning magic does not occur in the
buffer before the kerning section itself. -/
abbrev ValidDoc (b : BFFNT) : Prop :=
  b.FFNT.MagicHeader.length = 4 ∧
  b.FFNT.Endianness < 65536 ∧ b.FFNT.SectionSize < 65536 ∧
  b.FFNT.Version < 4294967296 ∧ b.FFNT.BlockReadNum < 4294967296 ∧
  (b.FINF.FontType < 256 ∧ b.FINF.Height < 256 ∧ b.FINF.Width < 256 ∧
    b.FINF.Ascent < 256 ∧ b.FINF.LineFeed < 65536 ∧ b.FINF.AlterCharIndex < 65536 ∧
    b.FINF.DefaultLeftWidth < 256 ∧ b.FINF.DefaultGlyphWidth < 256 ∧
    b.FINF.DefaultCharWidth < 256 ∧ b.FINF.Encoding < 256) ∧
  (b.TGLP.CellWidth < 256 ∧ b.TGLP.CellHeight < 256 ∧ b.TGLP.NumOfSheets < 256 ∧
    b.TGLP.MaxCharWidth < 256 ∧ b.TGLP.BaselinePosition < 65536 ∧
    b.TGLP.SheetImageFormat < 65536 ∧ b.TGLP.NumOfColumns < 65536 ∧
    b.TGLP.NumOfRows < 65536 ∧ b.TGLP.SheetWidth < 65536 ∧ b.TGLP.SheetHeight < 65536) ∧
  b.TGLP.SheetSize = b.TGLP.SheetData.length ∧
  b.CWDHs ≠ [] ∧ (∀ c ∈ b.CWDHs, validCWDH c) ∧
  b.CMAPs ≠ [] ∧ (∀ c ∈ b.CMAPs, validCMAP c) ∧
  validKRNG b.KRNG.KerningTable ∧
  (BFFNT.Encode b).length < 4294967296 ∧
  (∀ i < krngSectionStart b, ¬ matchKRNGAt (BFFNT.Encode b) i) ∧
  (b.KRNG.KerningTable = [] →
    ∀ i < (BFFNT.Encode b).length, ¬ matchKRNGAt (BFFNT.Encode b) i)

/-! ## Concrete example documents (used to instantiate the theorems) -/

def exFFNT : FFNT := ⟨[70, 70, 78, 84], 65279, 20, 50331648, 0, 65536⟩

def exFINF : FINF := ⟨1, 10, 11, 8, 12, 0, 0, 5, 6, 1, 0, 0, 0⟩

def exTGLP : TGLP := ⟨5, 6, 1, 7, 4, 6, 2, 3, 4, 32, 32, [9, 8, 7, 6]⟩

def exCWDH : CWDH := ⟨0, 1, [⟨-1, 2, 3⟩, ⟨0, 4, 5⟩]⟩

def exCMAP : CMAP :=
  ⟨32, 33, .direct 0, (MapMethod.direct 0).derivedAscii 32 33,
    (MapMethod.direct 0).derivedIndex 32 33⟩

def exKRNGtable : KerningMap := [(65, [⟨86, -1⟩]), (76, [⟨84, -2⟩])]

def exKRNG : KRNG := ⟨KRNG_MAGIC_HEADER, 0, exKRNGtable⟩

def exDoc : BFFNT := ⟨exFFNT, exFINF, exTGLP, [exCWDH], [exCMAP], exKRNG⟩

/-- A Table-variant map block containing the 0xFFFF sentinel. -/
def exCMAPtable : CMAP := ⟨48, 50, .table [7, 65535, 5], [48, 49, 50], [7, 65535, 5]⟩

/-- A Scan-variant map block containing the 0xFFFF sentinel. -/
def exCMAPscan : CMAP :=
  ⟨60, 70, .scan [(60, 1), (61, 65535), (63, 2)], [60, 61, 63], [1, 65535, 2]⟩

def exDocMaps : BFFNT := ⟨exFFNT, exFINF, exTGLP, [exCWDH], [exCMAPtable, exCMAPscan], exKRNG⟩

/-! ## Toolkit lemmas -/

@[simp] theorem ok_bind {ε α β : Type} (a : α) (f : α → Except ε β) :
    (Except.ok a >>= f) = f a := rfl

@[simp] theorem error_bind {ε α β : Type} (e : ε) (f : α → Except ε β) :
    ((Except.error e : Except ε α) >>= f) = .error e := rfl

@[simp] theorem length_u16BE (v : Nat) : (u16BE v).length = 2 := rfl

@[simp] theorem length_u32BE (v : Nat) : (u32BE v).length = 4 := rfl

theorem readU16_u16BE (v : Nat) (rest : Bytes) : readU16 (u16BE v ++ rest) 0 = v % 65536 := by
  simp [readU16, u16BE, List.getD_cons_zero, List.getD_cons_succ]
  omega

theorem readU32_u32BE (v : Nat) (rest : Bytes) :
    readU32 (u32BE v ++ rest) 0 = v % 4294967296 := by
  simp [readU32, u32BE, List.getD_cons_zero, List.getD_cons_succ]
  omega

theorem getD_append_shift (A l : Bytes) (p : Nat) :
    (A ++ l).getD (A.length + p) 0 = l.getD p 0 := by
  rw [List.getD_append_right A l 0 (A.length + p) (Nat.le_add_right _ _)]
  congr 1
  omega

theorem readU16_shift (A l : Bytes) (p : Nat) :
    readU16 (A ++ l) (A.length + p) = readU16 l p := by
  unfold readU16
  rw [show A.length + p + 1 = A.length + (p + 1) by omega]
  rw [getD_append_shift, getD_append_shift]

theorem readU32_shift (A l : Bytes) (p : Nat) :
    readU32 (A ++ l) (A.length + p) = readU32 l p := by
  unfold readU32
  rw [show A.length + p + 1 = A.length + (p + 1) by omega,
    show A.length + p + 2 = A.length + (p + 2) by omega,
    show A.length + p + 3 = A.length + (p + 3) by omega]
  rw [getD_append_shift, getD_append_shift, getD_append_shift, getD_append_shift]

theorem readU16_field (A : Bytes) (v : Nat) (rest : Bytes) (p : Nat) (hp : p = A.length) :
    readU16 (A ++ (u16BE v ++ rest)) p = v % 65536 := by
  subst hp
  rw [show A.length = A.length + 0 by omega, readU16_shift, readU16_u16BE]

theorem readU32_field (A : Bytes) (v : Nat) (rest : Bytes) (p : Nat) (hp : p = A.length) :
    readU32 (A ++ (u32BE v ++ rest)) p = v % 4294967296 := by
  subst hp
  rw [show A.length = A.length + 0 by omega, readU32_shift, readU32_u32BE]

theorem sliceE_append (A seg B : Bytes) :
    sliceE (A ++ (seg ++ B)) A.length (A.length + seg.length) = .ok seg := by
  unfold sliceE
  rw [if_pos]
  · rw [show A.length + seg.length - A.length = seg.length by omega]
    rw [List.drop_left, List.take_left]
  · constructor
    · omega
    · simp only [List.length_append]
      omega

theorem getD_take (l : Bytes) (m n : Nat) (h : n < m) : (l.take m).getD n 0 = l.getD n 0 := by
  induction l generalizing m n with
  | nil => simp
  | cons a l ih =>
      match m, n with
      | m + 1, 0 => simp
      | m + 1, n + 1 =>
          simp only [List.take_succ_cons, List.getD_cons_succ]
          exact ih m n (by omega)

/-! ## C7: container-header decode -/

/-- C7: for buffers shorter than the 20-byte container header, `FFNT.Decode`
fails with `truncatedInput`; for buffers of at least 20 bytes it succeeds and
reads magic, endianness, header size, version, total file size, and
block-read hint from bytes 0..20. -/
theorem ffnt_decode_spec (raw : Bytes) :
    (raw.length < FFNT_HEADER_SIZE → FFNT.Decode raw = .error .truncatedInput) ∧
    (FFNT_HEADER_SIZE ≤ raw.length → FFNT.Decode raw = .ok
      { MagicHeader := raw.take 4
        Endianness := readU16 raw 4
        SectionSize := readU16 raw 6
        Version := readU32 raw 8
        TotalFileSize := readU32 raw 12
        BlockReadNum := readU32 raw 16 }) := by
  constructor
  · intro h
    unfold FFNT.Decode sliceE
    rw [if_neg]
    · rfl
    · intro hc
      exact absurd hc.2 (by omega)
  · intro h
    unfold FFNT.Decode sliceE
    rw [if_pos ⟨by omega, h⟩]
    rw [ok_bind]
    simp only [List.drop_zero, Nat.sub_zero]
    congr 1
    have h20 : ∀ p : Nat, p + 2 ≤ 20 → readU16 (raw.take 20) p = readU16 raw p := by
      intro p hp
      unfold readU16
      rw [getD_take raw 20 p (by omega), getD_take raw 20 (p + 1) (by omega)]
    have h20' : ∀ p : Nat, p + 4 ≤ 20 → readU32 (raw.take 20) p = readU32 raw p := by
      intro p hp
      unfold readU32
      rw [getD_take raw 20 p (by omega), getD_take raw 20 (p + 1) (by omega),
        getD_take raw 20 (p + 2) (by omega), getD_take raw 20 (p + 3) (by omega)]
    have ht : (raw.take 20).take 4 = raw.take 4 := by
      rw [List.take_take]
      norm_num
    rw [FFNT_HEADER_SIZE]
    congr 1 <;> first
      | exact ht
      | exact h20 _ (by omega)
      | exact h20' _ (by omega)

/-- C7 witness: a 3-byte buffer is rejected as truncated; a concrete 20-byte
buffer decodes to exactly the fields read from bytes 0..20. -/
theorem ffnt_decode_spec_witness :
    FFNT.Decode [1, 2, 3] = .error .truncatedInput ∧
    FFNT.Decode (List.range 20) = .ok
      { MagicHeader := [0, 1, 2, 3]
        Endianness := 256 * 4 + 5
        SectionSize := 256 * 6 + 7
        Version := 16777216 * 8 + 65536 * 9 + 256 * 10 + 11
        TotalFileSize := 16777216 * 12 + 65536 * 13 + 256 * 14 + 15
        BlockReadNum := 16777216 * 16 + 65536 * 17 + 256 * 18 + 19 } := by
  constructor
  · exact (ffnt_decode_spec [1, 2, 3]).1 (by decide)
  · rw [(ffnt_decode_spec (List.range 20)).2 (by decide)]
    decide

/-! ## C6: kerning lookup returns zero on absence -/

theorem findPair_eq_zero (pairs : List kerningPair) (b : Nat)
    (h : ∀ p ∈ pairs, p.SecondChar ≠ b) : findPair pairs b = 0 := by
  induction pairs with
  | nil => rfl
  | cons s rest ih =>
      unfold findPair
      rw [if_neg]
      · exact ih fun p hp => h p (List.mem_cons_of_mem s hp)
      · intro hb
        exact h s (List.mem_cons_self s rest) (by rw [hb])

/-- C6: `Kern(a, b)` is 0 whenever `a` has no entry in the kerning table, or
`a`'s pair list contains no pair whose second character is `b`; the lookup is
total (it returns an `Int`, never an error), including on the empty table. -/
theorem kern_absent_zero (krng : KRNG) (a b : Nat)
    (h : mapLookup krng.KerningTable a = none ∨
      ∀ p ∈ lookupPairs krng.KerningTable a, p.SecondChar ≠ b) :
    KRNG.Kern krng a b = 0 := by
  unfold KRNG.Kern
  cases hl : mapLookup krng.KerningTable a with
  | none => rfl
  | some pairs =>
      rcases h with h | h
      · rw [hl] at h
        cases h
      · apply findPair_eq_zero
        intro p hp
        apply h
        unfold lookupPairs
        rw [hl]
        exact hp

/-- C6 witness: the empty table gives 0, and so does a table where the first
character is present but no pair has the requested second character. -/
theorem kern_absent_zero_witness :
    KRNG.Kern ⟨[], 0, []⟩ 65 66 = 0 ∧
    KRNG.Kern ⟨KRNG_MAGIC_HEADER, 0, [(65, [⟨86, -1⟩])]⟩ 65 87 = 0 := by
  constructor
  · exact kern_absent_zero ⟨[], 0, []⟩ 65 66 (Or.inl (by decide))
  · exact kern_absent_zero ⟨KRNG_MAGIC_HEADER, 0, [(65, [⟨86, -1⟩])]⟩ 65 87 (Or.inr (by decide))

/-! ## C5: the kerning scale transform -/

theorem wrapInt16_eq_self (z : Int) (h1 : -32768 ≤ z) (h2 : z ≤ 32767) : wrapInt16 z = z := by
  unfold wrapInt16
  omega

/-- C5: `Upscale(scale)` replaces every kerning value `v` by
`⌈v * scale⌉` across all pairs of all first characters, and leaves first
characters and second characters unchanged (provided each scaled value fits
the `int16` field it is stored into). -/
theorem krng_upscale_spec (krng : KRNG) (scale : ℚ)
    (h : ∀ e ∈ krng.KerningTable, ∀ p ∈ e.2,
      -32768 ≤ ⌈(p.KerningValue : ℚ) * scale⌉ ∧ ⌈(p.KerningValue : ℚ) * scale⌉ ≤ 32767) :
    (KRNG.Upscale krng scale).KerningTable =
      krng.KerningTable.map fun e => (e.1, e.2.map fun p =>
        { SecondChar := p.SecondChar
          KerningValue := ⌈(p.KerningValue : ℚ) * scale⌉ }) := by
  unfold KRNG.Upscale
  apply List.map_congr_left
  intro e he
  congr 1
  apply List.map_congr_left
  intro p hp
  have hz := h e he p hp
  congr 1
  exact wrapInt16_eq_self _ hz.1 hz.2

theorem int16_ceil_range (x : ℚ) (h1 : (-32768 : ℚ) ≤ x) (h2 : x ≤ (32767 : ℚ)) :
    -32768 ≤ ⌈x⌉ ∧ ⌈x⌉ ≤ 32767 := by
  constructor
  · have h3 : ((-32769 : ℤ) : ℚ) < x := by push_cast; linarith
    have := Int.lt_ceil.mpr h3
    omega
  · exact Int.ceil_le.mpr (by exact_mod_cast h2)

/-- C5 witness: upscaling a concrete table by 3/2 ceils every value and keeps
both characters of every pair. -/
theorem krng_upscale_spec_witness :
    (KRNG.Upscale ⟨KRNG_MAGIC_HEADER, 0, [(65, [⟨86, -1⟩, ⟨87, -3⟩]), (76, [⟨84, 5⟩])]⟩
        (3 / 2)).KerningTable =
      [(65, [⟨86, -1⟩, ⟨87, -4⟩]), (76, [⟨84, 8⟩])] := by
  rw [krng_upscale_spec ⟨KRNG_MAGIC_HEADER, 0, [(65, [⟨86, -1⟩, ⟨87, -3⟩]), (76, [⟨84, 5⟩])]⟩
    (3 / 2) ?_]
  · simp only [List.map_cons, List.map_nil]
    norm_num
    refine ⟨⟨?_, ?_⟩, ?_⟩ <;> rw [Int.ceil_eq_iff] <;> norm_num
  · intro e he p hp
    rcases List.mem_cons.mp he with rfl | he
    · rcases List.mem_cons.mp hp with rfl | hp
      · exact int16_ceil_range _ (by norm_num) (by norm_num)
      rcases List.mem_cons.mp hp with rfl | hp
      · exact int16_ceil_range _ (by norm_num) (by norm_num)
      · exact absurd hp (List.not_mem_nil _)
    rcases List.mem_cons.mp he with rfl | he
    · rcases List.mem_cons.mp hp with rfl | hp
      · exact int16_ceil_range _ (by norm_num) (by norm_num)
      · exact absurd hp (List.not_mem_nil _)
    · exact absurd he (List.not_mem_nil _)

/-! ## C10: locating the kerning section by magic scan -/

theorem matchKRNGAt_zero (raw : Bytes) :
    matchKRNGAt raw 0 ↔ raw.take 4 = KRNG_MAGIC_HEADER := by
  unfold matchKRNGAt
  rw [List.drop_zero]

theorem matchKRNGAt_succ (b : Nat) (rest : Bytes) (i : Nat) :
    matchKRNGAt (b :: rest) (i + 1) ↔ matchKRNGAt rest i := Iff.rfl

theorem matchKRNGAt_bound (raw : Bytes) (i : Nat) (h : matchKRNGAt raw i) :
    i + 4 ≤ raw.length := by
  unfold matchKRNGAt at h
  have hlen := congrArg List.length h
  simp only [List.length_take, List.length_drop, KRNG_MAGIC_HEADER, List.length_cons,
    List.length_nil] at hlen
  omega

theorem findKRNG_none (raw : Bytes) (h : findKRNG raw = none) : ∀ i, ¬ matchKRNGAt raw i := by
  induction raw with
  | nil =>
      intro i hi
      have := matchKRNGAt_bound [] i hi
      simp only [List.length_nil] at this
      omega
  | cons b rest ih =>
      intro i hi
      unfold findKRNG at h
      by_cases hm : (b :: rest).take 4 = KRNG_MAGIC_HEADER
      · rw [if_pos hm] at h
        cases h
      · rw [if_neg hm] at h
        match i with
        | 0 => exact hm ((matchKRNGAt_zero (b :: rest)).mp hi)
        | i + 1 =>
            have hrest : findKRNG rest = none := by
              cases hr : findKRNG rest with
              | none => rfl
              | some k => rw [hr] at h; cases h
            exact ih hrest i ((matchKRNGAt_succ b rest i).mp hi)

theorem findKRNG_some (raw : Bytes) (i : Nat) (h : findKRNG raw = some i) :
    matchKRNGAt raw i ∧ ∀ j, j < i → ¬ matchKRNGAt raw j := by
  induction raw generalizing i with
  | nil => cases h
  | cons b rest ih =>
      unfold findKRNG at h
      by_cases hm : (b :: rest).take 4 = KRNG_MAGIC_HEADER
      · rw [if_pos hm] at h
        cases h
        refine ⟨(matchKRNGAt_zero (b :: rest)).mpr hm, ?_⟩
        intro j hj
        omega
      · rw [if_neg hm] at h
        cases hr : findKRNG rest with
        | none => rw [hr] at h; cases h
        | some k =>
            rw [hr] at h
            obtain rfl : k + 1 = i := by simpa using h
            obtain ⟨h1, h2⟩ := ih k hr
            refine ⟨(matchKRNGAt_succ b rest k).mpr h1, ?_⟩
            intro j hj
            match j with
            | 0 => exact fun hj0 => hm ((matchKRNGAt_zero (b :: rest)).mp hj0)
            | j + 1 => exact fun hjj => h2 j (by omega) ((matchKRNGAt_succ b rest j).mp hjj)

/-- The one-step equation of the entry loop (holds by iota reduction). -/
theorem parseEntries_succ_eq (data : Bytes) (i dataPos total : Nat) (acc : KerningMap) :
    parseEntries data (i + 1) dataPos total acc = (do
      let firstChar ← readU16E data dataPos
      let secondCharOffset ← readU16E data (dataPos + 2)
      let secondCharCount ← readU16W data (secondCharOffset * 2 % 65536)
      let pairData ← sliceE data ((secondCharOffset * 2 % 65536 + 2) % 65536)
        ((secondCharOffset * 2 % 65536 + 2 + secondCharCount * 4) % 65536)
      let pairs ← parsePairs pairData secondCharCount 0
      parseEntries data i (dataPos + 4) (total + 6 + 4 * secondCharCount)
        (mapInsert acc firstChar pairs)) := rfl

theorem findKRNG_first (raw : Bytes) (i : Nat) (hm : matchKRNGAt raw i)
    (hmin : ∀ j, j < i → ¬ matchKRNGAt raw j) : findKRNG raw = some i := by
  cases hf : findKRNG raw with
  | none => exact absurd hm (findKRNG_none raw hf i)
  | some k =>
      obtain ⟨h1, h2⟩ := findKRNG_some raw k hf
      congr
      by_contra hne
      rcases Nat.lt_or_ge k i with hlt | hge
      · exact hmin k hlt h1
      · exact h2 i (by omega) hm

/-- C9 and C10 share `KRNG.Decode`; this is the decode entry equation. -/
theorem krng_decode_eq (raw : Bytes) :
    KRNG.Decode raw = match findKRNG raw with
      | none => .ok { MagicHeader := [], SectionSize := 0, KerningTable := [] }
      | some headerStart => krngDecodeFrom raw headerStart := rfl

/-- C10: the kerning-section start used by decode is the first byte index
where `"KRNG"` occurs anywhere in the buffer — any index qualifies, with no
alignment or section-boundary restriction — and when the tag occurs nowhere,
decode returns normally with the kerning table absent. -/
theorem krng_locate_spec (raw : Bytes) :
    ((∀ i < raw.length, ¬ matchKRNGAt raw i) → KRNG.Decode raw =
      .ok { MagicHeader := [], SectionSize := 0, KerningTable := [] }) ∧
    (∀ i, matchKRNGAt raw i → (∀ j < i, ¬ matchKRNGAt raw j) →
      KRNG.Decode raw = krngDecodeFrom raw i) := by
  constructor
  · intro h
    have hnone : findKRNG raw = none := by
      cases hf : findKRNG raw with
      | none => rfl
      | some k =>
          obtain ⟨h1, _⟩ := findKRNG_some raw k hf
          have hb := matchKRNGAt_bound raw k h1
          exact absurd h1 (h k (by omega))
    rw [krng_decode_eq, hnone]
  · intro i hm hmin
    rw [krng_decode_eq, findKRNG_first raw i hm hmin]

/-- C10 witness: a buffer with no tag decodes to the absent table, and a
buffer whose tag sits at the unaligned index 1 is parsed from exactly
there. -/
theorem krng_locate_spec_witness :
    KRNG.Decode [9, 9, 9] = .ok { MagicHeader := [], SectionSize := 0, KerningTable := [] } ∧
    KRNG.Decode ([9] ++ KRNG_MAGIC_HEADER ++ [0, 0, 0, 12, 0, 0, 0, 0]) =
      krngDecodeFrom ([9] ++ KRNG_MAGIC_HEADER ++ [0, 0, 0, 12, 0, 0, 0, 0]) 1 := by
  constructor
  · exact (krng_locate_spec [9, 9, 9]).1 (by decide)
  · exact (krng_locate_spec ([9] ++ KRNG_MAGIC_HEADER ++ [0, 0, 0, 12, 0, 0, 0, 0])).2 1
      (by decide) (by decide)

/-! ## C9: uint16 wrap in the decode offset arithmetic -/

/-- C9: in kerning decode, after reading an entry's stored offset `o`, the
pair count is read at byte position `(2 * o) % 2^16` of the section data and
the pair array is sliced from `(2 * o + 2) % 2^16` onward (the doubling and
the subsequent position arithmetic are 16-bit); consequently a stored offset
of `0x8000` or more wraps around (`2 * o - 65536`) instead of addressing
bytes beyond position 65535. -/
theorem krng_offset_wrap_spec (data : Bytes) (i dataPos total : Nat) (acc : KerningMap)
    (c o : Nat) (hc : readU16E data dataPos = .ok c)
    (ho : readU16E data (dataPos + 2) = .ok o) :
    parseEntries data (i + 1) dataPos total acc = (do
        let secondCharCount ← readU16W data (2 * o % 65536)
        let pairData ← sliceE data ((2 * o + 2) % 65536)
          ((2 * o + 2 + secondCharCount * 4) % 65536)
        let pairs ← parsePairs pairData secondCharCount 0
        parseEntries data i (dataPos + 4) (total + 6 + 4 * secondCharCount)
          (mapInsert acc c pairs)) ∧
      (32768 ≤ o → o < 65536 → 2 * o % 65536 = 2 * o - 65536) := by
  constructor
  · rw [parseEntries_succ_eq, hc, ho]
    simp only [ok_bind]
    simp only [show o * 2 = 2 * o from Nat.mul_comm o 2, Nat.add_assoc, Nat.mod_add_mod]
  · intro h1 h2
    omega

/-- C9 witness: an entry whose stored offset is `0x8000` makes decode read
the pair count back at position 0 of the section data. -/
theorem krng_offset_wrap_spec_witness :
    (parseEntries [0, 1, 0, 65, 128, 0] 1 2 2 [] = (do
        let secondCharCount ← readU16W [0, 1, 0, 65, 128, 0] (2 * 32768 % 65536)
        let pairData ← sliceE [0, 1, 0, 65, 128, 0] ((2 * 32768 + 2) % 65536)
          ((2 * 32768 + 2 + secondCharCount * 4) % 65536)
        let pairs ← parsePairs pairData secondCharCount 0
        parseEntries [0, 1, 0, 65, 128, 0] 0 6 (2 + 6 + 4 * secondCharCount)
          (mapInsert [] 65 pairs)) ∧
      (32768 ≤ 32768 → 32768 < 65536 → 2 * 32768 % 65536 = 2 * 32768 - 65536)) ∧
    parseEntries [0, 1, 0, 65, 128, 0] 1 2 2 [] =
      .ok ([(65, [⟨65, -32768⟩])], 12) := by
  constructor
  · exact krng_offset_wrap_spec [0, 1, 0, 65, 128, 0] 0 2 2 [] 65 32768
      (by decide) (by decide)
  · decide

/-! ## C4: encode-side entry order and halved offsets -/

theorem krngEntryBytes_reads (t : KerningMap) (ord : List Nat) :
    ∀ (off : Nat) (B : Bytes) (i : Nat), i < ord.length →
      readU16 (krngEntryBytes t ord off ++ B) (4 * i) = ord.getD i 0 % 65536 ∧
      readU16 (krngEntryBytes t ord off ++ B) (4 * i + 2) =
        (off + (((ord.take i).map fun c => 2 + 4 * (lookupPairs t c).length).sum)) / 2
          % 65536 := by
  induction ord with
  | nil =>
      intro off B i hi
      simp at hi
  | cons c rest ih =>
      intro off B i hi
      rw [krngEntryBytes]
      match i with
      | 0 =>
          simp only [List.append_assoc]
          constructor
          · rw [Nat.mul_zero, readU16_u16BE]
            simp
          · rw [show 4 * 0 + 2 = 2 by norm_num,
              readU16_field (u16BE c) (off / 2) _ 2 (by simp)]
            simp
      | j + 1 =>
          have hj : j < rest.length := by
            simp only [List.length_cons] at hi
            omega
          have IH := ih (off + 2 + 4 * (lookupPairs t c).length) B j hj
          simp only [List.append_assoc]
          rw [← List.append_assoc (u16BE c) (u16BE (off / 2))]
          constructor
          · rw [show 4 * (j + 1) = (u16BE c ++ u16BE (off / 2)).length + 4 * j by
              simp only [List.length_append, length_u16BE]; omega]
            rw [readU16_shift, IH.1]
            simp
          · rw [show 4 * (j + 1) + 2 = (u16BE c ++ u16BE (off / 2)).length + (4 * j + 2) by
              simp only [List.length_append, length_u16BE]; omega]
            rw [readU16_shift, IH.2]
            rw [List.take_succ_cons, List.map_cons, List.sum_cons]
            omega

theorem drop_section_header (m s x : Bytes) (hm : m.length = 4) (hs : s.length = 4) :
    (m ++ s ++ x).drop 8 = x := by
  have h8 : (m ++ s).length = 8 := by simp [hm, hs]
  rw [← h8]
  exact List.drop_left _ _

theorem krng_encodeOrdered_drop8 (t : KerningMap) (ord : List Nat) (so : Nat)
    (hne : ord ≠ []) :
    (KRNG.encodeOrdered t ord so).drop 8 =
      padToNext4ByteBoundary so (u16BE ord.length ++
        krngEntryBytes t ord (ord.length * 4 + 2) ++ krngPairArrayBytes t ord) := by
  have hne' : ord.isEmpty = false := by
    cases ord with
    | nil => exact absurd rfl hne
    | cons a l => rfl
  unfold KRNG.encodeOrdered
  rw [hne']
  rw [if_neg (by simp)]
  exact drop_section_header _ _ _ rfl (by simp)

theorem krng_encode_data_reads (t : KerningMap) (ord : List Nat) (so : Nat)
    (hne : ord ≠ []) :
    ∀ i < ord.length,
      readU16 ((KRNG.encodeOrdered t ord so).drop 8) (2 + 4 * i) = ord.getD i 0 % 65536 ∧
      readU16 ((KRNG.encodeOrdered t ord so).drop 8) (4 + 4 * i) =
        trueOffset t ord i / 2 % 65536 := by
  intro i hi
  rw [krng_encodeOrdered_drop8 t ord so hne]
  unfold padToNext4ByteBoundary
  simp only [List.append_assoc]
  constructor
  · rw [show 2 + 4 * i = (u16BE ord.length).length + 4 * i by simp]
    rw [readU16_shift]
    exact (krngEntryBytes_reads t ord (ord.length * 4 + 2) _ i hi).1
  · rw [show 4 + 4 * i = (u16BE ord.length).length + (4 * i + 2) by
      simp only [length_u16BE]; omega]
    rw [readU16_shift, (krngEntryBytes_reads t ord (ord.length * 4 + 2) _ i hi).2]
    unfold trueOffset
    omega

/-- C4 (amended): for every non-empty kerning table, encode emits the
first-character entries in ascending numeric order (the emitted order is
sorted and a permutation of the table's keys; entry `i`'s first char sits at
data bytes `2+4i`), and each entry's stored offset field equals the true
byte offset of its pair array divided by two *reduced mod 2^16* (it is
stored in a 16-bit field), where the true offsets start at
`2 + 4 × (number of first chars)` and advance by `2 + 4 × pairCount` per
preceding entry in the same order. -/
theorem krng_encode_order_offsets (krng : KRNG) (startOffset : Nat)
    (hne : krng.KerningTable ≠ [])
    (hk : ∀ c ∈ krng.KerningTable.map Prod.fst, c < 65536) :
    List.Sorted (· ≤ ·) (getFirstCharsOrdered krng.KerningTable) ∧
    (getFirstCharsOrdered krng.KerningTable).Perm (krng.KerningTable.map Prod.fst) ∧
    ∀ i < (getFirstCharsOrdered krng.KerningTable).length,
      readU16 ((KRNG.Encode krng startOffset).drop 8) (2 + 4 * i) =
        (getFirstCharsOrdered krng.KerningTable).getD i 0 ∧
      readU16 ((KRNG.Encode krng startOffset).drop 8) (4 + 4 * i) =
        trueOffset krng.KerningTable (getFirstCharsOrdered krng.KerningTable) i / 2
          % 65536 := by
  have hsort : List.Sorted (· ≤ ·) (getFirstCharsOrdered krng.KerningTable) :=
    List.sorted_insertionSort (α := Nat) (· ≤ ·) (krng.KerningTable.map Prod.fst)
  have hperm : (getFirstCharsOrdered krng.KerningTable).Perm (krng.KerningTable.map Prod.fst) :=
    List.perm_insertionSort (α := Nat) (· ≤ ·) (krng.KerningTable.map Prod.fst)
  refine ⟨hsort, hperm, ?_⟩
  intro i hi
  have hordne : getFirstCharsOrdered krng.KerningTable ≠ [] := by
    intro h0
    have hlen := hperm.length_eq
    rw [h0] at hlen
    simp only [List.length_nil, List.length_map] at hlen
    exact hne (List.length_eq_zero.mp hlen.symm)
  have hre := krng_encode_data_reads krng.KerningTable
    (getFirstCharsOrdered krng.KerningTable) startOffset hordne i hi
  have hKE : KRNG.Encode krng startOffset =
      KRNG.encodeOrdered krng.KerningTable (getFirstCharsOrdered krng.KerningTable)
        startOffset := rfl
  rw [hKE]
  refine ⟨?_, hre.2⟩
  rw [hre.1]
  have hmem : (getFirstCharsOrdered krng.KerningTable).getD i 0 ∈
      getFirstCharsOrdered krng.KerningTable := by
    rw [List.getD_eq_getElem _ _ hi]
    exact List.getElem_mem hi
  have hlt := hk _ (hperm.mem_iff.mp hmem)
  omega

/-- C4 counterexample: in a table whose first entry has 32767 pairs, the
second entry's true pair-array offset is 131080, whose half (65540) does not
fit the 16-bit stored field; the stored value is 4, not 65540 — so the
stored offset is not the true byte offset divided by two. -/
theorem bigTable_pairs_length : (lookupPairs bigKerningTable 65).length = 32767 := by
  simp only [lookupPairs, mapLookup, bigKerningTable]
  norm_num
  simp only [bigPairList]
  exact List.length_replicate 32767 _

theorem bigTable_trueOffset : trueOffset bigKerningTable [65, 67] 1 = 131080 := by
  rw [trueOffset]
  rw [show ([65, 67] : List Nat).take 1 = [65] from rfl]
  rw [List.map_cons, List.map_nil, List.sum_cons, List.sum_nil, bigTable_pairs_length]
  norm_num

theorem krng_halved_offset_counterexample :
    readU16 ((KRNG.Encode bigKRNG 0).drop 8) (4 + 4 * 1) ≠
      trueOffset bigKRNG.KerningTable (getFirstCharsOrdered bigKRNG.KerningTable) 1 / 2 := by
  have hproj : bigKRNG.KerningTable = bigKerningTable := rfl
  have hord : getFirstCharsOrdered bigKerningTable = [65, 67] := rfl
  have hdata := (krng_encode_data_reads bigKerningTable [65, 67] 0 (by decide) 1
    (by decide)).2
  have hke : KRNG.Encode bigKRNG 0 = KRNG.encodeOrdered bigKerningTable [65, 67] 0 := by
    show KRNG.encodeOrdered bigKRNG.KerningTable
      (getFirstCharsOrdered bigKRNG.KerningTable) 0 = _
    rw [hproj, hord]
  rw [hproj, hord, hke, hdata, bigTable_trueOffset]
  decide

/-- C4 witness: for a concrete out-of-order two-entry table, the amended
theorem yields the emitted chars 65 then 66 (ascending) and the stored
halved offsets 5 and 8. -/
theorem krng_encode_order_offsets_witness :
    (readU16 ((KRNG.Encode smallKRNG 0).drop 8) (2 + 4 * 0) =
        (getFirstCharsOrdered smallKRNG.KerningTable).getD 0 0 ∧
      readU16 ((KRNG.Encode smallKRNG 0).drop 8) (4 + 4 * 0) =
        trueOffset smallKRNG.KerningTable (getFirstCharsOrdered smallKRNG.KerningTable) 0 / 2
          % 65536) ∧
    (readU16 ((KRNG.Encode smallKRNG 0).drop 8) (2 + 4 * 1) =
        (getFirstCharsOrdered smallKRNG.KerningTable).getD 1 0 ∧
      readU16 ((KRNG.Encode smallKRNG 0).drop 8) (4 + 4 * 1) =
        trueOffset smallKRNG.KerningTable (getFirstCharsOrdered smallKRNG.KerningTable) 1 / 2
          % 65536) ∧
    (getFirstCharsOrdered smallKRNG.KerningTable).getD 0 0 = 65 ∧
    (getFirstCharsOrdered smallKRNG.KerningTable).getD 1 0 = 66 ∧
    trueOffset smallKRNG.KerningTable (getFirstCharsOrdered smallKRNG.KerningTable) 0 / 2
      % 65536 = 5 ∧
    trueOffset smallKRNG.KerningTable (getFirstCharsOrdered smallKRNG.KerningTable) 1 / 2
      % 65536 = 8 := by
  have h := krng_encode_order_offsets smallKRNG 0 (by decide) (by decide)
  exact ⟨h.2.2 0 (by decide), h.2.2 1 (by decide), by decide, by decide, by decide, by decide⟩

/-! ## C8: the flattened, sorted glyph-index enumeration -/

theorem flatMap_congr {α β : Type} (l : List α) (f g : α → List β)
    (h : ∀ a ∈ l, f a = g a) : l.flatMap f = l.flatMap g := by
  induction l with
  | nil => rfl
  | cons x l ih =>
      rw [List.flatMap_cons, List.flatMap_cons, h x (List.mem_cons_self x l),
        ih fun a ha => h a (List.mem_cons_of_mem x ha)]

theorem filterMapRange_zip (a idx : List Nat) (h : a.length ≤ idx.length) :
    ((List.range a.length).filterMap fun j =>
        if idx.getD j 0 ≠ 65535 then
          some ({ CharAscii := a.getD j 0, CharIndex := idx.getD j 0 } : AsciiIndexPair)
        else none).map (fun p => (p.CharAscii, p.CharIndex)) =
      (a.zip idx).filter fun pr => pr.2 != 65535 := by
  induction a generalizing idx with
  | nil => simp
  | cons x a ih =>
      match idx with
      | [] => simp at h
      | y :: idx =>
          have hlen : a.length ≤ idx.length := by simpa using h
          rw [show (x :: a).length = a.length + 1 from rfl, List.range_succ_eq_map,
            List.filterMap_cons, List.filterMap_map]
          have hfun : ((fun j =>
              if (y :: idx).getD j 0 ≠ 65535 then
                some ({ CharAscii := (x :: a).getD j 0,
                        CharIndex := (y :: idx).getD j 0 } : AsciiIndexPair)
              else none) ∘ (· + 1)) = fun j =>
              if idx.getD j 0 ≠ 65535 then
                some ({ CharAscii := a.getD j 0, CharIndex := idx.getD j 0 } : AsciiIndexPair)
              else none := by
            funext j
            simp [Function.comp, List.getD_cons_succ]
          rw [hfun, List.zip_cons_cons, List.filter_cons]
          simp only [List.getD_cons_zero]
          by_cases hy : y = 65535
          · rw [if_neg fun hne => hne hy]
            rw [if_neg (by simp [hy])]
            exact ih idx hlen
          · rw [if_pos hy]
            rw [if_pos (by simpa using hy)]
            rw [List.map_cons, ih idx hlen]

/-- C8: the flattened `(codepoint, glyphIndex)` enumeration contains exactly
the map-chain entries whose glyph index is not the sentinel 65535 (it is a
permutation of the sentinel-filtered zip of the per-block arrays), and is
sorted in ascending glyph-index order.  The hypothesis is the panic-freedom
condition of the Go loop (each block's index array covers its codepoint
array). -/
theorem glyphIndexes_spec (b : BFFNT)
    (h : ∀ c ∈ b.CMAPs, c.CharAscii.length ≤ c.CharIndex.length) :
    (b.GlyphIndexes.map fun p => (p.CharAscii, p.CharIndex)).Perm
      (b.CMAPs.flatMap fun c => (c.CharAscii.zip c.CharIndex).filter fun pr => pr.2 != 65535) ∧
    List.Sorted (fun p q : AsciiIndexPair => p.CharIndex ≤ q.CharIndex) b.GlyphIndexes := by
  constructor
  · show ((List.insertionSort (fun p q : AsciiIndexPair => p.CharIndex ≤ q.CharIndex)
      (b.CMAPs.flatMap fun cmap =>
        (List.range cmap.CharAscii.length).filterMap fun j =>
          if cmap.CharIndex.getD j 0 ≠ 65535 then
            some { CharAscii := cmap.CharAscii.getD j 0, CharIndex := cmap.CharIndex.getD j 0 }
          else none)).map fun p => (p.CharAscii, p.CharIndex)).Perm _
    have heq : ((b.CMAPs.flatMap fun cmap =>
        (List.range cmap.CharAscii.length).filterMap fun j =>
          if cmap.CharIndex.getD j 0 ≠ 65535 then
            some ({ CharAscii := cmap.CharAscii.getD j 0,
                    CharIndex := cmap.CharIndex.getD j 0 } : AsciiIndexPair)
          else none).map fun p => (p.CharAscii, p.CharIndex)) =
        b.CMAPs.flatMap fun c => (c.CharAscii.zip c.CharIndex).filter fun pr =>
          pr.2 != 65535 := by
      rw [List.map_flatMap]
      exact flatMap_congr _ _ _ fun c hc => filterMapRange_zip _ _ (h c hc)
    rw [← heq]
    exact (List.perm_insertionSort _ _).map _
  · exact List.sorted_insertionSort _ _

/-- C8 witness: on a document whose map chain holds a Table block and a Scan
block, both containing the 0xFFFF sentinel, the enumeration is exactly the
sentinel-free pairs in ascending glyph-index order. -/
theorem glyphIndexes_spec_witness :
    ((BFFNT.GlyphIndexes exDocMaps).map fun p => (p.CharAscii, p.CharIndex)).Perm
      (exDocMaps.CMAPs.flatMap fun c =>
        (c.CharAscii.zip c.CharIndex).filter fun pr => pr.2 != 65535) ∧
    List.Sorted (fun p q : AsciiIndexPair => p.CharIndex ≤ q.CharIndex)
      (BFFNT.GlyphIndexes exDocMaps) ∧
    BFFNT.GlyphIndexes exDocMaps = [⟨60, 1⟩, ⟨63, 2⟩, ⟨50, 5⟩, ⟨48, 7⟩] := by
  have h := glyphIndexes_spec exDocMaps (by decide)
  exact ⟨h.1, h.2, by decide⟩

/-! ## C2: the recomputed total-file-size field -/

theorem length_FFNT_Encode (f : FFNT) (fs : Nat) :
    (FFNT.Encode f fs).length = f.MagicHeader.length + 16 := by
  simp [FFNT.Encode]

theorem readU32_ffnt_12 (f : FFNT) (fs : Nat) (rest : Bytes)
    (hm : f.MagicHeader.length = 4) :
    readU32 (FFNT.Encode f fs ++ rest) 12 = fs % 4294967296 := by
  unfold FFNT.Encode
  simp only [List.append_assoc]
  rw [show (12 : Nat) = f.MagicHeader.length + 8 by omega, readU32_shift]
  rw [show (8 : Nat) = (u16BE f.Endianness).length + 6 by simp, readU32_shift]
  rw [show (6 : Nat) = (u16BE f.SectionSize).length + 4 by simp, readU32_shift]
  rw [show (4 : Nat) = (u32BE f.Version).length + 0 by simp, readU32_shift]
  rw [readU32_u32BE]

/-- C2: the big-endian `uint32` at bytes 12..16 of every encoded document is
the byte length of the entire output buffer (the sum of all encoded section
sizes plus the 20-byte header); it is recomputed on every encode and in
particular never depends on the `TotalFileSize` stored at decode time.  The
hypotheses are the 4-byte magic (asserted by the source) and that the file
size fits the 32-bit field. -/
theorem encode_total_size (b : BFFNT)
    (hm : b.FFNT.MagicHeader.length = 4)
    (hsz : (BFFNT.Encode b).length < 4294967296) :
    readU32 (BFFNT.Encode b) 12 = (BFFNT.Encode b).length ∧
    ∀ v : Nat, BFFNT.Encode { b with FFNT := { b.FFNT with TotalFileSize := v } } =
      BFFNT.Encode b := by
  refine ⟨?_, fun v => rfl⟩
  simp only [BFFNT.Encode, BFFNT.encodeWithKrng] at hsz ⊢
  set s2 : Bytes := TGLP.Encode b.TGLP with hs2
  set s3 : Bytes := EncodeCWDHs b.CWDHs (FFNT_HEADER_SIZE + FINF_HEADER_SIZE + 8 + s2.length)
    with hs3
  set s4 : Bytes := EncodeCMAPs b.CMAPs
    (FFNT_HEADER_SIZE + FINF_HEADER_SIZE + 8 + s2.length + s3.length) with hs4
  set s1 : Bytes := FINF.Encode b.FINF (FFNT_HEADER_SIZE + FINF_HEADER_SIZE + 8)
    (FFNT_HEADER_SIZE + FINF_HEADER_SIZE + 8 + s2.length)
    (FFNT_HEADER_SIZE + FINF_HEADER_SIZE + 8 + s2.length + s3.length) with hs1
  set s5 : Bytes := KRNG.Encode b.KRNG
    (FFNT_HEADER_SIZE + FINF_HEADER_SIZE + 8 + s2.length + s3.length + s4.length) with hs5
  simp only [List.append_assoc]
  rw [readU32_ffnt_12 _ _ _ hm]
  simp only [List.length_append, length_FFNT_Encode, hm, FFNT_HEADER_SIZE] at hsz ⊢
  omega

set_option maxRecDepth 20000 in
/-- C2 witness: on a concrete document (whose stored total size field is the
stale value 0), the emitted size field reads back as the real output length,
and overwriting the stored field does not change the output. -/
theorem encode_total_size_witness :
    readU32 (BFFNT.Encode exDoc) 12 = (BFFNT.Encode exDoc).length ∧
    (∀ v : Nat, BFFNT.Encode { exDoc with FFNT := { exDoc.FFNT with TotalFileSize := v } } =
      BFFNT.Encode exDoc) ∧
    (BFFNT.Encode exDoc).length = 160 := by
  have h := encode_total_size exDoc (by decide) (by decide)
  exact ⟨h.1, h.2, by decide⟩

/-! ## C3: the three forward offsets of the Font Info block -/

theorem drop_prefix (A x : Bytes) (n : Nat) (h : A.length = n) : (A ++ x).drop n = x :=
  List.drop_left' h

theorem finf_encode_offsets_read (finf : FINF) (t c m : Nat) (rest : Bytes) :
    readU32 (FINF.Encode finf t c m ++ rest) 20 = t % 4294967296 ∧
    readU32 (FINF.Encode finf t c m ++ rest) 24 = c % 4294967296 ∧
    readU32 (FINF.Encode finf t c m ++ rest) 28 = m % 4294967296 := by
  have hEq : FINF.Encode finf t c m ++ rest =
      (FINF_MAGIC ++ u32BE FINF_HEADER_SIZE ++ u8 finf.FontType ++ u8 finf.Height ++
        u8 finf.Width ++ u8 finf.Ascent ++ u16BE finf.LineFeed ++ u16BE finf.AlterCharIndex ++
        u8 finf.DefaultLeftWidth ++ u8 finf.DefaultGlyphWidth ++ u8 finf.DefaultCharWidth ++
        u8 finf.Encoding) ++
      (u32BE t ++ (u32BE c ++ (u32BE m ++ rest))) := by
    simp [FINF.Encode, List.append_assoc]
  have hA : (FINF_MAGIC ++ u32BE FINF_HEADER_SIZE ++ u8 finf.FontType ++ u8 finf.Height ++
      u8 finf.Width ++ u8 finf.Ascent ++ u16BE finf.LineFeed ++ u16BE finf.AlterCharIndex ++
      u8 finf.DefaultLeftWidth ++ u8 finf.DefaultGlyphWidth ++ u8 finf.DefaultCharWidth ++
      u8 finf.Encoding).length = 20 := by
    simp [FINF_MAGIC, u8]
  rw [hEq]
  refine ⟨?_, ?_, ?_⟩
  · exact readU32_field _ t _ 20 hA.symm
  · rw [show (24 : Nat) = 20 + 4 by norm_num, ← hA]
    rw [readU32_shift]
    rw [show (4 : Nat) = (u32BE t).length + 0 by simp, readU32_shift]
    rw [readU32_u32BE]
  · rw [show (28 : Nat) = 20 + 8 by norm_num, ← hA]
    rw [readU32_shift]
    rw [show (8 : Nat) = (u32BE t).length + 4 by simp, readU32_shift]
    rw [show (4 : Nat) = (u32BE c).length + 0 by simp, readU32_shift]
    rw [readU32_u32BE]

theorem length_FINF_Encode (finf : FINF) (t c m : Nat) :
    (FINF.Encode finf t c m).length = FINF_HEADER_SIZE := by
  simp [FINF.Encode, u8, FINF_MAGIC, FINF_HEADER_SIZE]

theorem readU32_after_ffnt (f : FFNT) (fs p : Nat) (rest : Bytes)
    (hm : f.MagicHeader.length = 4) :
    readU32 (FFNT.Encode f fs ++ rest) (20 + p) = readU32 rest p := by
  rw [show 20 + p = (FFNT.Encode f fs).length + p by rw [length_FFNT_Encode, hm]]
  rw [readU32_shift]

theorem drop_app2 (A B x : Bytes) (n : Nat) (h : A.length + B.length = n) :
    (A ++ (B ++ x)).drop n = x := by
  rw [← List.append_assoc]
  exact drop_prefix _ _ _ (by simp [h])

theorem drop_app3 (A B C x : Bytes) (n : Nat) (h : A.length + B.length + C.length = n) :
    (A ++ (B ++ (C ++ x))).drop n = x := by
  rw [← List.append_assoc, ← List.append_assoc]
  exact drop_prefix _ _ _ (by simp; omega)

theorem drop_app4 (A B C D x : Bytes) (n : Nat)
    (h : A.length + B.length + C.length + D.length = n) :
    (A ++ (B ++ (C ++ (D ++ x)))).drop n = x := by
  rw [← List.append_assoc, ← List.append_assoc, ← List.append_assoc]
  exact drop_prefix _ _ _ (by simp; omega)

/-- C3 (amended): after any encode, each of the Font Info's three stored
forward offsets (the `uint32`s at bytes 40, 44, 48) equals the byte position
of the corresponding section's *payload start* itself; equivalently, each
offset decremented by 8 is the byte position of the section's *start* — the
4-byte magic tag sits at `payloadPos - 8`, and the payload begins 8 bytes
after it, at the stored offset. -/
theorem finf_offsets_spec (b : BFFNT)
    (hm : b.FFNT.MagicHeader.length = 4)
    (hcw : b.CWDHs ≠ []) (hcm : b.CMAPs ≠ [])
    (hsz : cmapPayloadPos b < 4294967296) :
    (readU32 (BFFNT.Encode b) 40 = tglpPayloadPos ∧
     readU32 (BFFNT.Encode b) 44 = cwdhPayloadPos b ∧
     readU32 (BFFNT.Encode b) 48 = cmapPayloadPos b) ∧
    ((BFFNT.Encode b).drop (tglpPayloadPos - 8)).take 4 = TGLP_MAGIC ∧
    ((BFFNT.Encode b).drop (cwdhPayloadPos b - 8)).take 4 = CWDH_MAGIC ∧
    ((BFFNT.Encode b).drop (cmapPayloadPos b - 8)).take 4 = CMAP_MAGIC := by
  obtain ⟨c0, cs, hC⟩ := List.exists_cons_of_ne_nil hcw
  obtain ⟨m0, ms, hM⟩ := List.exists_cons_of_ne_nil hcm
  simp only [BFFNT.Encode, BFFNT.encodeWithKrng, tglpPayloadPos, cwdhPayloadPos,
    cmapPayloadPos] at hsz ⊢
  simp only [List.append_assoc]
  have hofs := finf_encode_offsets_read b.FINF
    (FFNT_HEADER_SIZE + FINF_HEADER_SIZE + 8)
    (FFNT_HEADER_SIZE + FINF_HEADER_SIZE + 8 + (TGLP.Encode b.TGLP).length)
    (FFNT_HEADER_SIZE + FINF_HEADER_SIZE + 8 + (TGLP.Encode b.TGLP).length +
      (EncodeCWDHs b.CWDHs
        (FFNT_HEADER_SIZE + FINF_HEADER_SIZE + 8 + (TGLP.Encode b.TGLP).length)).length)
    (TGLP.Encode b.TGLP ++
      (EncodeCWDHs b.CWDHs
          (FFNT_HEADER_SIZE + FINF_HEADER_SIZE + 8 + (TGLP.Encode b.TGLP).length) ++
        (EncodeCMAPs b.CMAPs
            (FFNT_HEADER_SIZE + FINF_HEADER_SIZE + 8 + (TGLP.Encode b.TGLP).length +
              (EncodeCWDHs b.CWDHs (FFNT_HEADER_SIZE + FINF_HEADER_SIZE + 8 +
                (TGLP.Encode b.TGLP).length)).length) ++
          KRNG.Encode b.KRNG
            (FFNT_HEADER_SIZE + FINF_HEADER_SIZE + 8 + (TGLP.Encode b.TGLP).length +
              (EncodeCWDHs b.CWDHs (FFNT_HEADER_SIZE + FINF_HEADER_SIZE + 8 +
                (TGLP.Encode b.TGLP).length)).length +
              (EncodeCMAPs b.CMAPs
                (FFNT_HEADER_SIZE + FINF_HEADER_SIZE + 8 + (TGLP.Encode b.TGLP).length +
                  (EncodeCWDHs b.CWDHs (FFNT_HEADER_SIZE + FINF_HEADER_SIZE + 8 +
                    (TGLP.Encode b.TGLP).length)).length)).length))))
  constructor
  · refine ⟨?_, ?_, ?_⟩
    · rw [show (40 : Nat) = 20 + 20 by norm_num, readU32_after_ffnt _ _ _ _ hm, hofs.1]
      simp [FFNT_HEADER_SIZE, FINF_HEADER_SIZE]
    · rw [show (44 : Nat) = 20 + 24 by norm_num, readU32_after_ffnt _ _ _ _ hm, hofs.2.1]
      apply Nat.mod_eq_of_lt
      simp only [FFNT_HEADER_SIZE, FINF_HEADER_SIZE] at hsz ⊢
      omega
    · rw [show (48 : Nat) = 20 + 28 by norm_num, readU32_after_ffnt _ _ _ _ hm, hofs.2.2]
      apply Nat.mod_eq_of_lt
      simp only [FFNT_HEADER_SIZE, FINF_HEADER_SIZE] at hsz ⊢
      omega
  refine ⟨?_, ?_, ?_⟩
  · rw [show FFNT_HEADER_SIZE + FINF_HEADER_SIZE + 8 - 8 =
      FFNT_HEADER_SIZE + FINF_HEADER_SIZE by omega]
    rw [drop_app2 _ _ _ _ (by
      simp only [length_FFNT_Encode, length_FINF_Encode, hm, FFNT_HEADER_SIZE,
        FINF_HEADER_SIZE] <;> omega)]
    simp only [TGLP.Encode, List.append_assoc]
    exact List.take_left' rfl
  · rw [show FFNT_HEADER_SIZE + FINF_HEADER_SIZE + 8 + (TGLP.Encode b.TGLP).length - 8 =
      FFNT_HEADER_SIZE + FINF_HEADER_SIZE + (TGLP.Encode b.TGLP).length by omega]
    rw [drop_app3 _ _ _ _ _ (by
      simp only [length_FFNT_Encode, length_FINF_Encode, hm, FFNT_HEADER_SIZE,
        FINF_HEADER_SIZE] <;> omega)]
    rw [hC]
    simp only [EncodeCWDHs, CWDH.blockBytes, List.append_assoc]
    exact List.take_left' rfl
  · rw [show FFNT_HEADER_SIZE + FINF_HEADER_SIZE + 8 + (TGLP.Encode b.TGLP).length +
      (EncodeCWDHs b.CWDHs
        (FFNT_HEADER_SIZE + FINF_HEADER_SIZE + 8 + (TGLP.Encode b.TGLP).length)).length - 8 =
      FFNT_HEADER_SIZE + FINF_HEADER_SIZE + (TGLP.Encode b.TGLP).length +
      (EncodeCWDHs b.CWDHs
        (FFNT_HEADER_SIZE + FINF_HEADER_SIZE + 8 + (TGLP.Encode b.TGLP).length)).length
      by omega]
    rw [drop_app4 _ _ _ _ _ _ (by
      simp only [length_FFNT_Encode, length_FINF_Encode, hm, FFNT_HEADER_SIZE,
        FINF_HEADER_SIZE] <;> omega)]
    rw [hM]
    simp only [EncodeCMAPs, CMAP.blockBytes, List.append_assoc]
    exact List.take_left' rfl

/-- C3 counterexample: on a concrete document the TGLP section's payload
starts at byte 60 (= `tglpPayloadPos`; its magic tag sits at byte 52), and
the stored offset at byte 40 is 60 itself — so the stored offset decremented
by 8 (= 52, the section start) does *not* equal the payload start. -/
theorem finf_offsets_claim_counterexample :
    ((BFFNT.Encode exDoc).drop (tglpPayloadPos - 8)).take 4 = TGLP_MAGIC ∧
    ¬ (readU32 (BFFNT.Encode exDoc) 40 - 8 = tglpPayloadPos) := by
  constructor
  · decide
  · decide

set_option maxRecDepth 20000 in
/-- C3 witness: on a concrete document the three stored offsets read back as
60, 92 and 116, the payload positions of the three sections, whose magic
tags sit 8 bytes earlier. -/
theorem finf_offsets_spec_witness :
    ((readU32 (BFFNT.Encode exDoc) 40 = tglpPayloadPos ∧
      readU32 (BFFNT.Encode exDoc) 44 = cwdhPayloadPos exDoc ∧
      readU32 (BFFNT.Encode exDoc) 48 = cmapPayloadPos exDoc) ∧
    ((BFFNT.Encode exDoc).drop (tglpPayloadPos - 8)).take 4 = TGLP_MAGIC ∧
    ((BFFNT.Encode exDoc).drop (cwdhPayloadPos exDoc - 8)).take 4 = CWDH_MAGIC ∧
    ((BFFNT.Encode exDoc).drop (cmapPayloadPos exDoc - 8)).take 4 = CMAP_MAGIC) ∧
    tglpPayloadPos = 60 ∧ cwdhPayloadPos exDoc = 92 ∧ cmapPayloadPos exDoc = 116 := by
  refine ⟨finf_offsets_spec exDoc (by decide) (by decide) (by decide) (by decide),
    by decide, by decide, by decide⟩

/-! ## C1: decode-side helpers -/

theorem sliceE_zero (raw : Bytes) (n : Nat) (h : n ≤ raw.length) :
    sliceE raw 0 n = .ok (raw.take n) := by
  unfold sliceE
  rw [if_pos ⟨Nat.zero_le n, h⟩]
  simp

theorem readU16_u16BE_self (v : Nat) : readU16 (u16BE v) 0 = v % 65536 := by
  simp [readU16, u16BE, List.getD_cons_zero, List.getD_cons_succ]
  omega

theorem readU32_u32BE_self (v : Nat) : readU32 (u32BE v) 0 = v % 4294967296 := by
  simp [readU32, u32BE, List.getD_cons_zero, List.getD_cons_succ]
  omega

theorem readU16E_field (A : Bytes) (v : Nat) (rest : Bytes) (p : Nat) (hp : p = A.length) :
    readU16E (A ++ (u16BE v ++ rest)) p = .ok (v % 65536) := by
  unfold readU16E
  rw [hp, show A.length + 2 = A.length + (u16BE v).length by simp]
  rw [sliceE_append, ok_bind, readU16_u16BE_self]
  rfl

theorem readU32E_field (A : Bytes) (v : Nat) (rest : Bytes) (p : Nat) (hp : p = A.length) :
    readU32E (A ++ (u32BE v ++ rest)) p = .ok (v % 4294967296) := by
  unfold readU32E
  rw [hp, show A.length + 4 = A.length + (u32BE v).length by simp]
  rw [sliceE_append, ok_bind, readU32_u32BE_self]
  rfl

theorem toInt8_int8Byte (z : Int) (h1 : -128 ≤ z) (h2 : z ≤ 127) :
    toInt8 (int8Byte z) = z := by
  unfold toInt8 int8Byte
  have h3 : z % 256 = z ∨ z % 256 = z + 256 := by omega
  rcases h3 with h3 | h3 <;> · rw [h3]; split <;> omega

theorem toInt16_store (z : Int) (h1 : -32768 ≤ z) (h2 : z ≤ 32767) :
    toInt16 ((z % 65536).toNat % 65536) = z := by
  unfold toInt16
  have h3 : z % 65536 = z ∨ z % 65536 = z + 65536 := by omega
  rcases h3 with h3 | h3 <;> · rw [h3]; split <;> omega

/-! ### FFNT round-trip -/

theorem ffnt_decode_of_encode (f : FFNT) (fs : Nat) (rest : Bytes)
    (hm : f.MagicHeader.length = 4) (he : f.Endianness < 65536) (hs : f.SectionSize < 65536)
    (hv : f.Version < 4294967296) (hb : f.BlockReadNum < 4294967296) :
    FFNT.Decode (FFNT.Encode f fs ++ rest) = .ok
      { f with TotalFileSize := fs % 4294967296 } := by
  have hlen20 : (FFNT.Encode f fs).length = FFNT_HEADER_SIZE := by
    rw [length_FFNT_Encode, hm]
    rfl
  unfold FFNT.Decode
  rw [sliceE_zero _ _ (by simp only [List.length_append, hlen20]; omega)]
  rw [List.take_append_of_le_length (by omega), List.take_of_length_le (by omega)]
  rw [ok_bind]
  have hx : FFNT.Encode f fs = f.MagicHeader ++ (u16BE f.Endianness ++ (u16BE f.SectionSize ++
      (u32BE f.Version ++ (u32BE fs ++ u32BE f.BlockReadNum)))) := by
    simp [FFNT.Encode, List.append_assoc]
  congr 1
  have take4 : (FFNT.Encode f fs).take 4 = f.MagicHeader := by
    rw [hx]
    exact List.take_append_of_le_length (by omega) |>.trans (List.take_of_length_le (by omega))
  have r4 : readU16 (FFNT.Encode f fs) 4 = f.Endianness := by
    rw [hx, show (4 : Nat) = f.MagicHeader.length + 0 by omega, readU16_shift,
      readU16_u16BE, Nat.mod_eq_of_lt he]
  have r6 : readU16 (FFNT.Encode f fs) 6 = f.SectionSize := by
    rw [hx, show (6 : Nat) = f.MagicHeader.length + 2 by omega, readU16_shift,
      show (2 : Nat) = (u16BE f.Endianness).length + 0 by simp, readU16_shift,
      readU16_u16BE, Nat.mod_eq_of_lt hs]
  have r8 : readU32 (FFNT.Encode f fs) 8 = f.Version := by
    rw [hx, show (8 : Nat) = f.MagicHeader.length + 4 by omega, readU32_shift,
      show (4 : Nat) = (u16BE f.Endianness).length + 2 by simp, readU32_shift,
      show (2 : Nat) = (u16BE f.SectionSize).length + 0 by simp, readU32_shift,
      readU32_u32BE, Nat.mod_eq_of_lt hv]
  have r12 : readU32 (FFNT.Encode f fs) 12 = fs % 4294967296 := by
    have h := readU32_ffnt_12 f fs [] hm
    rwa [List.append_nil] at h
  have r16 : readU32 (FFNT.Encode f fs) 16 = f.BlockReadNum := by
    rw [hx, show (16 : Nat) = f.MagicHeader.length + 12 by omega, readU32_shift,
      show (12 : Nat) = (u16BE f.Endianness).length + 10 by simp, readU32_shift,
      show (10 : Nat) = (u16BE f.SectionSize).length + 8 by simp, readU32_shift,
      show (8 : Nat) = (u32BE f.Version).length + 4 by simp, readU32_shift,
      show (4 : Nat) = (u32BE fs).length + 0 by simp, readU32_shift,
      readU32_u32BE_self, Nat.mod_eq_of_lt hb]
  rw [take4, r4, r6, r8, r12, r16]

/-! ### C1: more read/length primitives -/

theorem getD_drop (l : Bytes) (m k : Nat) : (l.drop m).getD k 0 = l.getD (m + k) 0 := by
  induction l generalizing m with
  | nil => simp
  | cons a l ih =>
      cases m with
      | zero => simp
      | succ m =>
          rw [show m + 1 + k = (m + k) + 1 by omega]
          simpa using ih m

theorem readU16E_eq (raw : Bytes) (p : Nat) (h : p + 2 ≤ raw.length) :
    readU16E raw p = .ok (readU16 raw p) := by
  unfold readU16E sliceE
  rw [if_pos ⟨by omega, h⟩, ok_bind]
  show Except.ok _ = _
  rw [show p + 2 - p = 2 by omega]
  unfold readU16
  rw [getD_take _ _ _ (by norm_num), getD_take _ _ _ (by norm_num), getD_drop, getD_drop]
  norm_num

theorem readU32E_eq (raw : Bytes) (p : Nat) (h : p + 4 ≤ raw.length) :
    readU32E raw p = .ok (readU32 raw p) := by
  unfold readU32E sliceE
  rw [if_pos ⟨by omega, h⟩, ok_bind]
  show Except.ok _ = _
  rw [show p + 4 - p = 4 by omega]
  unfold readU32
  rw [getD_take _ _ _ (by norm_num), getD_take _ _ _ (by norm_num),
    getD_take _ _ _ (by norm_num), getD_take _ _ _ (by norm_num),
    getD_drop, getD_drop, getD_drop, getD_drop]
  norm_num

theorem readU16W_eq (raw : Bytes) (p : Nat) (hlt : p + 2 < 65536) (h : p + 2 ≤ raw.length) :
    readU16W raw p = .ok (readU16 raw p) := by
  unfold readU16W
  rw [Nat.mod_eq_of_lt hlt]
  exact readU16E_eq raw p h

theorem length_u8 (v : Nat) : (u8 v).length = 1 := rfl

theorem length_pairBytes (p : kerningPair) : (pairBytes p).length = 4 := rfl

theorem length_glyphBytes (g : glyphInfo) : (glyphBytes g).length = 3 := rfl

theorem length_flatMap_pairBytes (ps : List kerningPair) :
    (ps.flatMap pairBytes).length = 4 * ps.length := by
  induction ps with
  | nil => rfl
  | cons p ps ih =>
      rw [List.flatMap_cons, List.length_append, length_pairBytes, ih, List.length_cons]
      omega

theorem length_flatMap_glyphBytes (gs : List glyphInfo) :
    (gs.flatMap glyphBytes).length = 3 * gs.length := by
  induction gs with
  | nil => rfl
  | cons g gs ih =>
      rw [List.flatMap_cons, List.length_append, length_glyphBytes, ih, List.length_cons]
      omega

theorem length_flatMap_u16BE (es : List Nat) : (es.flatMap u16BE).length = 2 * es.length := by
  induction es with
  | nil => rfl
  | cons e es ih =>
      rw [List.flatMap_cons, List.length_append, length_u16BE, ih, List.length_cons]
      omega

theorem length_flatMap_scan (ps : List (Nat × Nat)) :
    (ps.flatMap fun pr => u16BE pr.1 ++ u16BE pr.2).length = 4 * ps.length := by
  induction ps with
  | nil => rfl
  | cons p ps ih =>
      rw [List.flatMap_cons, List.length_append, ih, List.length_cons]
      simp only [List.length_append, length_u16BE]
      omega

theorem length_krngEntryBytes (t : KerningMap) :
    ∀ (ord : List Nat) (off : Nat), (krngEntryBytes t ord off).length = 4 * ord.length := by
  intro ord
  induction ord with
  | nil => intro off; rfl
  | cons c rest ih =>
      intro off
      rw [krngEntryBytes]
      simp only [List.length_append, length_u16BE, ih, List.length_cons]
      omega

theorem length_krngPairArrayBytes (t : KerningMap) (ord : List Nat) :
    (krngPairArrayBytes t ord).length =
      ((ord.map fun c => 2 + 4 * (lookupPairs t c).length).sum) := by
  induction ord with
  | nil => rfl
  | cons c rest ih =>
      unfold krngPairArrayBytes at ih ⊢
      rw [List.flatMap_cons, List.length_append, ih, List.map_cons, List.sum_cons]
      simp only [List.length_append, length_u16BE, length_flatMap_pairBytes]

/-! ### C1: association-list (Go map) lemmas -/

theorem mapLookup_self (t : KerningMap) (hnd : (t.map Prod.fst).Nodup) :
    ∀ e ∈ t, mapLookup t e.1 = some e.2 := by
  induction t with
  | nil => intro e he; cases he
  | cons a t ih =>
      obtain ⟨k, v⟩ := a
      intro e he
      simp only [List.map_cons, List.nodup_cons] at hnd
      rcases List.mem_cons.mp he with rfl | he
      · simp [mapLookup]
      · have hne : ¬ (k = e.1) := fun heq => hnd.1 (by
          rw [heq]
          exact List.mem_map_of_mem Prod.fst he)
        rw [show mapLookup ((k, v) :: t) e.1 =
          if k = e.1 then some v else mapLookup t e.1 from rfl, if_neg hne]
        exact ih hnd.2 e he

theorem mapLookup_not_mem (t : KerningMap) (c : Nat) (h : c ∉ t.map Prod.fst) :
    mapLookup t c = none := by
  induction t with
  | nil => rfl
  | cons a t ih =>
      obtain ⟨k, v⟩ := a
      simp only [List.map_cons, List.mem_cons, not_or] at h
      rw [show mapLookup ((k, v) :: t) c =
        if k = c then some v else mapLookup t c from rfl, if_neg fun heq => h.1 heq.symm]
      exact ih h.2

theorem mapInsert_fresh (t : KerningMap) (c : Nat) (v : List kerningPair)
    (h : c ∉ t.map Prod.fst) : mapInsert t c v = t ++ [(c, v)] := by
  induction t with
  | nil => rfl
  | cons a t ih =>
      obtain ⟨k, v'⟩ := a
      simp only [List.map_cons, List.mem_cons, not_or] at h
      rw [show mapInsert ((k, v') :: t) c v =
        if k = c then (c, v) :: t else (k, v') :: mapInsert t c v from rfl,
        if_neg fun heq => h.1 heq.symm, ih h.2]
      rfl

theorem mapLookup_graph (f : Nat → List kerningPair) (l : List Nat) (c : Nat) :
    mapLookup (l.map fun k => (k, f k)) c = if c ∈ l then some (f c) else none := by
  induction l with
  | nil => simp [mapLookup]
  | cons a l ih =>
      simp only [List.map_cons]
      rw [show mapLookup ((a, f a) :: l.map fun k => (k, f k)) c =
        if a = c then some (f a) else mapLookup (l.map fun k => (k, f k)) c from rfl]
      by_cases hac : a = c
      · subst hac
        rw [if_pos rfl, if_pos (List.mem_cons_self a l)]
      · rw [if_neg hac, ih]
        by_cases hcl : c ∈ l
        · rw [if_pos hcl, if_pos (List.mem_cons_of_mem a hcl)]
        · rw [if_neg hcl, if_neg (by
            simp only [List.mem_cons, not_or]
            exact ⟨fun heq => hac heq.symm, hcl⟩)]

/-! ### C1: sum and offset arithmetic -/

theorem pairSum_perm (t : KerningMap) (ord : List Nat)
    (hnd : (t.map Prod.fst).Nodup) (hperm : ord.Perm (t.map Prod.fst)) :
    (ord.map fun c => 2 + 4 * (lookupPairs t c).length).sum =
      (t.map fun e => 2 + 4 * e.2.length).sum := by
  rw [(hperm.map fun c => 2 + 4 * (lookupPairs t c).length).sum_eq, List.map_map]
  refine congrArg List.sum (List.map_congr_left fun e he => ?_)
  simp only [Function.comp_apply, lookupPairs, mapLookup_self t hnd e he, Option.getD_some]

theorem sum6_eq (g : Nat → Nat) (l : List Nat) :
    (l.map fun c => 6 + 4 * g c).sum = 4 * l.length + (l.map fun c => 2 + 4 * g c).sum := by
  induction l with
  | nil => rfl
  | cons a l ih =>
      simp only [List.map_cons, List.sum_cons, List.length_cons, ih]
      omega

theorem pairSum_even (t : KerningMap) (l : List Nat) :
    ((l.map fun c => 2 + 4 * (lookupPairs t c).length).sum) % 2 = 0 := by
  induction l with
  | nil => rfl
  | cons a l ih =>
      simp only [List.map_cons, List.sum_cons]
      omega

theorem pairSum_take_le (t : KerningMap) (ord : List Nat) (i : Nat) :
    ((ord.take i).map fun c => 2 + 4 * (lookupPairs t c).length).sum ≤
      (ord.map fun c => 2 + 4 * (lookupPairs t c).length).sum := by
  conv_rhs => rw [← List.take_append_drop i ord]
  rw [List.map_append, List.sum_append]
  omega

theorem trueOffset_even (t : KerningMap) (ord : List Nat) (i : Nat) :
    trueOffset t ord i % 2 = 0 := by
  unfold trueOffset
  have := pairSum_even t (ord.take i)
  omega

theorem trueOffset_le (t : KerningMap) (ord : List Nat) (i : Nat) :
    trueOffset t ord i ≤
      2 + 4 * ord.length + (ord.map fun c => 2 + 4 * (lookupPairs t c).length).sum := by
  unfold trueOffset
  have := pairSum_take_le t ord i
  omega

/-! ### C1: the flat-array parsers applied to their encoders -/

theorem parsePairs_succ (pd : Bytes) (n pos : Nat) :
    parsePairs pd (n + 1) pos = (do
      let secondChar ← readU16E pd pos
      let kerningValue ← readU16E pd (pos + 2)
      let rest ← parsePairs pd n (pos + 4)
      pure (⟨secondChar, toInt16 kerningValue⟩ :: rest)) := rfl

theorem parseGlyphs_succ (raw : Bytes) (n p : Nat) :
    parseGlyphs raw (n + 1) p = (do
      let s ← sliceE raw p (p + 3)
      let rest ← parseGlyphs raw n (p + 3)
      pure ({ LeftWidth := toInt8 (s.getD 0 0), GlyphWidth := s.getD 1 0,
              CharWidth := s.getD 2 0 } :: rest)) := rfl

theorem parseU16s_succ (raw : Bytes) (n p : Nat) :
    parseU16s raw (n + 1) p = (do
      let v ← readU16E raw p
      let rest ← parseU16s raw n (p + 2)
      pure (v :: rest)) := rfl

theorem parseScanPairs_succ (raw : Bytes) (n p : Nat) :
    parseScanPairs raw (n + 1) p = (do
      let a ← readU16E raw p
      let b ← readU16E raw (p + 2)
      let rest ← parseScanPairs raw n (p + 4)
      pure ((a, b) :: rest)) := rfl

theorem parsePairs_encode (ps : List kerningPair) (hv : ∀ p ∈ ps, validPair p) :
    ∀ (pre rest : Bytes) (pos : Nat), pos = pre.length →
      parsePairs (pre ++ (ps.flatMap pairBytes ++ rest)) ps.length pos = .ok ps := by
  induction ps with
  | nil => intro pre rest pos hp; rfl
  | cons p ps ih =>
      intro pre rest pos hp
      obtain ⟨hsc, hk1, hk2⟩ := hv p (List.mem_cons_self p ps)
      rw [List.flatMap_cons]
      rw [show pre ++ ((pairBytes p ++ ps.flatMap pairBytes) ++ rest) =
        pre ++ (u16BE p.SecondChar ++ ((u16BE (p.KerningValue % 65536).toNat) ++
          (ps.flatMap pairBytes ++ rest))) from by simp [pairBytes, List.append_assoc]]
      show parsePairs _ (ps.length + 1) pos = _
      rw [parsePairs_succ, readU16E_field pre p.SecondChar _ pos hp, ok_bind]
      rw [show pre ++ (u16BE p.SecondChar ++ ((u16BE (p.KerningValue % 65536).toNat) ++
          (ps.flatMap pairBytes ++ rest))) =
        (pre ++ u16BE p.SecondChar) ++ ((u16BE (p.KerningValue % 65536).toNat) ++
          (ps.flatMap pairBytes ++ rest)) from by simp [List.append_assoc]]
      rw [readU16E_field _ _ _ (pos + 2) (by simp [hp]), ok_bind]
      rw [show (pre ++ u16BE p.SecondChar) ++ ((u16BE (p.KerningValue % 65536).toNat) ++
          (ps.flatMap pairBytes ++ rest)) =
        ((pre ++ u16BE p.SecondChar) ++ u16BE (p.KerningValue % 65536).toNat) ++
          (ps.flatMap pairBytes ++ rest) from by simp [List.append_assoc]]
      rw [ih (fun q hq => hv q (List.mem_cons_of_mem p hq)) _ rest (pos + 4) (by simp [hp]),
        ok_bind]
      rw [Nat.mod_eq_of_lt hsc, toInt16_store p.KerningValue hk1 hk2]
      rfl

theorem parseGlyphs_encode (gs : List glyphInfo) (hv : ∀ g ∈ gs, validGlyph g) :
    ∀ (pre rest : Bytes) (p : Nat), p = pre.length →
      parseGlyphs (pre ++ (gs.flatMap glyphBytes ++ rest)) gs.length p = .ok gs := by
  induction gs with
  | nil => intro pre rest p hp; rfl
  | cons g gs ih =>
      intro pre rest p hp
      obtain ⟨h1, h2, h3, h4⟩ := hv g (List.mem_cons_self g gs)
      rw [List.flatMap_cons]
      rw [show pre ++ ((glyphBytes g ++ gs.flatMap glyphBytes) ++ rest) =
        pre ++ (glyphBytes g ++ (gs.flatMap glyphBytes ++ rest)) from by
          simp [List.append_assoc]]
      show parseGlyphs _ (gs.length + 1) p = _
      rw [parseGlyphs_succ]
      rw [show p + 3 = pre.length + (glyphBytes g).length from by
        rw [hp, length_glyphBytes], hp]
      rw [sliceE_append, ok_bind]
      rw [show pre ++ (glyphBytes g ++ (gs.flatMap glyphBytes ++ rest)) =
        (pre ++ glyphBytes g) ++ (gs.flatMap glyphBytes ++ rest) from by
          simp [List.append_assoc]]
      rw [show pre.length + (glyphBytes g).length = (pre ++ glyphBytes g).length from by
        simp]
      rw [ih (fun q hq => hv q (List.mem_cons_of_mem g hq)) _ rest _ rfl, ok_bind]
      show Except.ok _ = _
      unfold glyphBytes
      simp only [List.getD_cons_zero, List.getD_cons_succ]
      rw [toInt8_int8Byte g.LeftWidth h1 h2, Nat.mod_eq_of_lt h3, Nat.mod_eq_of_lt h4]

theorem parseU16s_encode (es : List Nat) (hv : ∀ e ∈ es, e < 65536) :
    ∀ (pre rest : Bytes) (p : Nat), p = pre.length →
      parseU16s (pre ++ (es.flatMap u16BE ++ rest)) es.length p = .ok es := by
  induction es with
  | nil => intro pre rest p hp; rfl
  | cons e es ih =>
      intro pre rest p hp
      rw [List.flatMap_cons]
      rw [show pre ++ ((u16BE e ++ es.flatMap u16BE) ++ rest) =
        pre ++ (u16BE e ++ (es.flatMap u16BE ++ rest)) from by simp [List.append_assoc]]
      show parseU16s _ (es.length + 1) p = _
      rw [parseU16s_succ, readU16E_field pre e _ p hp, ok_bind]
      rw [show pre ++ (u16BE e ++ (es.flatMap u16BE ++ rest)) =
        (pre ++ u16BE e) ++ (es.flatMap u16BE ++ rest) from by simp [List.append_assoc]]
      rw [ih (fun q hq => hv q (List.mem_cons_of_mem e hq)) _ rest (p + 2) (by simp [hp]),
        ok_bind, Nat.mod_eq_of_lt (hv e (List.mem_cons_self e es))]
      rfl

theorem parseScanPairs_encode (ps : List (Nat × Nat))
    (hv : ∀ q ∈ ps, q.1 < 65536 ∧ q.2 < 65536) :
    ∀ (pre rest : Bytes) (p : Nat), p = pre.length →
      parseScanPairs (pre ++ ((ps.flatMap fun pr => u16BE pr.1 ++ u16BE pr.2) ++ rest))
        ps.length p = .ok ps := by
  induction ps with
  | nil => intro pre rest p hp; rfl
  | cons q ps ih =>
      intro pre rest p hp
      obtain ⟨hq1, hq2⟩ := hv q (List.mem_cons_self q ps)
      rw [List.flatMap_cons]
      rw [show pre ++ (((u16BE q.1 ++ u16BE q.2) ++
          (ps.flatMap fun pr => u16BE pr.1 ++ u16BE pr.2)) ++ rest) =
        pre ++ (u16BE q.1 ++ (u16BE q.2 ++
          ((ps.flatMap fun pr => u16BE pr.1 ++ u16BE pr.2) ++ rest))) from by
            simp [List.append_assoc]]
      show parseScanPairs _ (ps.length + 1) p = _
      rw [parseScanPairs_succ, readU16E_field pre q.1 _ p hp, ok_bind]
      rw [show pre ++ (u16BE q.1 ++ (u16BE q.2 ++
          ((ps.flatMap fun pr => u16BE pr.1 ++ u16BE pr.2) ++ rest))) =
        (pre ++ u16BE q.1) ++ (u16BE q.2 ++
          ((ps.flatMap fun pr => u16BE pr.1 ++ u16BE pr.2) ++ rest)) from by
            simp [List.append_assoc]]
      rw [readU16E_field _ q.2 _ (p + 2) (by simp [hp]), ok_bind]
      rw [show (pre ++ u16BE q.1) ++ (u16BE q.2 ++
          ((ps.flatMap fun pr => u16BE pr.1 ++ u16BE pr.2) ++ rest)) =
        ((pre ++ u16BE q.1) ++ u16BE q.2) ++
          ((ps.flatMap fun pr => u16BE pr.1 ++ u16BE pr.2) ++ rest) from by
            simp [List.append_assoc]]
      rw [ih (fun r hr => hv r (List.mem_cons_of_mem q hr)) _ rest (p + 4) (by simp [hp]),
        ok_bind, Nat.mod_eq_of_lt hq1, Nat.mod_eq_of_lt hq2]
      rfl

/-! ### C1: the kerning entry loop applied to the encoder -/

theorem getD_append_cons (A : List Nat) (c : Nat) (B : List Nat) :
    (A ++ c :: B).getD A.length 0 = c := by
  induction A with
  | nil => rfl
  | cons a A ih => simpa using ih

theorem graph_keys (f : Nat → List kerningPair) (l : List Nat) :
    (l.map fun k => (k, f k)).map Prod.fst = l := by
  induction l with
  | nil => rfl
  | cons a l ih => simp only [List.map_cons, ih]

theorem krngPairArrayBytes_split (t : KerningMap) (l₁ : List Nat) (c : Nat) (l₂ : List Nat) :
    krngPairArrayBytes t (l₁ ++ c :: l₂) = krngPairArrayBytes t l₁ ++
      (u16BE (lookupPairs t c).length ++ ((lookupPairs t c).flatMap pairBytes ++
        krngPairArrayBytes t l₂)) := by
  unfold krngPairArrayBytes
  rw [List.flatMap_append, List.flatMap_cons]
  simp [List.append_assoc]

theorem dataRaw_length (t : KerningMap) (ord : List Nat)
    (hnd : (t.map Prod.fst).Nodup) (hperm : ord.Perm (t.map Prod.fst)) :
    (u16BE ord.length ++ krngEntryBytes t ord (ord.length * 4 + 2) ++
      krngPairArrayBytes t ord).length = krngDataLen t := by
  have hlen : ord.length = t.length := by
    rw [hperm.length_eq, List.length_map]
  simp only [List.length_append, length_u16BE, length_krngEntryBytes,
    length_krngPairArrayBytes, pairSum_perm t ord hnd hperm, krngDataLen, hlen]

theorem parseEntries_encode (t : KerningMap) (ord : List Nat) (extra : Bytes)
    (hnd : (t.map Prod.fst).Nodup)
    (hvt : ∀ e ∈ t, e.1 < 65536 ∧ e.2.length < 65536 ∧ ∀ p ∈ e.2, validPair p)
    (hperm : ord.Perm (t.map Prod.fst))
    (hsmall : krngDataLen t < 65536) :
    ∀ (ord₂ ord₁ : List Nat), ord = ord₁ ++ ord₂ →
      parseEntries (u16BE ord.length ++ (krngEntryBytes t ord (ord.length * 4 + 2) ++
          (krngPairArrayBytes t ord ++ extra)))
        ord₂.length (2 + 4 * ord₁.length)
        (2 + ((ord₁.map fun c => 6 + 4 * (lookupPairs t c).length).sum))
        (ord₁.map fun c => (c, lookupPairs t c))
      = .ok (ord.map fun c => (c, lookupPairs t c),
             2 + ((ord.map fun c => 6 + 4 * (lookupPairs t c).length).sum)) := by
  have hordnd : ord.Nodup := hperm.nodup_iff.mpr hnd
  intro ord₂
  induction ord₂ with
  | nil =>
      intro ord₁ hord
      rw [List.append_nil] at hord
      subst hord
      rfl
  | cons c ord₂t ih =>
      intro ord₁ hord
      -- the data buffer and the entry of interest
      have hj : ord₁.length < ord.length := by
        rw [hord, List.length_append, List.length_cons]
        omega
      have hcord : c ∈ ord := by
        rw [hord]
        exact List.mem_append_right ord₁ (List.mem_cons_self c ord₂t)
      obtain ⟨e, het, hec⟩ := List.mem_map.mp (hperm.mem_iff.mp hcord)
      obtain ⟨hc16, helen, hepairs⟩ := hvt e het
      have hlk : lookupPairs t c = e.2 := by
        unfold lookupPairs
        rw [← hec, mapLookup_self t hnd e het]
        rfl
      have hlc16 : (lookupPairs t c).length < 65536 := by rw [hlk]; exact helen
      have hc16' : c < 65536 := by rw [← hec]; exact hc16
      have hvp : ∀ p ∈ lookupPairs t c, validPair p := by rw [hlk]; exact hepairs
      -- arithmetic facts about the true offset of this entry
      have hkd : 2 + 4 * ord.length +
          (ord.map fun x => 2 + 4 * (lookupPairs t x).length).sum = krngDataLen t := by
        have hlen : ord.length = t.length := by rw [hperm.length_eq, List.length_map]
        rw [pairSum_perm t ord hnd hperm, krngDataLen, hlen]
      have htake : ord.take ord₁.length = ord₁ := by
        rw [hord]
        exact List.take_left ord₁ _
      have htake1 : ord.take (ord₁.length + 1) = ord₁ ++ [c] := by
        rw [hord, List.take_append_eq_append_take, List.take_all_of_le (by omega),
          List.take_cons (by omega)]
        simp
      have htoj1 : trueOffset t ord (ord₁.length + 1) =
          trueOffset t ord ord₁.length + 2 + 4 * (lookupPairs t c).length := by
        unfold trueOffset
        rw [htake, htake1, List.map_append, List.sum_append]
        simp
        omega
      have heven := trueOffset_even t ord ord₁.length
      have hle1 := trueOffset_le t ord ord₁.length
      have hle2 := trueOffset_le t ord (ord₁.length + 1)
      have hofflt : trueOffset t ord ord₁.length < 65536 := by omega
      have hoff2lt : trueOffset t ord ord₁.length + 2 + 4 * (lookupPairs t c).length
          < 65536 := by omega
      -- data length
      have hDlen : (u16BE ord.length ++ (krngEntryBytes t ord (ord.length * 4 + 2) ++
          (krngPairArrayBytes t ord ++ extra))).length =
          2 + 4 * ord.length + (ord.map fun x => 2 + 4 * (lookupPairs t x).length).sum
            + extra.length := by
        simp only [List.length_append, length_u16BE, length_krngEntryBytes,
          length_krngPairArrayBytes]
        omega
      -- entry-array reads
      have hgetD : ord.getD ord₁.length 0 = c := by
        rw [hord]
        exact getD_append_cons ord₁ c ord₂t
      have h1 : readU16E (u16BE ord.length ++ (krngEntryBytes t ord (ord.length * 4 + 2) ++
          (krngPairArrayBytes t ord ++ extra))) (2 + 4 * ord₁.length) = .ok c := by
        rw [readU16E_eq _ _ (by rw [hDlen]; omega),
          show 2 + 4 * ord₁.length = (u16BE ord.length).length + 4 * ord₁.length from by
            rw [length_u16BE],
          readU16_shift,
          (krngEntryBytes_reads t ord (ord.length * 4 + 2)
            (krngPairArrayBytes t ord ++ extra) ord₁.length hj).1,
          hgetD, Nat.mod_eq_of_lt hc16']
      have h2 : readU16E (u16BE ord.length ++ (krngEntryBytes t ord (ord.length * 4 + 2) ++
          (krngPairArrayBytes t ord ++ extra))) (2 + 4 * ord₁.length + 2) =
          .ok (trueOffset t ord ord₁.length / 2) := by
        rw [readU16E_eq _ _ (by rw [hDlen]; omega),
          show 2 + 4 * ord₁.length + 2 =
            (u16BE ord.length).length + (4 * ord₁.length + 2) from by
              rw [length_u16BE]; omega,
          readU16_shift,
          (krngEntryBytes_reads t ord (ord.length * 4 + 2)
            (krngPairArrayBytes t ord ++ extra) ord₁.length hj).2]
        congr 1
        rw [show ord.length * 4 + 2 +
            ((ord.take ord₁.length).map fun x => 2 + 4 * (lookupPairs t x).length).sum =
            trueOffset t ord ord₁.length from by unfold trueOffset; omega]
        omega
      -- pair-region decomposition
      have hP : krngPairArrayBytes t ord = krngPairArrayBytes t ord₁ ++
          (u16BE (lookupPairs t c).length ++ ((lookupPairs t c).flatMap pairBytes ++
            krngPairArrayBytes t ord₂t)) := by
        rw [hord]
        exact krngPairArrayBytes_split t ord₁ c ord₂t
      have hAlen : (u16BE ord.length ++ (krngEntryBytes t ord (ord.length * 4 + 2) ++
          krngPairArrayBytes t ord₁)).length = trueOffset t ord ord₁.length := by
        simp only [List.length_append, length_u16BE, length_krngEntryBytes,
          length_krngPairArrayBytes]
        unfold trueOffset
        rw [htake]
        omega
      have hsplit1 : u16BE ord.length ++ (krngEntryBytes t ord (ord.length * 4 + 2) ++
          (krngPairArrayBytes t ord ++ extra)) =
          (u16BE ord.length ++ (krngEntryBytes t ord (ord.length * 4 + 2) ++
            krngPairArrayBytes t ord₁)) ++
          (u16BE (lookupPairs t c).length ++ ((lookupPairs t c).flatMap pairBytes ++
            (krngPairArrayBytes t ord₂t ++ extra))) := by
        rw [hP]
        simp [List.append_assoc]
      have h3 : readU16W (u16BE ord.length ++ (krngEntryBytes t ord (ord.length * 4 + 2) ++
          (krngPairArrayBytes t ord ++ extra))) (trueOffset t ord ord₁.length) =
          .ok (lookupPairs t c).length := by
        rw [readU16W_eq _ _ (by omega) (by rw [hDlen]; omega), hsplit1,
          readU16_field _ _ _ _ hAlen.symm, Nat.mod_eq_of_lt hlc16]
      have hsplit2 : u16BE ord.length ++ (krngEntryBytes t ord (ord.length * 4 + 2) ++
          (krngPairArrayBytes t ord ++ extra)) =
          ((u16BE ord.length ++ (krngEntryBytes t ord (ord.length * 4 + 2) ++
            krngPairArrayBytes t ord₁)) ++ u16BE (lookupPairs t c).length) ++
          ((lookupPairs t c).flatMap pairBytes ++
            (krngPairArrayBytes t ord₂t ++ extra)) := by
        rw [hP]
        simp [List.append_assoc]
      have h4 : sliceE (u16BE ord.length ++ (krngEntryBytes t ord (ord.length * 4 + 2) ++
          (krngPairArrayBytes t ord ++ extra)))
          (trueOffset t ord ord₁.length + 2)
          (trueOffset t ord ord₁.length + 2 + (lookupPairs t c).length * 4) =
          .ok ((lookupPairs t c).flatMap pairBytes) := by
        rw [hsplit2,
          show trueOffset t ord ord₁.length + 2 + (lookupPairs t c).length * 4 =
            ((u16BE ord.length ++ (krngEntryBytes t ord (ord.length * 4 + 2) ++
              krngPairArrayBytes t ord₁)) ++ u16BE (lookupPairs t c).length).length +
            ((lookupPairs t c).flatMap pairBytes).length from by
              simp only [List.length_append, length_u16BE, length_flatMap_pairBytes, hAlen]
              omega,
          show trueOffset t ord ord₁.length + 2 =
            ((u16BE ord.length ++ (krngEntryBytes t ord (ord.length * 4 + 2) ++
              krngPairArrayBytes t ord₁)) ++ u16BE (lookupPairs t c).length).length from by
              simp only [List.length_append, length_u16BE, hAlen]]
        exact sliceE_append _ _ _
      have h5 : parsePairs ((lookupPairs t c).flatMap pairBytes)
          (lookupPairs t c).length 0 = .ok (lookupPairs t c) := by
        have := parsePairs_encode (lookupPairs t c) hvp [] [] 0 rfl
        simpa using this
      -- one loop step
      show parseEntries _ (ord₂t.length + 1) _ _ _ = _
      rw [parseEntries_succ_eq, h1, ok_bind, h2, ok_bind,
        show trueOffset t ord ord₁.length / 2 * 2 % 65536 =
          trueOffset t ord ord₁.length from by omega,
        h3, ok_bind,
        show (trueOffset t ord ord₁.length + 2) % 65536 =
          trueOffset t ord ord₁.length + 2 from by omega,
        show (trueOffset t ord ord₁.length + 2 + (lookupPairs t c).length * 4) % 65536 =
          trueOffset t ord ord₁.length + 2 + (lookupPairs t c).length * 4 from by omega,
        h4, ok_bind, h5, ok_bind]
      have hfresh : c ∉ (ord₁.map fun k => (k, lookupPairs t k)).map Prod.fst := by
        rw [graph_keys]
        rw [hord] at hordnd
        have hdisj := (List.nodup_append.mp hordnd).2.2
        exact fun hmem => hdisj hmem (List.mem_cons_self c ord₂t)
      rw [mapInsert_fresh _ _ _ hfresh,
        show (ord₁.map fun k => (k, lookupPairs t k)) ++ [(c, lookupPairs t c)] =
          (ord₁ ++ [c]).map fun k => (k, lookupPairs t k) from by simp,
        show 2 + ((ord₁.map fun x => 6 + 4 * (lookupPairs t x).length).sum) + 6 +
            4 * (lookupPairs t c).length =
          2 + (((ord₁ ++ [c]).map fun x => 6 + 4 * (lookupPairs t x).length).sum) from by
            rw [List.map_append, List.sum_append]
            simp
            omega,
        show 2 + 4 * ord₁.length + 4 = 2 + 4 * (ord₁ ++ [c]).length from by
          rw [List.length_append]
          simp
          omega]
      exact ih (ord₁ ++ [c]) (by rw [hord, List.append_assoc]; rfl)

theorem sliceE_suffix (A x : Bytes) : sliceE (A ++ x) A.length (A ++ x).length = .ok x := by
  unfold sliceE
  rw [if_pos ⟨by simp only [List.length_append]; omega, le_refl _⟩,
    drop_prefix A x _ rfl,
    show (A ++ x).length - A.length = x.length from by
      simp only [List.length_append]; omega,
    List.take_length]

theorem krngDecodeFrom_encode (t : KerningMap) (ord : List Nat) (so : Nat) (pre : Bytes)
    (hnd : (t.map Prod.fst).Nodup)
    (hvt : ∀ e ∈ t, e.1 < 65536 ∧ e.2.length < 65536 ∧ ∀ p ∈ e.2, validPair p)
    (hperm : ord.Perm (t.map Prod.fst))
    (hsmall : krngDataLen t < 65536) (hne : ord ≠ []) :
    krngDecodeFrom (pre ++ KRNG.encodeOrdered t ord so) pre.length =
      .ok { MagicHeader := KRNG_MAGIC_HEADER,
            SectionSize := KRNG_HEADER_SIZE + (padToNext4ByteBoundary so
              (u16BE ord.length ++ krngEntryBytes t ord (ord.length * 4 + 2) ++
                krngPairArrayBytes t ord)).length,
            KerningTable := ord.map fun c => (c, lookupPairs t c) } := by
  have h8 : KRNG_HEADER_SIZE = 8 := rfl
  have hdataLen := dataRaw_length t ord hnd hperm
  have hkdsmall : 2 ≤ krngDataLen t := by unfold krngDataLen; omega
  have hlen : ord.length = t.length := by rw [hperm.length_eq, List.length_map]
  have hn16 : ord.length < 65536 := by
    have h4 : 2 + 4 * t.length ≤ krngDataLen t := by
      unfold krngDataLen
      omega
    omega
  set kd := padToNext4ByteBoundary so (u16BE ord.length ++
    krngEntryBytes t ord (ord.length * 4 + 2) ++ krngPairArrayBytes t ord) with hkd
  have hkdlen : kd.length = krngDataLen t + (4 - (so + krngDataLen t) % 4) % 4 := by
    rw [hkd]
    unfold padToNext4ByteBoundary
    rw [List.length_append, List.length_replicate, hdataLen]
  have hne' : ord.isEmpty = false := by
    cases ord with
    | nil => exact absurd rfl hne
    | cons a l => rfl
  have hE : KRNG.encodeOrdered t ord so =
      KRNG_MAGIC_HEADER ++ u32BE (KRNG_HEADER_SIZE + kd.length) ++ kd := by
    unfold KRNG.encodeOrdered
    rw [hne']
    rw [if_neg (by simp)]
  unfold krngDecodeFrom
  have hsl1 : sliceE (pre ++ KRNG.encodeOrdered t ord so) pre.length
      (pre.length + KRNG_HEADER_SIZE) =
      .ok (KRNG_MAGIC_HEADER ++ u32BE (KRNG_HEADER_SIZE + kd.length)) := by
    rw [hE, List.append_assoc,
      show pre.length + KRNG_HEADER_SIZE = pre.length +
        (KRNG_MAGIC_HEADER ++ u32BE (KRNG_HEADER_SIZE + kd.length)).length from by
          simp [KRNG_MAGIC_HEADER, h8]]
    exact sliceE_append pre _ kd
  rw [hsl1, ok_bind]
  have hsz : readU32 (KRNG_MAGIC_HEADER ++ u32BE (KRNG_HEADER_SIZE + kd.length)) 4 =
      KRNG_HEADER_SIZE + kd.length := by
    rw [show (4 : Nat) = KRNG_MAGIC_HEADER.length + 0 from rfl, readU32_shift,
      readU32_u32BE_self, Nat.mod_eq_of_lt (by rw [h8]; omega)]
  simp only [hsz]
  have hsl2 : sliceE (pre ++ KRNG.encodeOrdered t ord so)
      (pre.length + KRNG_HEADER_SIZE) (pre.length + (KRNG_HEADER_SIZE + kd.length)) =
      .ok kd := by
    rw [hE,
      show pre ++ (KRNG_MAGIC_HEADER ++ u32BE (KRNG_HEADER_SIZE + kd.length) ++ kd) =
        (pre ++ (KRNG_MAGIC_HEADER ++ u32BE (KRNG_HEADER_SIZE + kd.length))) ++
          (kd ++ []) from by simp [List.append_assoc],
      show pre.length + (KRNG_HEADER_SIZE + kd.length) =
        (pre ++ (KRNG_MAGIC_HEADER ++ u32BE (KRNG_HEADER_SIZE + kd.length))).length +
          kd.length from by simp [KRNG_MAGIC_HEADER, h8]; omega,
      show pre.length + KRNG_HEADER_SIZE =
        (pre ++ (KRNG_MAGIC_HEADER ++ u32BE (KRNG_HEADER_SIZE + kd.length))).length from by
          simp [KRNG_MAGIC_HEADER, h8]]
    exact sliceE_append _ kd []
  rw [hsl2, ok_bind]
  have hkdshape : kd = u16BE ord.length ++ (krngEntryBytes t ord (ord.length * 4 + 2) ++
      (krngPairArrayBytes t ord ++ List.replicate ((4 - (so + (u16BE ord.length ++
        krngEntryBytes t ord (ord.length * 4 + 2) ++
        krngPairArrayBytes t ord).length) % 4) % 4) 0)) := by
    rw [hkd]
    unfold padToNext4ByteBoundary
    simp [List.append_assoc]
  have hcnt : sliceE kd 0 2 = .ok (u16BE ord.length) := by
    rw [sliceE_zero _ _ (by rw [hkdlen]; omega), hkdshape]
    exact congrArg Except.ok (List.take_left' (by simp))
  rw [hcnt, ok_bind]
  have hfc : readU16 (u16BE ord.length) 0 = ord.length := by
    rw [readU16_u16BE_self, Nat.mod_eq_of_lt hn16]
  simp only [hfc]
  have hparse : parseEntries kd ord.length 2 2 [] =
      .ok (ord.map fun c => (c, lookupPairs t c),
           2 + ((ord.map fun c => 6 + 4 * (lookupPairs t c).length).sum)) := by
    rw [hkdshape]
    have hpe := parseEntries_encode t ord
      (List.replicate ((4 - (so + (u16BE ord.length ++
        krngEntryBytes t ord (ord.length * 4 + 2) ++
        krngPairArrayBytes t ord).length) % 4) % 4) 0) hnd hvt hperm hsmall ord []
      (by simp)
    simpa using hpe
  simp only [hparse, ok_bind]
  have htot : 2 + ((ord.map fun c => 6 + 4 * (lookupPairs t c).length).sum) =
      (u16BE ord.length ++ krngEntryBytes t ord (ord.length * 4 + 2) ++
        krngPairArrayBytes t ord).length := by
    rw [sum6_eq (fun c => (lookupPairs t c).length) ord]
    simp only [List.length_append, length_u16BE, length_krngEntryBytes,
      length_krngPairArrayBytes]
    omega
  have hsplit : kd = (u16BE ord.length ++ krngEntryBytes t ord (ord.length * 4 + 2) ++
      krngPairArrayBytes t ord) ++ List.replicate ((4 - (so + (u16BE ord.length ++
        krngEntryBytes t ord (ord.length * 4 + 2) ++
        krngPairArrayBytes t ord).length) % 4) % 4) 0 := by
    rw [hkd]
    rfl
  have hpad : sliceE kd
      (2 + ((ord.map fun c => 6 + 4 * (lookupPairs t c).length).sum)) kd.length =
      .ok (List.replicate ((4 - (so + (u16BE ord.length ++
        krngEntryBytes t ord (ord.length * 4 + 2) ++
        krngPairArrayBytes t ord).length) % 4) % 4) 0) := by
    rw [htot, hsplit]
    exact sliceE_suffix _ _
  simp only [hpad, ok_bind]
  rw [if_pos (by
    simp only [List.all_eq_true]
    intro x hx
    have := List.eq_of_mem_replicate hx
    simp [this])]
  rw [show (KRNG_MAGIC_HEADER ++ u32BE (KRNG_HEADER_SIZE + kd.length)).take 4 =
    KRNG_MAGIC_HEADER from List.take_left' rfl]
  rfl

/-! ### C1: FINF and TGLP round-trips -/

theorem finf_decode_of_encode (finf : FINF) (t c m : Nat) (pre rest : Bytes)
    (hpre : pre.length = 20)
    (hb : finf.FontType < 256 ∧ finf.Height < 256 ∧ finf.Width < 256 ∧
      finf.Ascent < 256 ∧ finf.LineFeed < 65536 ∧ finf.AlterCharIndex < 65536 ∧
      finf.DefaultLeftWidth < 256 ∧ finf.DefaultGlyphWidth < 256 ∧
      finf.DefaultCharWidth < 256 ∧ finf.Encoding < 256)
    (ht : t < 4294967296) (hc : c < 4294967296) (hm : m < 4294967296) :
    FINF.Decode (pre ++ (FINF.Encode finf t c m ++ rest)) = .ok
      { finf with TGLPOffset := t, CWDHOffset := c, CMAPOffset := m } := by
  obtain ⟨hb1, hb2, hb3, hb4, hb5, hb6, hb7, hb8, hb9, hb10⟩ := hb
  unfold FINF.Decode
  rw [show FFNT_HEADER_SIZE = pre.length from by rw [hpre]; rfl,
    show pre.length + FINF_HEADER_SIZE =
      pre.length + (FINF.Encode finf t c m).length from by rw [length_FINF_Encode],
    sliceE_append, ok_bind]
  have hx : FINF.Encode finf t c m =
      [70, 73, 78, 70, 32 % 4294967296 / 16777216, 32 % 16777216 / 65536,
       32 % 65536 / 256, 32 % 256, finf.FontType % 256, finf.Height % 256,
       finf.Width % 256, finf.Ascent % 256, finf.LineFeed % 65536 / 256,
       finf.LineFeed % 256, finf.AlterCharIndex % 65536 / 256, finf.AlterCharIndex % 256,
       finf.DefaultLeftWidth % 256, finf.DefaultGlyphWidth % 256,
       finf.DefaultCharWidth % 256, finf.Encoding % 256, t % 4294967296 / 16777216,
       t % 16777216 / 65536, t % 65536 / 256, t % 256, c % 4294967296 / 16777216,
       c % 16777216 / 65536, c % 65536 / 256, c % 256, m % 4294967296 / 16777216,
       m % 16777216 / 65536, m % 65536 / 256, m % 256] := by
    simp only [FINF.Encode, FINF_MAGIC, u8, u16BE, u32BE, FINF_HEADER_SIZE,
      List.cons_append, List.nil_append, List.append_assoc]
  rw [hx]
  show Except.ok _ = Except.ok _
  simp only [Except.ok.injEq, FINF.mk.injEq]
  refine ⟨?_, ?_, ?_, ?_, ?_, ?_, ?_, ?_, ?_, ?_, ?_, ?_, ?_⟩ <;>
    simp only [readU16, readU32, List.getD_cons_zero, List.getD_cons_succ] <;> omega

set_option maxHeartbeats 1000000 in
theorem tglp_decode_of_encode (tglp : TGLP) (pre rest : Bytes)
    (hpre : pre.length = 52)
    (hb : tglp.CellWidth < 256 ∧ tglp.CellHeight < 256 ∧ tglp.NumOfSheets < 256 ∧
      tglp.MaxCharWidth < 256 ∧ tglp.BaselinePosition < 65536 ∧
      tglp.SheetImageFormat < 65536 ∧ tglp.NumOfColumns < 65536 ∧
      tglp.NumOfRows < 65536 ∧ tglp.SheetWidth < 65536 ∧ tglp.SheetHeight < 65536)
    (hss : tglp.SheetSize = tglp.SheetData.length)
    (hs32 : tglp.SheetData.length < 4294967296) :
    TGLP.Decode (pre ++ (TGLP.Encode tglp ++ rest)) = .ok tglp := by
  obtain ⟨hb1, hb2, hb3, hb4, hb5, hb6, hb7, hb8, hb9, hb10⟩ := hb
  have hshape : TGLP.Encode tglp =
      (TGLP_MAGIC ++
        u32BE (28 + tglp.SheetData.length + (4 - (28 + tglp.SheetData.length) % 4) % 4) ++
        u8 tglp.CellWidth ++ u8 tglp.CellHeight ++ u8 tglp.NumOfSheets ++
        u8 tglp.MaxCharWidth ++ u32BE tglp.SheetSize ++ u16BE tglp.BaselinePosition ++
        u16BE tglp.SheetImageFormat ++ u16BE tglp.NumOfColumns ++ u16BE tglp.NumOfRows ++
        u16BE tglp.SheetWidth ++ u16BE tglp.SheetHeight) ++
      (tglp.SheetData ++
        List.replicate ((4 - (28 + tglp.SheetData.length) % 4) % 4) 0) := by
    simp only [TGLP.Encode]
    rw [show (TGLP_MAGIC ++
        u32BE (28 + tglp.SheetData.length + (4 - (28 + tglp.SheetData.length) % 4) % 4) ++
        u8 tglp.CellWidth ++ u8 tglp.CellHeight ++ u8 tglp.NumOfSheets ++
        u8 tglp.MaxCharWidth ++ u32BE tglp.SheetSize ++ u16BE tglp.BaselinePosition ++
        u16BE tglp.SheetImageFormat ++ u16BE tglp.NumOfColumns ++ u16BE tglp.NumOfRows ++
        u16BE tglp.SheetWidth ++ u16BE tglp.SheetHeight ++ tglp.SheetData).length =
      28 + tglp.SheetData.length from by
        simp only [List.length_append, length_u16BE, length_u32BE, length_u8,
          TGLP_MAGIC, List.length_cons, List.length_nil]]
    simp [List.append_assoc]
  unfold TGLP.Decode
  rw [show FFNT_HEADER_SIZE + FINF_HEADER_SIZE = pre.length from by rw [hpre]; rfl]
  rw [hshape,
    show pre ++ (((TGLP_MAGIC ++
        u32BE (28 + tglp.SheetData.length + (4 - (28 + tglp.SheetData.length) % 4) % 4) ++
        u8 tglp.CellWidth ++ u8 tglp.CellHeight ++ u8 tglp.NumOfSheets ++
        u8 tglp.MaxCharWidth ++ u32BE tglp.SheetSize ++ u16BE tglp.BaselinePosition ++
        u16BE tglp.SheetImageFormat ++ u16BE tglp.NumOfColumns ++ u16BE tglp.NumOfRows ++
        u16BE tglp.SheetWidth ++ u16BE tglp.SheetHeight) ++
      (tglp.SheetData ++
        List.replicate ((4 - (28 + tglp.SheetData.length) % 4) % 4) 0)) ++ rest) =
      pre ++ ((TGLP_MAGIC ++
        u32BE (28 + tglp.SheetData.length + (4 - (28 + tglp.SheetData.length) % 4) % 4) ++
        u8 tglp.CellWidth ++ u8 tglp.CellHeight ++ u8 tglp.NumOfSheets ++
        u8 tglp.MaxCharWidth ++ u32BE tglp.SheetSize ++ u16BE tglp.BaselinePosition ++
        u16BE tglp.SheetImageFormat ++ u16BE tglp.NumOfColumns ++ u16BE tglp.NumOfRows ++
        u16BE tglp.SheetWidth ++ u16BE tglp.SheetHeight) ++
      (tglp.SheetData ++
        (List.replicate ((4 - (28 + tglp.SheetData.length) % 4) % 4) 0 ++ rest))) from by
          simp [List.append_assoc]]
  rw [show pre.length + 28 = pre.length + (TGLP_MAGIC ++
        u32BE (28 + tglp.SheetData.length + (4 - (28 + tglp.SheetData.length) % 4) % 4) ++
        u8 tglp.CellWidth ++ u8 tglp.CellHeight ++ u8 tglp.NumOfSheets ++
        u8 tglp.MaxCharWidth ++ u32BE tglp.SheetSize ++ u16BE tglp.BaselinePosition ++
        u16BE tglp.SheetImageFormat ++ u16BE tglp.NumOfColumns ++ u16BE tglp.NumOfRows ++
        u16BE tglp.SheetWidth ++ u16BE tglp.SheetHeight).length from by
          simp only [List.length_append, length_u16BE, length_u32BE, length_u8,
            TGLP_MAGIC, List.length_cons, List.length_nil],
    sliceE_append, ok_bind]
  have hhdr : TGLP_MAGIC ++
      u32BE (28 + tglp.SheetData.length + (4 - (28 + tglp.SheetData.length) % 4) % 4) ++
      u8 tglp.CellWidth ++ u8 tglp.CellHeight ++ u8 tglp.NumOfSheets ++
      u8 tglp.MaxCharWidth ++ u32BE tglp.SheetSize ++ u16BE tglp.BaselinePosition ++
      u16BE tglp.SheetImageFormat ++ u16BE tglp.NumOfColumns ++ u16BE tglp.NumOfRows ++
      u16BE tglp.SheetWidth ++ u16BE tglp.SheetHeight =
      [84, 71, 76, 80,
       (28 + tglp.SheetData.length + (4 - (28 + tglp.SheetData.length) % 4) % 4)
         % 4294967296 / 16777216,
       (28 + tglp.SheetData.length + (4 - (28 + tglp.SheetData.length) % 4) % 4)
         % 16777216 / 65536,
       (28 + tglp.SheetData.length + (4 - (28 + tglp.SheetData.length) % 4) % 4)
         % 65536 / 256,
       (28 + tglp.SheetData.length + (4 - (28 + tglp.SheetData.length) % 4) % 4) % 256,
       tglp.CellWidth % 256, tglp.CellHeight % 256, tglp.NumOfSheets % 256,
       tglp.MaxCharWidth % 256, tglp.SheetSize % 4294967296 / 16777216,
       tglp.SheetSize % 16777216 / 65536, tglp.SheetSize % 65536 / 256,
       tglp.SheetSize % 256, tglp.BaselinePosition % 65536 / 256,
       tglp.BaselinePosition % 256, tglp.SheetImageFormat % 65536 / 256,
       tglp.SheetImageFormat % 256, tglp.NumOfColumns % 65536 / 256,
       tglp.NumOfColumns % 256, tglp.NumOfRows % 65536 / 256, tglp.NumOfRows % 256,
       tglp.SheetWidth % 65536 / 256, tglp.SheetWidth % 256,
       tglp.SheetHeight % 65536 / 256, tglp.SheetHeight % 256] := by
    simp only [TGLP_MAGIC, u8, u16BE, u32BE, List.cons_append, List.nil_append,
      List.append_assoc]
  have hsz : readU32 (TGLP_MAGIC ++
      u32BE (28 + tglp.SheetData.length + (4 - (28 + tglp.SheetData.length) % 4) % 4) ++
      u8 tglp.CellWidth ++ u8 tglp.CellHeight ++ u8 tglp.NumOfSheets ++
      u8 tglp.MaxCharWidth ++ u32BE tglp.SheetSize ++ u16BE tglp.BaselinePosition ++
      u16BE tglp.SheetImageFormat ++ u16BE tglp.NumOfColumns ++ u16BE tglp.NumOfRows ++
      u16BE tglp.SheetWidth ++ u16BE tglp.SheetHeight) 12 = tglp.SheetSize := by
    rw [hhdr]
    simp only [readU32, List.getD_cons_zero, List.getD_cons_succ]
    omega
  simp only [hsz]
  rw [show pre.length + (TGLP_MAGIC ++
      u32BE (28 + tglp.SheetData.length + (4 - (28 + tglp.SheetData.length) % 4) % 4) ++
      u8 tglp.CellWidth ++ u8 tglp.CellHeight ++ u8 tglp.NumOfSheets ++
      u8 tglp.MaxCharWidth ++ u32BE tglp.SheetSize ++ u16BE tglp.BaselinePosition ++
      u16BE tglp.SheetImageFormat ++ u16BE tglp.NumOfColumns ++ u16BE tglp.NumOfRows ++
      u16BE tglp.SheetWidth ++ u16BE tglp.SheetHeight).length + tglp.SheetSize =
    (pre ++ (TGLP_MAGIC ++
      u32BE (28 + tglp.SheetData.length + (4 - (28 + tglp.SheetData.length) % 4) % 4) ++
      u8 tglp.CellWidth ++ u8 tglp.CellHeight ++ u8 tglp.NumOfSheets ++
      u8 tglp.MaxCharWidth ++ u32BE tglp.SheetSize ++ u16BE tglp.BaselinePosition ++
      u16BE tglp.SheetImageFormat ++ u16BE tglp.NumOfColumns ++ u16BE tglp.NumOfRows ++
      u16BE tglp.SheetWidth ++ u16BE tglp.SheetHeight)).length +
      tglp.SheetData.length from by
        simp only [List.length_append, length_u16BE, length_u32BE, length_u8,
          TGLP_MAGIC, List.length_cons, List.length_nil]
        omega,
    show pre.length + (TGLP_MAGIC ++
      u32BE (28 + tglp.SheetData.length + (4 - (28 + tglp.SheetData.length) % 4) % 4) ++
      u8 tglp.CellWidth ++ u8 tglp.CellHeight ++ u8 tglp.NumOfSheets ++
      u8 tglp.MaxCharWidth ++ u32BE tglp.SheetSize ++ u16BE tglp.BaselinePosition ++
      u16BE tglp.SheetImageFormat ++ u16BE tglp.NumOfColumns ++ u16BE tglp.NumOfRows ++
      u16BE tglp.SheetWidth ++ u16BE tglp.SheetHeight).length =
    (pre ++ (TGLP_MAGIC ++
      u32BE (28 + tglp.SheetData.length + (4 - (28 + tglp.SheetData.length) % 4) % 4) ++
      u8 tglp.CellWidth ++ u8 tglp.CellHeight ++ u8 tglp.NumOfSheets ++
      u8 tglp.MaxCharWidth ++ u32BE tglp.SheetSize ++ u16BE tglp.BaselinePosition ++
      u16BE tglp.SheetImageFormat ++ u16BE tglp.NumOfColumns ++ u16BE tglp.NumOfRows ++
      u16BE tglp.SheetWidth ++ u16BE tglp.SheetHeight)).length from by simp,
    show pre ++ ((TGLP_MAGIC ++
      u32BE (28 + tglp.SheetData.length + (4 - (28 + tglp.SheetData.length) % 4) % 4) ++
      u8 tglp.CellWidth ++ u8 tglp.CellHeight ++ u8 tglp.NumOfSheets ++
      u8 tglp.MaxCharWidth ++ u32BE tglp.SheetSize ++ u16BE tglp.BaselinePosition ++
      u16BE tglp.SheetImageFormat ++ u16BE tglp.NumOfColumns ++ u16BE tglp.NumOfRows ++
      u16BE tglp.SheetWidth ++ u16BE tglp.SheetHeight) ++
      (tglp.SheetData ++
        (List.replicate ((4 - (28 + tglp.SheetData.length) % 4) % 4) 0 ++ rest))) =
    (pre ++ (TGLP_MAGIC ++
      u32BE (28 + tglp.SheetData.length + (4 - (28 + tglp.SheetData.length) % 4) % 4) ++
      u8 tglp.CellWidth ++ u8 tglp.CellHeight ++ u8 tglp.NumOfSheets ++
      u8 tglp.MaxCharWidth ++ u32BE tglp.SheetSize ++ u16BE tglp.BaselinePosition ++
      u16BE tglp.SheetImageFormat ++ u16BE tglp.NumOfColumns ++ u16BE tglp.NumOfRows ++
      u16BE tglp.SheetWidth ++ u16BE tglp.SheetHeight)) ++
      (tglp.SheetData ++
        (List.replicate ((4 - (28 + tglp.SheetData.length) % 4) % 4) 0 ++ rest)) from by
          simp [List.append_assoc],
    sliceE_append, ok_bind]
  show Except.ok _ = Except.ok (TGLP.mk tglp.CellWidth tglp.CellHeight tglp.NumOfSheets
    tglp.MaxCharWidth tglp.SheetSize tglp.BaselinePosition tglp.SheetImageFormat
    tglp.NumOfColumns tglp.NumOfRows tglp.SheetWidth tglp.SheetHeight tglp.SheetData)
  simp only [Except.ok.injEq, TGLP.mk.injEq]
  and_intros <;>
    first
      | (rw [hhdr]
         simp only [readU16, readU32, List.getD_cons_zero, List.getD_cons_succ]
         omega)
      | trivial

/-! ### C1: the width-block chain applied to its encoder -/

theorem length_CWDH_blockBody (c : CWDH) (next : Nat) :
    (CWDH.blockBody c next).length = 8 + 3 * c.Glyphs.length := by
  simp only [CWDH.blockBody, List.length_append, length_u16BE, length_u32BE,
    length_flatMap_glyphBytes]

theorem length_CWDH_blockBytes (c : CWDH) (next : Nat) :
    (CWDH.blockBytes c next).length = CWDH.blockLen c := by
  unfold CWDH.blockLen CWDH.blockBytes
  simp only [List.length_append, List.length_replicate, length_u32BE,
    length_CWDH_blockBody, CWDH_MAGIC, List.length_cons, List.length_nil]

theorem CWDH_blockLen_lower (c : CWDH) : 16 ≤ CWDH.blockLen c := by
  unfold CWDH.blockLen CWDH.blockBytes
  simp only [List.length_append, List.length_replicate, length_u32BE,
    length_CWDH_blockBody, CWDH_MAGIC, List.length_cons, List.length_nil]
  omega

theorem length_EncodeCWDHs (blocks : List CWDH) :
    ∀ pos : Nat, (EncodeCWDHs blocks pos).length = (blocks.map CWDH.blockLen).sum := by
  induction blocks with
  | nil => intro pos; rfl
  | cons c rest ih =>
      intro pos
      show (CWDH.blockBytes c _ ++ EncodeCWDHs rest _).length = _
      rw [List.length_append, length_CWDH_blockBytes, ih, List.map_cons, List.sum_cons]

theorem parseCWDHs_succ (raw : Bytes) (fuel offset : Nat) :
    parseCWDHs raw (fuel + 1) offset = (do
      let startIndex ← readU16E raw offset
      let endIndex ← readU16E raw (offset + 2)
      let nextOffset ← readU32E raw (offset + 4)
      let glyphs ← parseGlyphs raw (endIndex + 1 - startIndex) (offset + 8)
      let rest ← if nextOffset = 0 then pure [] else parseCWDHs raw fuel nextOffset
      pure ({ StartIndex := startIndex, EndIndex := endIndex, Glyphs := glyphs } :: rest))
    := rfl

theorem cwdh_reads (c : CWDH) (nx : Nat) (pre B : Bytes) :
    readU16E (pre ++ (CWDH.blockBytes c nx ++ B)) (pre.length + 8) =
      .ok (c.StartIndex % 65536) ∧
    readU16E (pre ++ (CWDH.blockBytes c nx ++ B)) (pre.length + 10) =
      .ok (c.EndIndex % 65536) ∧
    readU32E (pre ++ (CWDH.blockBytes c nx ++ B)) (pre.length + 12) =
      .ok (nx % 4294967296) ∧
    ((∀ g ∈ c.Glyphs, validGlyph g) →
      parseGlyphs (pre ++ (CWDH.blockBytes c nx ++ B)) c.Glyphs.length
        (pre.length + 16) = .ok c.Glyphs) := by
  refine ⟨?_, ?_, ?_, ?_⟩
  · rw [show pre ++ (CWDH.blockBytes c nx ++ B) =
      (pre ++ CWDH_MAGIC ++ u32BE (8 + (CWDH.blockBody c nx).length +
        (4 - (8 + (CWDH.blockBody c nx).length) % 4) % 4)) ++
      (u16BE c.StartIndex ++ (u16BE c.EndIndex ++ (u32BE nx ++
        (c.Glyphs.flatMap glyphBytes ++
          (List.replicate ((4 - (8 + (CWDH.blockBody c nx).length) % 4) % 4) 0 ++
            B))))) from by
        simp [CWDH.blockBytes, CWDH.blockBody, List.append_assoc]]
    exact readU16E_field _ _ _ _ (by
      simp only [List.length_append, length_u32BE, CWDH_MAGIC, List.length_cons,
        List.length_nil])
  · rw [show pre ++ (CWDH.blockBytes c nx ++ B) =
      (pre ++ CWDH_MAGIC ++ u32BE (8 + (CWDH.blockBody c nx).length +
        (4 - (8 + (CWDH.blockBody c nx).length) % 4) % 4) ++ u16BE c.StartIndex) ++
      (u16BE c.EndIndex ++ (u32BE nx ++
        (c.Glyphs.flatMap glyphBytes ++
          (List.replicate ((4 - (8 + (CWDH.blockBody c nx).length) % 4) % 4) 0 ++
            B)))) from by
        simp [CWDH.blockBytes, CWDH.blockBody, List.append_assoc]]
    exact readU16E_field _ _ _ _ (by
      simp only [List.length_append, length_u16BE, length_u32BE, CWDH_MAGIC,
        List.length_cons, List.length_nil])
  · rw [show pre ++ (CWDH.blockBytes c nx ++ B) =
      (pre ++ CWDH_MAGIC ++ u32BE (8 + (CWDH.blockBody c nx).length +
        (4 - (8 + (CWDH.blockBody c nx).length) % 4) % 4) ++ u16BE c.StartIndex ++
        u16BE c.EndIndex) ++
      (u32BE nx ++
        (c.Glyphs.flatMap glyphBytes ++
          (List.replicate ((4 - (8 + (CWDH.blockBody c nx).length) % 4) % 4) 0 ++
            B))) from by
        simp [CWDH.blockBytes, CWDH.blockBody, List.append_assoc]]
    exact readU32E_field _ _ _ _ (by
      simp only [List.length_append, length_u16BE, length_u32BE, CWDH_MAGIC,
        List.length_cons, List.length_nil])
  · intro hvg
    rw [show pre ++ (CWDH.blockBytes c nx ++ B) =
      (pre ++ CWDH_MAGIC ++ u32BE (8 + (CWDH.blockBody c nx).length +
        (4 - (8 + (CWDH.blockBody c nx).length) % 4) % 4) ++ u16BE c.StartIndex ++
        u16BE c.EndIndex ++ u32BE nx) ++
      (c.Glyphs.flatMap glyphBytes ++
        (List.replicate ((4 - (8 + (CWDH.blockBody c nx).length) % 4) % 4) 0 ++
          B)) from by
        simp [CWDH.blockBytes, CWDH.blockBody, List.append_assoc]]
    exact parseGlyphs_encode c.Glyphs hvg _ _ _ (by
      simp only [List.length_append, length_u16BE, length_u32BE, CWDH_MAGIC,
        List.length_cons, List.length_nil])

theorem parseCWDHs_encode (blocks : List CWDH)
    (hv : ∀ c ∈ blocks, validCWDH c) (post : Bytes) :
    ∀ (fuel : Nat) (pre : Bytes), blocks ≠ [] → blocks.length ≤ fuel →
      pre.length + (EncodeCWDHs blocks (pre.length + 8)).length + post.length
        < 4294967296 →
      parseCWDHs (pre ++ (EncodeCWDHs blocks (pre.length + 8) ++ post)) fuel
        (pre.length + 8) = .ok blocks := by
  induction blocks with
  | nil => intro fuel pre hne; exact absurd rfl hne
  | cons c rest ih =>
      intro fuel pre _ hfuel hbound
      obtain ⟨hv1, hv2, hv3, hv4⟩ := hv c (List.mem_cons_self c rest)
      cases fuel with
      | zero => simp at hfuel
      | succ f =>
      have hEnc : EncodeCWDHs (c :: rest) (pre.length + 8) =
          CWDH.blockBytes c
            (if rest.isEmpty then 0 else pre.length + 8 + CWDH.blockLen c) ++
          EncodeCWDHs rest (pre.length + 8 + CWDH.blockLen c) := rfl
      have hEncLen : (EncodeCWDHs (c :: rest) (pre.length + 8)).length =
          CWDH.blockLen c +
            (EncodeCWDHs rest (pre.length + 8 + CWDH.blockLen c)).length := by
        rw [hEnc, List.length_append, length_CWDH_blockBytes]
      rw [hEncLen] at hbound
      have hreads := cwdh_reads c
        (if rest.isEmpty then 0 else pre.length + 8 + CWDH.blockLen c) pre
        (EncodeCWDHs rest (pre.length + 8 + CWDH.blockLen c) ++ post)
      rw [hEnc, List.append_assoc]
      rw [parseCWDHs_succ, hreads.1, ok_bind,
        show pre.length + 8 + 2 = pre.length + 10 from by omega, hreads.2.1, ok_bind,
        show pre.length + 8 + 4 = pre.length + 12 from by omega, hreads.2.2.1, ok_bind,
        Nat.mod_eq_of_lt (show c.StartIndex < 65536 by omega),
        Nat.mod_eq_of_lt hv2,
        show c.EndIndex + 1 - c.StartIndex = c.Glyphs.length from hv3.symm,
        show pre.length + 8 + 8 = pre.length + 16 from by omega,
        hreads.2.2.2 hv4, ok_bind]
      cases rest with
      | nil =>
          rw [show (if ([] : List CWDH).isEmpty then 0
              else pre.length + 8 + CWDH.blockLen c) = 0 from rfl]
          rw [if_pos (by norm_num)]
          rfl
      | cons r rs =>
          have hlow := CWDH_blockLen_lower c
          have hnxv : (if (r :: rs).isEmpty then 0
              else pre.length + 8 + CWDH.blockLen c) =
              pre.length + 8 + CWDH.blockLen c := rfl
          rw [hnxv] at *
          have hrestlen : 16 ≤ (EncodeCWDHs (r :: rs)
              (pre.length + 8 + CWDH.blockLen c)).length := by
            rw [length_EncodeCWDHs, List.map_cons, List.sum_cons]
            have := CWDH_blockLen_lower r
            omega
          have hnxlt : pre.length + 8 + CWDH.blockLen c < 4294967296 := by omega
          rw [Nat.mod_eq_of_lt hnxlt, if_neg (by omega)]
          have hpre' : (pre ++ CWDH.blockBytes c (pre.length + 8 + CWDH.blockLen c)).length
              = pre.length + CWDH.blockLen c := by
            rw [List.length_append, length_CWDH_blockBytes]
          have hih := ih (fun x hx => hv x (List.mem_cons_of_mem c hx)) f
            (pre ++ CWDH.blockBytes c (pre.length + 8 + CWDH.blockLen c))
            (by simp) (by simp at hfuel ⊢; omega)
            (by rw [hpre', show pre.length + CWDH.blockLen c + 8 =
                pre.length + 8 + CWDH.blockLen c from by omega]; omega)
          rw [hpre', show pre.length + CWDH.blockLen c + 8 =
            pre.length + 8 + CWDH.blockLen c from by omega] at hih
          rw [show pre ++ (CWDH.blockBytes c (pre.length + 8 + CWDH.blockLen c) ++
              (EncodeCWDHs (r :: rs) (pre.length + 8 + CWDH.blockLen c) ++ post)) =
            (pre ++ CWDH.blockBytes c (pre.length + 8 + CWDH.blockLen c)) ++
              (EncodeCWDHs (r :: rs) (pre.length + 8 + CWDH.blockLen c) ++ post) from by
                simp [List.append_assoc]]
          rw [hih, ok_bind]
          rfl

/-! ### C1: the map-block chain applied to its encoder -/

theorem length_CMAP_blockBody (c : CMAP) (next : Nat) :
    (CMAP.blockBody c next).length = 10 + c.Mapping.payloadBytes.length := by
  simp only [CMAP.blockBody, List.length_append, length_u16BE, length_u32BE]

theorem length_CMAP_blockBytes (c : CMAP) (next : Nat) :
    (CMAP.blockBytes c next).length = CMAP.blockLen c := by
  unfold CMAP.blockLen CMAP.blockBytes
  simp only [List.length_append, List.length_replicate, length_u32BE,
    length_CMAP_blockBody, CMAP_MAGIC, List.length_cons, List.length_nil]

theorem CMAP_blockLen_lower (c : CMAP) : 18 ≤ CMAP.blockLen c := by
  unfold CMAP.blockLen CMAP.blockBytes
  simp only [List.length_append, List.length_replicate, length_u32BE,
    length_CMAP_blockBody, CMAP_MAGIC, List.length_cons, List.length_nil]
  omega

theorem length_EncodeCMAPs (blocks : List CMAP) :
    ∀ pos : Nat, (EncodeCMAPs blocks pos).length = (blocks.map CMAP.blockLen).sum := by
  induction blocks with
  | nil => intro pos; rfl
  | cons c rest ih =>
      intro pos
      show (CMAP.blockBytes c _ ++ EncodeCMAPs rest _).length = _
      rw [List.length_append, length_CMAP_blockBytes, ih, List.map_cons, List.sum_cons]

theorem parseCMAPs_succ (raw : Bytes) (fuel offset : Nat) :
    parseCMAPs raw (fuel + 1) offset = (do
      let codeBegin ← readU16E raw offset
      let codeEnd ← readU16E raw (offset + 2)
      let method ← readU16E raw (offset + 4)
      let nextOffset ← readU32E raw (offset + 6)
      let mapping ←
        if method = 0 then do
          let base ← readU16E raw (offset + 10)
          pure (MapMethod.direct base)
        else if method = 1 then do
          let es ← parseU16s raw (codeEnd + 1 - codeBegin) (offset + 10)
          pure (MapMethod.table es)
        else if method = 2 then do
          let cnt ← readU16E raw (offset + 10)
          let ps ← parseScanPairs raw cnt (offset + 12)
          pure (MapMethod.scan ps)
        else .error .formatError
      let rest ← if nextOffset = 0 then pure [] else parseCMAPs raw fuel nextOffset
      pure ({ CodeBegin := codeBegin, CodeEnd := codeEnd, Mapping := mapping,
              CharAscii := mapping.derivedAscii codeBegin codeEnd,
              CharIndex := mapping.derivedIndex codeBegin codeEnd } :: rest)) := rfl

theorem cmap_reads (c : CMAP) (nx : Nat) (pre B : Bytes) :
    readU16E (pre ++ (CMAP.blockBytes c nx ++ B)) (pre.length + 8) =
      .ok (c.CodeBegin % 65536) ∧
    readU16E (pre ++ (CMAP.blockBytes c nx ++ B)) (pre.length + 10) =
      .ok (c.CodeEnd % 65536) ∧
    readU16E (pre ++ (CMAP.blockBytes c nx ++ B)) (pre.length + 12) =
      .ok (c.Mapping.tag % 65536) ∧
    readU32E (pre ++ (CMAP.blockBytes c nx ++ B)) (pre.length + 14) =
      .ok (nx % 4294967296) := by
  refine ⟨?_, ?_, ?_, ?_⟩
  · rw [show pre ++ (CMAP.blockBytes c nx ++ B) =
      (pre ++ CMAP_MAGIC ++ u32BE (8 + (CMAP.blockBody c nx).length +
        (4 - (8 + (CMAP.blockBody c nx).length) % 4) % 4)) ++
      (u16BE c.CodeBegin ++ (u16BE c.CodeEnd ++ (u16BE c.Mapping.tag ++ (u32BE nx ++
        (c.Mapping.payloadBytes ++
          (List.replicate ((4 - (8 + (CMAP.blockBody c nx).length) % 4) % 4) 0 ++
            B)))))) from by
        simp [CMAP.blockBytes, CMAP.blockBody, List.append_assoc]]
    exact readU16E_field _ _ _ _ (by
      simp only [List.length_append, length_u32BE, CMAP_MAGIC, List.length_cons,
        List.length_nil])
  · rw [show pre ++ (CMAP.blockBytes c nx ++ B) =
      (pre ++ CMAP_MAGIC ++ u32BE (8 + (CMAP.blockBody c nx).length +
        (4 - (8 + (CMAP.blockBody c nx).length) % 4) % 4) ++ u16BE c.CodeBegin) ++
      (u16BE c.CodeEnd ++ (u16BE c.Mapping.tag ++ (u32BE nx ++
        (c.Mapping.payloadBytes ++
          (List.replicate ((4 - (8 + (CMAP.blockBody c nx).length) % 4) % 4) 0 ++
            B))))) from by
        simp [CMAP.blockBytes, CMAP.blockBody, List.append_assoc]]
    exact readU16E_field _ _ _ _ (by
      simp only [List.length_append, length_u16BE, length_u32BE, CMAP_MAGIC,
        List.length_cons, List.length_nil])
  · rw [show pre ++ (CMAP.blockBytes c nx ++ B) =
      (pre ++ CMAP_MAGIC ++ u32BE (8 + (CMAP.blockBody c nx).length +
        (4 - (8 + (CMAP.blockBody c nx).length) % 4) % 4) ++ u16BE c.CodeBegin ++
        u16BE c.CodeEnd) ++
      (u16BE c.Mapping.tag ++ (u32BE nx ++
        (c.Mapping.payloadBytes ++
          (List.replicate ((4 - (8 + (CMAP.blockBody c nx).length) % 4) % 4) 0 ++
            B)))) from by
        simp [CMAP.blockBytes, CMAP.blockBody, List.append_assoc]]
    exact readU16E_field _ _ _ _ (by
      simp only [List.length_append, length_u16BE, length_u32BE, CMAP_MAGIC,
        List.length_cons, List.length_nil])
  · rw [show pre ++ (CMAP.blockBytes c nx ++ B) =
      (pre ++ CMAP_MAGIC ++ u32BE (8 + (CMAP.blockBody c nx).length +
        (4 - (8 + (CMAP.blockBody c nx).length) % 4) % 4) ++ u16BE c.CodeBegin ++
        u16BE c.CodeEnd ++ u16BE c.Mapping.tag) ++
      (u32BE nx ++
        (c.Mapping.payloadBytes ++
          (List.replicate ((4 - (8 + (CMAP.blockBody c nx).length) % 4) % 4) 0 ++
            B))) from by
        simp [CMAP.blockBytes, CMAP.blockBody, List.append_assoc]]
    exact readU32E_field _ _ _ _ (by
      simp only [List.length_append, length_u16BE, length_u32BE, CMAP_MAGIC,
        List.length_cons, List.length_nil])

theorem pure_bindE {ε α β : Type} (a : α) (f : α → Except ε β) :
    ((pure a : Except ε α) >>= f) = f a := rfl

theorem parseCMAPs_encode (blocks : List CMAP)
    (hv : ∀ c ∈ blocks, validCMAP c) (post : Bytes) :
    ∀ (fuel : Nat) (pre : Bytes), blocks ≠ [] → blocks.length ≤ fuel →
      pre.length + (EncodeCMAPs blocks (pre.length + 8)).length + post.length
        < 4294967296 →
      parseCMAPs (pre ++ (EncodeCMAPs blocks (pre.length + 8) ++ post)) fuel
        (pre.length + 8) = .ok (blocks.map cmapNorm) := by
  induction blocks with
  | nil => intro fuel pre hne; exact absurd rfl hne
  | cons c rest ih =>
      intro fuel pre _ hfuel hbound
      obtain ⟨hv1, hv2, hv3⟩ := hv c (List.mem_cons_self c rest)
      cases fuel with
      | zero => simp at hfuel
      | succ f =>
      have hEnc : EncodeCMAPs (c :: rest) (pre.length + 8) =
          CMAP.blockBytes c
            (if rest.isEmpty then 0 else pre.length + 8 + CMAP.blockLen c) ++
          EncodeCMAPs rest (pre.length + 8 + CMAP.blockLen c) := rfl
      have hEncLen : (EncodeCMAPs (c :: rest) (pre.length + 8)).length =
          CMAP.blockLen c +
            (EncodeCMAPs rest (pre.length + 8 + CMAP.blockLen c)).length := by
        rw [hEnc, List.length_append, length_CMAP_blockBytes]
      rw [hEncLen] at hbound
      have hreads := cmap_reads c
        (if rest.isEmpty then 0 else pre.length + 8 + CMAP.blockLen c) pre
        (EncodeCMAPs rest (pre.length + 8 + CMAP.blockLen c) ++ post)
      rw [hEnc, List.append_assoc]
      rw [parseCMAPs_succ, hreads.1, ok_bind,
        show pre.length + 8 + 2 = pre.length + 10 from by omega, hreads.2.1, ok_bind,
        show pre.length + 8 + 4 = pre.length + 12 from by omega, hreads.2.2.1, ok_bind,
        show pre.length + 8 + 6 = pre.length + 14 from by omega, hreads.2.2.2, ok_bind,
        Nat.mod_eq_of_lt (show c.CodeBegin < 65536 by omega),
        Nat.mod_eq_of_lt hv2]
      -- dispatch on the mapping method
      rcases hM : c.Mapping with base | es | ps
      · -- Direct mapping
        have hb16 : base < 65536 := by
          have := hv3
          rw [hM] at this
          exact this
        have hrd : readU16E (pre ++ (CMAP.blockBytes c
              (if rest.isEmpty then 0 else pre.length + 8 + CMAP.blockLen c) ++
              (EncodeCMAPs rest (pre.length + 8 + CMAP.blockLen c) ++ post))) (pre.length + 8 + 10) = .ok base := by
          rw [show pre ++ (CMAP.blockBytes c
              (if rest.isEmpty then 0 else pre.length + 8 + CMAP.blockLen c) ++
              (EncodeCMAPs rest (pre.length + 8 + CMAP.blockLen c) ++ post)) =
            (pre ++ CMAP_MAGIC ++ u32BE (8 + (CMAP.blockBody c
              (if rest.isEmpty then 0 else pre.length + 8 + CMAP.blockLen c)).length +
              (4 - (8 + (CMAP.blockBody c
              (if rest.isEmpty then 0 else pre.length + 8 + CMAP.blockLen c)).length)
                % 4) % 4) ++
              u16BE c.CodeBegin ++ u16BE c.CodeEnd ++ u16BE c.Mapping.tag ++
              u32BE (if rest.isEmpty then 0 else pre.length + 8 + CMAP.blockLen c)) ++
            (u16BE base ++
              (List.replicate ((4 - (8 + (CMAP.blockBody c
                (if rest.isEmpty then 0 else pre.length + 8 + CMAP.blockLen c)).length)
                  % 4) % 4) 0 ++
                (EncodeCMAPs rest (pre.length + 8 + CMAP.blockLen c) ++ post))) from by
              simp [CMAP.blockBytes, CMAP.blockBody, MapMethod.payloadBytes, hM,
                List.append_assoc]]
          rw [readU16E_field _ _ _ _ (by
            simp only [List.length_append, length_u16BE, length_u32BE, CMAP_MAGIC,
              List.length_cons, List.length_nil]), Nat.mod_eq_of_lt hb16]
        rw [show (MapMethod.direct base).tag % 65536 = 0 from rfl, if_pos rfl, hrd]
        simp only [ok_bind, pure_bindE]
        rw [← hM]
        cases rest with
        | nil =>
            rw [show (if ([] : List CMAP).isEmpty then 0
                else pre.length + 8 + CMAP.blockLen c) = 0 from rfl,
              if_pos (by norm_num)]
            rfl
        | cons r rs =>
            have hlow := CMAP_blockLen_lower c
            have hnxv : (if (r :: rs).isEmpty then 0
                else pre.length + 8 + CMAP.blockLen c) =
                pre.length + 8 + CMAP.blockLen c := rfl
            rw [hnxv] at *
            have hrestlen : 18 ≤ (EncodeCMAPs (r :: rs)
                (pre.length + 8 + CMAP.blockLen c)).length := by
              rw [length_EncodeCMAPs, List.map_cons, List.sum_cons]
              have := CMAP_blockLen_lower r
              omega
            have hnxlt : pre.length + 8 + CMAP.blockLen c < 4294967296 := by omega
            rw [Nat.mod_eq_of_lt hnxlt, if_neg (by omega)]
            have hpre2 : (pre ++ CMAP.blockBytes c
                (pre.length + 8 + CMAP.blockLen c)).length
                = pre.length + CMAP.blockLen c := by
              rw [List.length_append, length_CMAP_blockBytes]
            have hih := ih (fun x hx => hv x (List.mem_cons_of_mem c hx)) f
              (pre ++ CMAP.blockBytes c (pre.length + 8 + CMAP.blockLen c))
              (by simp) (by simp at hfuel ⊢; omega)
              (by rw [hpre2, show pre.length + CMAP.blockLen c + 8 =
                  pre.length + 8 + CMAP.blockLen c from by omega]; omega)
            rw [hpre2, show pre.length + CMAP.blockLen c + 8 =
              pre.length + 8 + CMAP.blockLen c from by omega] at hih
            rw [show pre ++ (CMAP.blockBytes c (pre.length + 8 + CMAP.blockLen c) ++
                (EncodeCMAPs (r :: rs) (pre.length + 8 + CMAP.blockLen c) ++ post)) =
              (pre ++ CMAP.blockBytes c (pre.length + 8 + CMAP.blockLen c)) ++
                (EncodeCMAPs (r :: rs) (pre.length + 8 + CMAP.blockLen c) ++ post) from by
                  simp [List.append_assoc]]
            rw [hih, ok_bind]
            rfl
      · -- Table mapping
        have hes : es.length = c.CodeEnd + 1 - c.CodeBegin ∧ ∀ e ∈ es, e < 65536 := by
          have := hv3
          rw [hM] at this
          exact this
        have htb : parseU16s (pre ++ (CMAP.blockBytes c
              (if rest.isEmpty then 0 else pre.length + 8 + CMAP.blockLen c) ++
              (EncodeCMAPs rest (pre.length + 8 + CMAP.blockLen c) ++ post))) es.length (pre.length + 8 + 10) = .ok es := by
          rw [show pre ++ (CMAP.blockBytes c
              (if rest.isEmpty then 0 else pre.length + 8 + CMAP.blockLen c) ++
              (EncodeCMAPs rest (pre.length + 8 + CMAP.blockLen c) ++ post)) =
            (pre ++ CMAP_MAGIC ++ u32BE (8 + (CMAP.blockBody c
              (if rest.isEmpty then 0 else pre.length + 8 + CMAP.blockLen c)).length +
              (4 - (8 + (CMAP.blockBody c
              (if rest.isEmpty then 0 else pre.length + 8 + CMAP.blockLen c)).length)
                % 4) % 4) ++
              u16BE c.CodeBegin ++ u16BE c.CodeEnd ++ u16BE c.Mapping.tag ++
              u32BE (if rest.isEmpty then 0 else pre.length + 8 + CMAP.blockLen c)) ++
            (es.flatMap u16BE ++
              (List.replicate ((4 - (8 + (CMAP.blockBody c
                (if rest.isEmpty then 0 else pre.length + 8 + CMAP.blockLen c)).length)
                  % 4) % 4) 0 ++
                (EncodeCMAPs rest (pre.length + 8 + CMAP.blockLen c) ++ post))) from by
              simp [CMAP.blockBytes, CMAP.blockBody, MapMethod.payloadBytes, hM,
                List.append_assoc]]
          exact parseU16s_encode es hes.2 _ _ _ (by
            simp only [List.length_append, length_u16BE, length_u32BE, CMAP_MAGIC,
              List.length_cons, List.length_nil])
        rw [show (MapMethod.table es).tag % 65536 = 1 from rfl,
          if_neg (by norm_num), if_pos rfl,
          show c.CodeEnd + 1 - c.CodeBegin = es.length from hes.1.symm, htb]
        simp only [ok_bind, pure_bindE]
        rw [← hM]
        cases rest with
        | nil =>
            rw [show (if ([] : List CMAP).isEmpty then 0
                else pre.length + 8 + CMAP.blockLen c) = 0 from rfl,
              if_pos (by norm_num)]
            rfl
        | cons r rs =>
            have hlow := CMAP_blockLen_lower c
            have hnxv : (if (r :: rs).isEmpty then 0
                else pre.length + 8 + CMAP.blockLen c) =
                pre.length + 8 + CMAP.blockLen c := rfl
            rw [hnxv] at *
            have hrestlen : 18 ≤ (EncodeCMAPs (r :: rs)
                (pre.length + 8 + CMAP.blockLen c)).length := by
              rw [length_EncodeCMAPs, List.map_cons, List.sum_cons]
              have := CMAP_blockLen_lower r
              omega
            have hnxlt : pre.length + 8 + CMAP.blockLen c < 4294967296 := by omega
            rw [Nat.mod_eq_of_lt hnxlt, if_neg (by omega)]
            have hpre2 : (pre ++ CMAP.blockBytes c
                (pre.length + 8 + CMAP.blockLen c)).length
                = pre.length + CMAP.blockLen c := by
              rw [List.length_append, length_CMAP_blockBytes]
            have hih := ih (fun x hx => hv x (List.mem_cons_of_mem c hx)) f
              (pre ++ CMAP.blockBytes c (pre.length + 8 + CMAP.blockLen c))
              (by simp) (by simp at hfuel ⊢; omega)
              (by rw [hpre2, show pre.length + CMAP.blockLen c + 8 =
                  pre.length + 8 + CMAP.blockLen c from by omega]; omega)
            rw [hpre2, show pre.length + CMAP.blockLen c + 8 =
              pre.length + 8 + CMAP.blockLen c from by omega] at hih
            rw [show pre ++ (CMAP.blockBytes c (pre.length + 8 + CMAP.blockLen c) ++
                (EncodeCMAPs (r :: rs) (pre.length + 8 + CMAP.blockLen c) ++ post)) =
              (pre ++ CMAP.blockBytes c (pre.length + 8 + CMAP.blockLen c)) ++
                (EncodeCMAPs (r :: rs) (pre.length + 8 + CMAP.blockLen c) ++ post) from by
                  simp [List.append_assoc]]
            rw [hih, ok_bind]
            rfl
      · -- Scan mapping
        have hps : ps.length < 65536 ∧ ∀ q ∈ ps, q.1 < 65536 ∧ q.2 < 65536 := by
          have := hv3
          rw [hM] at this
          exact this
        have hcnt : readU16E (pre ++ (CMAP.blockBytes c
              (if rest.isEmpty then 0 else pre.length + 8 + CMAP.blockLen c) ++
              (EncodeCMAPs rest (pre.length + 8 + CMAP.blockLen c) ++ post))) (pre.length + 8 + 10) = .ok ps.length := by
          rw [show pre ++ (CMAP.blockBytes c
              (if rest.isEmpty then 0 else pre.length + 8 + CMAP.blockLen c) ++
              (EncodeCMAPs rest (pre.length + 8 + CMAP.blockLen c) ++ post)) =
            (pre ++ CMAP_MAGIC ++ u32BE (8 + (CMAP.blockBody c
              (if rest.isEmpty then 0 else pre.length + 8 + CMAP.blockLen c)).length +
              (4 - (8 + (CMAP.blockBody c
              (if rest.isEmpty then 0 else pre.length + 8 + CMAP.blockLen c)).length)
                % 4) % 4) ++
              u16BE c.CodeBegin ++ u16BE c.CodeEnd ++ u16BE c.Mapping.tag ++
              u32BE (if rest.isEmpty then 0 else pre.length + 8 + CMAP.blockLen c)) ++
            (u16BE ps.length ++
              ((ps.flatMap fun pr => u16BE pr.1 ++ u16BE pr.2) ++
              (List.replicate ((4 - (8 + (CMAP.blockBody c
                (if rest.isEmpty then 0 else pre.length + 8 + CMAP.blockLen c)).length)
                  % 4) % 4) 0 ++
                (EncodeCMAPs rest (pre.length + 8 + CMAP.blockLen c) ++ post)))) from by
              simp [CMAP.blockBytes, CMAP.blockBody, MapMethod.payloadBytes, hM,
                List.append_assoc]]
          rw [readU16E_field _ _ _ _ (by
            simp only [List.length_append, length_u16BE, length_u32BE, CMAP_MAGIC,
              List.length_cons, List.length_nil]), Nat.mod_eq_of_lt hps.1]
        have hsp : parseScanPairs (pre ++ (CMAP.blockBytes c
              (if rest.isEmpty then 0 else pre.length + 8 + CMAP.blockLen c) ++
              (EncodeCMAPs rest (pre.length + 8 + CMAP.blockLen c) ++ post))) ps.length (pre.length + 8 + 12) = .ok ps := by
          rw [show pre ++ (CMAP.blockBytes c
              (if rest.isEmpty then 0 else pre.length + 8 + CMAP.blockLen c) ++
              (EncodeCMAPs rest (pre.length + 8 + CMAP.blockLen c) ++ post)) =
            ((pre ++ CMAP_MAGIC ++ u32BE (8 + (CMAP.blockBody c
              (if rest.isEmpty then 0 else pre.length + 8 + CMAP.blockLen c)).length +
              (4 - (8 + (CMAP.blockBody c
              (if rest.isEmpty then 0 else pre.length + 8 + CMAP.blockLen c)).length)
                % 4) % 4) ++
              u16BE c.CodeBegin ++ u16BE c.CodeEnd ++ u16BE c.Mapping.tag ++
              u32BE (if rest.isEmpty then 0 else pre.length + 8 + CMAP.blockLen c)) ++
              u16BE ps.length) ++
            ((ps.flatMap fun pr => u16BE pr.1 ++ u16BE pr.2) ++
              (List.replicate ((4 - (8 + (CMAP.blockBody c
                (if rest.isEmpty then 0 else pre.length + 8 + CMAP.blockLen c)).length)
                  % 4) % 4) 0 ++
                (EncodeCMAPs rest (pre.length + 8 + CMAP.blockLen c) ++ post))) from by
              simp [CMAP.blockBytes, CMAP.blockBody, MapMethod.payloadBytes, hM,
                List.append_assoc]]
          exact parseScanPairs_encode ps hps.2 _ _ _ (by
            simp only [List.length_append, length_u16BE, length_u32BE, CMAP_MAGIC,
              List.length_cons, List.length_nil])
        rw [show (MapMethod.scan ps).tag % 65536 = 2 from rfl,
          if_neg (by norm_num), if_neg (by norm_num), if_pos rfl, hcnt]
        simp only [ok_bind, pure_bindE]
        rw [hsp]
        simp only [ok_bind, pure_bindE]
        rw [← hM]
        cases rest with
        | nil =>
            rw [show (if ([] : List CMAP).isEmpty then 0
                else pre.length + 8 + CMAP.blockLen c) = 0 from rfl,
              if_pos (by norm_num)]
            rfl
        | cons r rs =>
            have hlow := CMAP_blockLen_lower c
            have hnxv : (if (r :: rs).isEmpty then 0
                else pre.length + 8 + CMAP.blockLen c) =
                pre.length + 8 + CMAP.blockLen c := rfl
            rw [hnxv] at *
            have hrestlen : 18 ≤ (EncodeCMAPs (r :: rs)
                (pre.length + 8 + CMAP.blockLen c)).length := by
              rw [length_EncodeCMAPs, List.map_cons, List.sum_cons]
              have := CMAP_blockLen_lower r
              omega
            have hnxlt : pre.length + 8 + CMAP.blockLen c < 4294967296 := by omega
            rw [Nat.mod_eq_of_lt hnxlt, if_neg (by omega)]
            have hpre2 : (pre ++ CMAP.blockBytes c
                (pre.length + 8 + CMAP.blockLen c)).length
                = pre.length + CMAP.blockLen c := by
              rw [List.length_append, length_CMAP_blockBytes]
            have hih := ih (fun x hx => hv x (List.mem_cons_of_mem c hx)) f
              (pre ++ CMAP.blockBytes c (pre.length + 8 + CMAP.blockLen c))
              (by simp) (by simp at hfuel ⊢; omega)
              (by rw [hpre2, show pre.length + CMAP.blockLen c + 8 =
                  pre.length + 8 + CMAP.blockLen c from by omega]; omega)
            rw [hpre2, show pre.length + CMAP.blockLen c + 8 =
              pre.length + 8 + CMAP.blockLen c from by omega] at hih
            rw [show pre ++ (CMAP.blockBytes c (pre.length + 8 + CMAP.blockLen c) ++
                (EncodeCMAPs (r :: rs) (pre.length + 8 + CMAP.blockLen c) ++ post)) =
              (pre ++ CMAP.blockBytes c (pre.length + 8 + CMAP.blockLen c)) ++
                (EncodeCMAPs (r :: rs) (pre.length + 8 + CMAP.blockLen c) ++ post) from by
                  simp [List.append_assoc]]
            rw [hih, ok_bind]
            rfl

/-! ### C1: encode-side congruences and the buffer layout -/

theorem encodeWithKrng_shape (b : BFFNT) (K : Nat → Bytes) :
    BFFNT.encodeWithKrng b K = ffntRawOf b (K (krngPayloadPos b)) ++ finfRawOf b ++
      tglpRawOf b ++ cwdhsRawOf b ++ cmapsRawOf b ++ K (krngPayloadPos b) := rfl

theorem matchKRNGAt_congr (A x y : Bytes) (hx4 : x.take 4 = y.take 4) (j : Nat)
    (hj : j ≤ A.length) : matchKRNGAt (A ++ x) j ↔ matchKRNGAt (A ++ y) j := by
  have key : ∀ z : Bytes, ((A ++ z).drop j).take 4 =
      (A.drop j).take 4 ++ (z.take 4).take (4 - (A.drop j).length) := by
    intro z
    rw [List.drop_append_of_le_length hj, List.take_append_eq_append_take]
    congr 1
    rw [List.take_take]
    congr 1
    omega
  unfold matchKRNGAt
  rw [key x, key y, hx4]

theorem take4_encodeOrdered (t : KerningMap) (l : List Nat) (so : Nat) (hne : l ≠ []) :
    (KRNG.encodeOrdered t l so).take 4 = KRNG_MAGIC_HEADER := by
  have hne' : l.isEmpty = false := by
    cases l with
    | nil => exact absurd rfl hne
    | cons a m => rfl
  unfold KRNG.encodeOrdered
  rw [hne']
  rw [if_neg (by simp)]
  rw [List.append_assoc, List.take_append_of_le_length (by simp [KRNG_MAGIC_HEADER])]
  rfl

theorem length_encodeOrdered_congr (t : KerningMap) (l l' : List Nat) (so : Nat)
    (h : l.Perm l') :
    (KRNG.encodeOrdered t l so).length = (KRNG.encodeOrdered t l' so).length := by
  cases hl : l with
  | nil =>
      have : l' = [] := by
        rw [hl] at h
        exact h.symm.eq_nil
      rw [this]
  | cons a m =>
      cases hl' : l' with
      | nil =>
          rw [hl, hl'] at h
          exact absurd h.eq_nil (by simp)
      | cons a' m' =>
          rw [← hl, ← hl']
          have hlen : l.length = l'.length := h.length_eq
          have hsum : ((l.map fun c => 2 + 4 * (lookupPairs t c).length).sum) =
              ((l'.map fun c => 2 + 4 * (lookupPairs t c).length).sum) :=
            (h.map fun c => 2 + 4 * (lookupPairs t c).length).sum_eq
          unfold KRNG.encodeOrdered
          rw [show l.isEmpty = false from by rw [hl]; rfl,
            show l'.isEmpty = false from by rw [hl']; rfl]
          rw [if_neg (by simp), if_neg (by simp)]
          unfold padToNext4ByteBoundary
          simp only [List.length_append, length_u32BE, List.length_replicate,
            length_u16BE, length_krngEntryBytes, length_krngPairArrayBytes,
            KRNG_MAGIC_HEADER, List.length_cons, List.length_nil, hlen, hsum]

theorem EncodeCMAPs_norm (blocks : List CMAP) :
    ∀ pos : Nat, EncodeCMAPs (blocks.map cmapNorm) pos = EncodeCMAPs blocks pos := by
  induction blocks with
  | nil => intro pos; rfl
  | cons c rest ih =>
      intro pos
      have hemp : (rest.map cmapNorm).isEmpty = rest.isEmpty := by
        cases rest <;> rfl
      show CMAP.blockBytes (cmapNorm c)
          (if (rest.map cmapNorm).isEmpty then 0
           else pos + CMAP.blockLen (cmapNorm c)) ++
        EncodeCMAPs (rest.map cmapNorm) (pos + CMAP.blockLen (cmapNorm c)) = _
      rw [hemp, show CMAP.blockLen (cmapNorm c) = CMAP.blockLen c from rfl, ih]
      rfl

theorem sortedKeys_eq (l l' : List Nat) (h : l.Perm l') :
    List.insertionSort (· ≤ ·) l = List.insertionSort (· ≤ ·) l' :=
  List.eq_of_perm_of_sorted
    ((List.perm_insertionSort _ l).trans (h.trans (List.perm_insertionSort _ l').symm))
    (List.sorted_insertionSort _ l) (List.sorted_insertionSort _ l')

theorem krngEntryBytes_congr (t₁ t₂ : KerningMap)
    (h : ∀ c, lookupPairs t₁ c = lookupPairs t₂ c) :
    ∀ (l : List Nat) (off : Nat), krngEntryBytes t₁ l off = krngEntryBytes t₂ l off := by
  intro l
  induction l with
  | nil => intro off; rfl
  | cons c rest ih =>
      intro off
      rw [krngEntryBytes, krngEntryBytes, h c, ih]

theorem krngPairArrayBytes_congr (t₁ t₂ : KerningMap)
    (h : ∀ c, lookupPairs t₁ c = lookupPairs t₂ c) (l : List Nat) :
    krngPairArrayBytes t₁ l = krngPairArrayBytes t₂ l := by
  unfold krngPairArrayBytes
  exact flatMap_congr l _ _ fun c _ => by rw [h c]

theorem encodeOrdered_congr (t₁ t₂ : KerningMap) (fc : List Nat) (so : Nat)
    (h : ∀ c, lookupPairs t₁ c = lookupPairs t₂ c) :
    KRNG.encodeOrdered t₁ fc so = KRNG.encodeOrdered t₂ fc so := by
  unfold KRNG.encodeOrdered
  rw [krngEntryBytes_congr t₁ t₂ h fc (fc.length * 4 + 2),
    krngPairArrayBytes_congr t₁ t₂ h fc]

theorem lookupPairs_graph (t : KerningMap) (ord : List Nat)
    (hnd : (t.map Prod.fst).Nodup) (hperm : ord.Perm (t.map Prod.fst)) :
    ∀ c, lookupPairs (ord.map fun k => (k, lookupPairs t k)) c = lookupPairs t c := by
  intro c
  show (mapLookup (ord.map fun k => (k, lookupPairs t k)) c).getD [] = lookupPairs t c
  rw [mapLookup_graph (fun k => lookupPairs t k) ord c]
  by_cases hc : c ∈ ord
  · rw [if_pos hc]
    rfl
  · rw [if_neg hc]
    show ([] : List kerningPair) = lookupPairs t c
    unfold lookupPairs
    rw [mapLookup_not_mem t c fun hmem => hc (hperm.mem_iff.mpr hmem)]
    rfl

theorem tableEncode_eq (t : KerningMap) (ord : List Nat) (so : Nat)
    (hnd : (t.map Prod.fst).Nodup) (hperm : ord.Perm (t.map Prod.fst)) :
    KRNG.encodeOrdered (ord.map fun c => (c, lookupPairs t c))
      (getFirstCharsOrdered (ord.map fun c => (c, lookupPairs t c))) so =
    KRNG.encodeOrdered t (getFirstCharsOrdered t) so := by
  have hkeys : getFirstCharsOrdered (ord.map fun c => (c, lookupPairs t c)) =
      getFirstCharsOrdered t := by
    unfold getFirstCharsOrdered
    rw [graph_keys]
    exact sortedKeys_eq ord (t.map Prod.fst) hperm
  rw [hkeys]
  exact encodeOrdered_congr _ _ _ _ (lookupPairs_graph t ord hnd hperm)

theorem EncodeCWDHs_lower (blocks : List CWDH) (pos : Nat) (hne : blocks ≠ []) :
    16 ≤ (EncodeCWDHs blocks pos).length := by
  cases blocks with
  | nil => exact absurd rfl hne
  | cons c rest =>
      rw [length_EncodeCWDHs, List.map_cons, List.sum_cons]
      have := CWDH_blockLen_lower c
      omega

theorem EncodeCMAPs_lower (blocks : List CMAP) (pos : Nat) (hne : blocks ≠ []) :
    18 ≤ (EncodeCMAPs blocks pos).length := by
  cases blocks with
  | nil => exact absurd rfl hne
  | cons c rest =>
      rw [length_EncodeCMAPs, List.map_cons, List.sum_cons]
      have := CMAP_blockLen_lower c
      omega

theorem length_le_EncodeCWDHs (blocks : List CWDH) (pos : Nat) :
    blocks.length ≤ (EncodeCWDHs blocks pos).length := by
  rw [length_EncodeCWDHs]
  induction blocks with
  | nil => simp
  | cons c rest ih =>
      rw [List.map_cons, List.sum_cons, List.length_cons]
      have := CWDH_blockLen_lower c
      omega

theorem length_le_EncodeCMAPs (blocks : List CMAP) (pos : Nat) :
    blocks.length ≤ (EncodeCMAPs blocks pos).length := by
  rw [length_EncodeCMAPs]
  induction blocks with
  | nil => simp
  | cons c rest ih =>
      rw [List.map_cons, List.sum_cons, List.length_cons]
      have := CMAP_blockLen_lower c
      omega

/-! ### C1: the round trip -/

theorem length_TGLP_Encode (tglp : TGLP) :
    (TGLP.Encode tglp).length = 28 + tglp.SheetData.length +
      (4 - (28 + tglp.SheetData.length) % 4) % 4 := by
  simp only [TGLP.Encode, List.length_append, List.length_replicate, length_u16BE,
    length_u32BE, length_u8, TGLP_MAGIC, List.length_cons, List.length_nil]

theorem fileSizeOf_congr (b1 b2 : BFFNT) (k1 k2 : Bytes)
    (h1 : (finfRawOf b1).length = (finfRawOf b2).length)
    (h2 : (tglpRawOf b1).length = (tglpRawOf b2).length)
    (h3 : (cwdhsRawOf b1).length = (cwdhsRawOf b2).length)
    (h4 : (cmapsRawOf b1).length = (cmapsRawOf b2).length)
    (h5 : k1.length = k2.length) :
    fileSizeOf b1 k1 = fileSizeOf b2 k2 := by
  unfold fileSizeOf
  rw [h1, h2, h3, h4, h5]

theorem krngPayloadPos_congr (b1 b2 : BFFNT)
    (hc : cmapPayloadPos b1 = cmapPayloadPos b2)
    (h4 : (cmapsRawOf b1).length = (cmapsRawOf b2).length) :
    krngPayloadPos b1 = krngPayloadPos b2 := by
  unfold krngPayloadPos
  rw [hc, h4]

theorem ffntRawOf_congr (b1 b2 : BFFNT) (k1 k2 : Bytes)
    (hf : b1.FFNT.MagicHeader = b2.FFNT.MagicHeader ∧
      b1.FFNT.Endianness = b2.FFNT.Endianness ∧
      b1.FFNT.SectionSize = b2.FFNT.SectionSize ∧
      b1.FFNT.Version = b2.FFNT.Version ∧
      b1.FFNT.BlockReadNum = b2.FFNT.BlockReadNum)
    (hfs : fileSizeOf b1 k1 = fileSizeOf b2 k2) :
    ffntRawOf b1 k1 = ffntRawOf b2 k2 := by
  obtain ⟨h1, h2, h3, h4, h5⟩ := hf
  unfold ffntRawOf FFNT.Encode
  rw [h1, h2, h3, h4, h5, hfs]

/-- C1: for every well-formed document and every emission order of the kerning
first characters, decoding the encoded buffer succeeds, and re-encoding the
decoded document reproduces the canonically encoded buffer byte-for-byte (with
the kerning entries normalized to ascending first-character order); moreover
the buffer agrees with the canonical encoding on every byte before the kerning
section, so only the kerning-table ordering is normalized. -/
theorem encode_decode_roundtrip (b : BFFNT) (ord : List Nat)
    (hv : ValidDoc b) (hp : ord.Perm (b.KRNG.KerningTable.map Prod.fst)) :
    ∃ b' : BFFNT,
      BFFNT.Decode (BFFNT.encodeWithKrng b
        (KRNG.encodeOrdered b.KRNG.KerningTable ord)) = .ok b' ∧
      BFFNT.Encode b' = BFFNT.Encode b ∧
      (BFFNT.encodeWithKrng b (KRNG.encodeOrdered b.KRNG.KerningTable ord)).take
          (krngSectionStart b) =
        (BFFNT.Encode b).take (krngSectionStart b) := by
  obtain ⟨hm4, hfe, hfs16, hfv, hfbn, hfinfb, htglpb, hss, hcwne, hcwv, hcmne, hcmv,
    hkrv, hlen32, hmagic, hmagic0⟩ := hv
  obtain ⟨hnd, hvt, hsmall⟩ := hkrv
  -- length facts
  have hFFlen : (ffntRawOf b (KRNG.encodeOrdered b.KRNG.KerningTable ord (krngPayloadPos b))).length = 20 := by
    unfold ffntRawOf
    rw [length_FFNT_Encode, hm4]
  have hFIlen : (finfRawOf b).length = 32 := by
    unfold finfRawOf
    rw [length_FINF_Encode]
    rfl
  have hTGle : b.TGLP.SheetData.length ≤ (tglpRawOf b).length := by
    show _ ≤ (TGLP.Encode b.TGLP).length
    rw [length_TGLP_Encode]
    omega
  have hcwpos : cwdhPayloadPos b = 60 + (tglpRawOf b).length := rfl
  have hcmpos : cmapPayloadPos b = cwdhPayloadPos b + (cwdhsRawOf b).length := rfl
  have hsecstart : krngSectionStart b = cmapPayloadPos b + (cmapsRawOf b).length - 8 := rfl
  have hcwlow : 16 ≤ (cwdhsRawOf b).length :=
    EncodeCWDHs_lower b.CWDHs (cwdhPayloadPos b) hcwne
  have hcmlow : 18 ≤ (cmapsRawOf b).length :=
    EncodeCMAPs_lower b.CMAPs (cmapPayloadPos b) hcmne
  have hkreqlen : (KRNG.encodeOrdered b.KRNG.KerningTable ord (krngPayloadPos b)).length = (KRNG.Encode b.KRNG (krngPayloadPos b)).length := by
    show _ = (KRNG.encodeOrdered b.KRNG.KerningTable
      (getFirstCharsOrdered b.KRNG.KerningTable) (krngPayloadPos b)).length
    exact length_encodeOrdered_congr b.KRNG.KerningTable ord
      (getFirstCharsOrdered b.KRNG.KerningTable) (krngPayloadPos b)
      (hp.trans (List.perm_insertionSort (· ≤ ·) (b.KRNG.KerningTable.map Prod.fst)).symm)
  have hFSeq : fileSizeOf b (KRNG.encodeOrdered b.KRNG.KerningTable ord (krngPayloadPos b)) = fileSizeOf b (KRNG.Encode b.KRNG (krngPayloadPos b)) := by
    unfold fileSizeOf
    rw [hkreqlen]
  have hRshape : BFFNT.encodeWithKrng b (KRNG.encodeOrdered b.KRNG.KerningTable ord) = ffntRawOf b (KRNG.encodeOrdered b.KRNG.KerningTable ord (krngPayloadPos b)) ++ finfRawOf b ++ tglpRawOf b ++ cwdhsRawOf b ++ cmapsRawOf b ++ KRNG.encodeOrdered b.KRNG.KerningTable ord (krngPayloadPos b) :=
    encodeWithKrng_shape b (KRNG.encodeOrdered b.KRNG.KerningTable ord)
  have hEshape : BFFNT.Encode b = ffntRawOf b (KRNG.encodeOrdered b.KRNG.KerningTable ord (krngPayloadPos b)) ++ finfRawOf b ++ tglpRawOf b ++ cwdhsRawOf b ++ cmapsRawOf b ++ KRNG.Encode b.KRNG (krngPayloadPos b) := by
    show BFFNT.encodeWithKrng b (KRNG.Encode b.KRNG) = _
    rw [encodeWithKrng_shape b (KRNG.Encode b.KRNG)]
    unfold ffntRawOf
    rw [hFSeq]
  have hRlen : (BFFNT.encodeWithKrng b (KRNG.encodeOrdered b.KRNG.KerningTable ord)).length = fileSizeOf b (KRNG.encodeOrdered b.KRNG.KerningTable ord (krngPayloadPos b)) := by
    rw [hRshape]
    unfold fileSizeOf
    simp only [List.length_append, hFFlen]
    rw [show FFNT_HEADER_SIZE = 20 from rfl]
  have hElen : (BFFNT.Encode b).length = fileSizeOf b (KRNG.encodeOrdered b.KRNG.KerningTable ord (krngPayloadPos b)) := by
    rw [hEshape, hFSeq]
    unfold fileSizeOf
    simp only [List.length_append, hFFlen]
    rw [show FFNT_HEADER_SIZE = 20 from rfl]
  have hFSlt : fileSizeOf b (KRNG.encodeOrdered b.KRNG.KerningTable ord (krngPayloadPos b)) < 4294967296 := by
    rw [← hElen]
    exact hlen32
  have hfs52 : fileSizeOf b (KRNG.encodeOrdered b.KRNG.KerningTable ord (krngPayloadPos b)) = 52 + (tglpRawOf b).length + (cwdhsRawOf b).length +
      (cmapsRawOf b).length + (KRNG.encodeOrdered b.KRNG.KerningTable ord (krngPayloadPos b)).length := by
    unfold fileSizeOf
    rw [hFIlen, show FFNT_HEADER_SIZE = 20 from rfl]
  have hP2len : (ffntRawOf b (KRNG.encodeOrdered b.KRNG.KerningTable ord (krngPayloadPos b)) ++ finfRawOf b : Bytes).length = 52 := by
    simp only [List.length_append, hFFlen, hFIlen]
  have hP3len : (ffntRawOf b (KRNG.encodeOrdered b.KRNG.KerningTable ord (krngPayloadPos b)) ++ finfRawOf b ++ tglpRawOf b : Bytes).length = 52 + (tglpRawOf b).length := by
    simp only [List.length_append, hFFlen, hFIlen]
  have hP4len : (ffntRawOf b (KRNG.encodeOrdered b.KRNG.KerningTable ord (krngPayloadPos b)) ++ finfRawOf b ++ tglpRawOf b ++ cwdhsRawOf b : Bytes).length = 52 + (tglpRawOf b).length + (cwdhsRawOf b).length := by
    simp only [List.length_append, hFFlen, hFIlen]
  have hP5len : (ffntRawOf b (KRNG.encodeOrdered b.KRNG.KerningTable ord (krngPayloadPos b)) ++ finfRawOf b ++ tglpRawOf b ++ cwdhsRawOf b ++ cmapsRawOf b : Bytes).length = krngSectionStart b := by
    simp only [List.length_append, hFFlen, hFIlen]
    rw [hsecstart, hcmpos, hcwpos]
    omega
  have hcw8 : cwdhPayloadPos b = (ffntRawOf b (KRNG.encodeOrdered b.KRNG.KerningTable ord (krngPayloadPos b)) ++ finfRawOf b ++ tglpRawOf b : Bytes).length + 8 := by
    rw [hP3len, hcwpos]
    omega
  have hcm8 : cmapPayloadPos b = (ffntRawOf b (KRNG.encodeOrdered b.KRNG.KerningTable ord (krngPayloadPos b)) ++ finfRawOf b ++ tglpRawOf b ++ cwdhsRawOf b : Bytes).length + 8 := by
    rw [hP4len, hcmpos, hcwpos]
    omega
  have htp32 : tglpPayloadPos < 4294967296 := by decide
  have hcw32 : cwdhPayloadPos b < 4294967296 := by
    rw [hcwpos]
    omega
  have hcm32 : cmapPayloadPos b < 4294967296 := by
    rw [hcmpos, hcwpos]
    omega
  have hsheet32 : b.TGLP.SheetData.length < 4294967296 := by
    omega
  -- the five kerning-independent section decodes
  have h1 : FFNT.Decode (BFFNT.encodeWithKrng b (KRNG.encodeOrdered b.KRNG.KerningTable ord)) = .ok ({ b.FFNT with TotalFileSize := fileSizeOf b (KRNG.encodeOrdered b.KRNG.KerningTable ord (krngPayloadPos b)) }) := by
    rw [hRshape, show ffntRawOf b (KRNG.encodeOrdered b.KRNG.KerningTable ord (krngPayloadPos b)) ++ finfRawOf b ++ tglpRawOf b ++ cwdhsRawOf b ++ cmapsRawOf b ++ KRNG.encodeOrdered b.KRNG.KerningTable ord (krngPayloadPos b) =
      FFNT.Encode b.FFNT (fileSizeOf b (KRNG.encodeOrdered b.KRNG.KerningTable ord (krngPayloadPos b))) ++
        (finfRawOf b ++ (tglpRawOf b ++ (cwdhsRawOf b ++ (cmapsRawOf b ++ KRNG.encodeOrdered b.KRNG.KerningTable ord (krngPayloadPos b))))) from by
        unfold ffntRawOf
        simp [List.append_assoc]]
    rw [ffnt_decode_of_encode b.FFNT _ _ hm4 hfe hfs16 hfv hfbn,
      Nat.mod_eq_of_lt hFSlt]
  have h2 : FINF.Decode (BFFNT.encodeWithKrng b (KRNG.encodeOrdered b.KRNG.KerningTable ord)) = .ok ({ b.FINF with TGLPOffset := tglpPayloadPos, CWDHOffset := cwdhPayloadPos b, CMAPOffset := cmapPayloadPos b }) := by
    rw [hRshape, show ffntRawOf b (KRNG.encodeOrdered b.KRNG.KerningTable ord (krngPayloadPos b)) ++ finfRawOf b ++ tglpRawOf b ++ cwdhsRawOf b ++ cmapsRawOf b ++ KRNG.encodeOrdered b.KRNG.KerningTable ord (krngPayloadPos b) =
      (ffntRawOf b (KRNG.encodeOrdered b.KRNG.KerningTable ord (krngPayloadPos b))) ++ (FINF.Encode b.FINF tglpPayloadPos (cwdhPayloadPos b)
        (cmapPayloadPos b) ++ (tglpRawOf b ++ (cwdhsRawOf b ++ (cmapsRawOf b ++ KRNG.encodeOrdered b.KRNG.KerningTable ord (krngPayloadPos b))))) from by
        unfold finfRawOf
        simp [List.append_assoc]]
    exact finf_decode_of_encode b.FINF _ _ _ _ _ hFFlen hfinfb htp32 hcw32 hcm32
  have h3 : TGLP.Decode (BFFNT.encodeWithKrng b (KRNG.encodeOrdered b.KRNG.KerningTable ord)) = .ok b.TGLP := by
    rw [hRshape, show ffntRawOf b (KRNG.encodeOrdered b.KRNG.KerningTable ord (krngPayloadPos b)) ++ finfRawOf b ++ tglpRawOf b ++ cwdhsRawOf b ++ cmapsRawOf b ++ KRNG.encodeOrdered b.KRNG.KerningTable ord (krngPayloadPos b) =
      (ffntRawOf b (KRNG.encodeOrdered b.KRNG.KerningTable ord (krngPayloadPos b)) ++ finfRawOf b) ++ (TGLP.Encode b.TGLP ++ (cwdhsRawOf b ++ (cmapsRawOf b ++ KRNG.encodeOrdered b.KRNG.KerningTable ord (krngPayloadPos b)))) from by
        unfold tglpRawOf
        simp [List.append_assoc]]
    exact tglp_decode_of_encode b.TGLP _ _ hP2len htglpb hss hsheet32
  have h4 : DecodeCWDHs (BFFNT.encodeWithKrng b (KRNG.encodeOrdered b.KRNG.KerningTable ord)) (cwdhPayloadPos b) = .ok b.CWDHs := by
    unfold DecodeCWDHs
    have hsub : b.CWDHs.length ≤ (cwdhsRawOf b).length :=
      length_le_EncodeCWDHs b.CWDHs (cwdhPayloadPos b)
    have hcall := parseCWDHs_encode b.CWDHs hcwv (cmapsRawOf b ++ KRNG.encodeOrdered b.KRNG.KerningTable ord (krngPayloadPos b))
      ((BFFNT.encodeWithKrng b (KRNG.encodeOrdered b.KRNG.KerningTable ord)).length + 1) (ffntRawOf b (KRNG.encodeOrdered b.KRNG.KerningTable ord (krngPayloadPos b)) ++ finfRawOf b ++ tglpRawOf b) hcwne
      (by rw [hRlen]; omega)
      (by rw [← hcw8]
          show (ffntRawOf b (KRNG.encodeOrdered b.KRNG.KerningTable ord (krngPayloadPos b)) ++ finfRawOf b ++ tglpRawOf b : Bytes).length + (cwdhsRawOf b).length +
            (cmapsRawOf b ++ KRNG.encodeOrdered b.KRNG.KerningTable ord (krngPayloadPos b)).length < 4294967296
          simp only [List.length_append] at *
          omega)
    rw [← hcw8] at hcall
    rw [← show BFFNT.encodeWithKrng b (KRNG.encodeOrdered b.KRNG.KerningTable ord) =
      (ffntRawOf b (KRNG.encodeOrdered b.KRNG.KerningTable ord (krngPayloadPos b)) ++ finfRawOf b ++ tglpRawOf b) ++ (EncodeCWDHs b.CWDHs (cwdhPayloadPos b) ++ (cmapsRawOf b ++ KRNG.encodeOrdered b.KRNG.KerningTable ord (krngPayloadPos b))) from by
        rw [hRshape]
        unfold cwdhsRawOf
        simp [List.append_assoc]] at hcall
    exact hcall
  have h5 : DecodeCMAPs (BFFNT.encodeWithKrng b (KRNG.encodeOrdered b.KRNG.KerningTable ord)) (cmapPayloadPos b) = .ok (b.CMAPs.map cmapNorm) := by
    unfold DecodeCMAPs
    have hsub : b.CMAPs.length ≤ (cmapsRawOf b).length :=
      length_le_EncodeCMAPs b.CMAPs (cmapPayloadPos b)
    have hcall := parseCMAPs_encode b.CMAPs hcmv (KRNG.encodeOrdered b.KRNG.KerningTable ord (krngPayloadPos b))
      ((BFFNT.encodeWithKrng b (KRNG.encodeOrdered b.KRNG.KerningTable ord)).length + 1) (ffntRawOf b (KRNG.encodeOrdered b.KRNG.KerningTable ord (krngPayloadPos b)) ++ finfRawOf b ++ tglpRawOf b ++ cwdhsRawOf b) hcmne
      (by rw [hRlen]; omega)
      (by rw [← hcm8]
          show (ffntRawOf b (KRNG.encodeOrdered b.KRNG.KerningTable ord (krngPayloadPos b)) ++ finfRawOf b ++ tglpRawOf b ++ cwdhsRawOf b : Bytes).length + (cmapsRawOf b).length +
            (KRNG.encodeOrdered b.KRNG.KerningTable ord (krngPayloadPos b)).length < 4294967296
          simp only [List.length_append] at *
          omega)
    rw [← hcm8] at hcall
    rw [← show BFFNT.encodeWithKrng b (KRNG.encodeOrdered b.KRNG.KerningTable ord) =
      (ffntRawOf b (KRNG.encodeOrdered b.KRNG.KerningTable ord (krngPayloadPos b)) ++ finfRawOf b ++ tglpRawOf b ++ cwdhsRawOf b) ++ (EncodeCMAPs b.CMAPs (cmapPayloadPos b) ++ (KRNG.encodeOrdered b.KRNG.KerningTable ord (krngPayloadPos b))) from by
        rw [hRshape]
        unfold cmapsRawOf
        simp [List.append_assoc]] at hcall
    exact hcall
  -- the kerning section: empty and non-empty tables
  by_cases ht : b.KRNG.KerningTable = []
  · -- empty kerning table
    have hord0 : ord = [] := by
      rw [ht] at hp
      exact hp.eq_nil
    have hKRp0 : (KRNG.encodeOrdered b.KRNG.KerningTable ord (krngPayloadPos b)) = ([] : Bytes) := by
      rw [hord0]
      rfl
    have hKRs0 : (KRNG.Encode b.KRNG (krngPayloadPos b)) = ([] : Bytes) := by
      show KRNG.encodeOrdered b.KRNG.KerningTable
        (getFirstCharsOrdered b.KRNG.KerningTable) (krngPayloadPos b) = []
      rw [ht]
      rfl
    have hRE : BFFNT.encodeWithKrng b (KRNG.encodeOrdered b.KRNG.KerningTable ord) = BFFNT.Encode b := by
      rw [hRshape, hEshape, hKRp0, hKRs0]
    have hnomatch : ∀ i, ¬ matchKRNGAt (BFFNT.encodeWithKrng b (KRNG.encodeOrdered b.KRNG.KerningTable ord)) i := by
      intro i hmt
      have hb4 := matchKRNGAt_bound _ i hmt
      by_cases hi : i < (BFFNT.encodeWithKrng b (KRNG.encodeOrdered b.KRNG.KerningTable ord)).length
      · refine hmagic0 ht i ?_ ?_
        · rw [← hRE]
          exact hi
        · rw [hRE] at hmt
          exact hmt
      · omega
    have hfindnone : findKRNG (BFFNT.encodeWithKrng b (KRNG.encodeOrdered b.KRNG.KerningTable ord)) = none := by
      cases hf : findKRNG (BFFNT.encodeWithKrng b (KRNG.encodeOrdered b.KRNG.KerningTable ord)) with
      | none => rfl
      | some k => exact absurd (findKRNG_some _ k hf).1 (hnomatch k)
    have h6 : KRNG.Decode (BFFNT.encodeWithKrng b (KRNG.encodeOrdered b.KRNG.KerningTable ord)) = .ok ({ MagicHeader := [], SectionSize := 0, KerningTable := [] } : KRNG) := by
      rw [krng_decode_eq, hfindnone]
    refine ⟨{ FFNT := { b.FFNT with TotalFileSize := fileSizeOf b (KRNG.encodeOrdered b.KRNG.KerningTable ord (krngPayloadPos b)) }, FINF := { b.FINF with TGLPOffset := tglpPayloadPos, CWDHOffset := cwdhPayloadPos b, CMAPOffset := cmapPayloadPos b }, TGLP := b.TGLP, CWDHs := b.CWDHs, CMAPs := b.CMAPs.map cmapNorm, KRNG := ({ MagicHeader := [], SectionSize := 0, KerningTable := [] } : KRNG) }, ?_, ?_, ?_⟩
    · unfold BFFNT.Decode
      rw [h1, ok_bind, h2, ok_bind, h3, ok_bind]
      dsimp only
      rw [h4, ok_bind, h5, ok_bind, h6, ok_bind]
      rfl
    · show BFFNT.encodeWithKrng _ (KRNG.Encode _) =
        BFFNT.encodeWithKrng b (KRNG.Encode b.KRNG)
      rw [encodeWithKrng_shape, encodeWithKrng_shape]
      have hcmn : cmapsRawOf ({ FFNT := { b.FFNT with TotalFileSize := fileSizeOf b (KRNG.encodeOrdered b.KRNG.KerningTable ord (krngPayloadPos b)) }, FINF := { b.FINF with TGLPOffset := tglpPayloadPos, CWDHOffset := cwdhPayloadPos b, CMAPOffset := cmapPayloadPos b }, TGLP := b.TGLP, CWDHs := b.CWDHs, CMAPs := b.CMAPs.map cmapNorm, KRNG := ({ MagicHeader := [], SectionSize := 0, KerningTable := [] } : KRNG) } : BFFNT) = cmapsRawOf b :=
        EncodeCMAPs_norm b.CMAPs (cmapPayloadPos b)
      have hkrB : ∀ p : Nat, KRNG.Encode b.KRNG p = ([] : Bytes) := by
        intro p
        show KRNG.encodeOrdered b.KRNG.KerningTable
          (getFirstCharsOrdered b.KRNG.KerningTable) p = []
        rw [ht]
        rfl
      rw [show KRNG.Encode ({ FFNT := { b.FFNT with TotalFileSize := fileSizeOf b (KRNG.encodeOrdered b.KRNG.KerningTable ord (krngPayloadPos b)) }, FINF := { b.FINF with TGLPOffset := tglpPayloadPos, CWDHOffset := cwdhPayloadPos b, CMAPOffset := cmapPayloadPos b }, TGLP := b.TGLP, CWDHs := b.CWDHs, CMAPs := b.CMAPs.map cmapNorm, KRNG := ({ MagicHeader := [], SectionSize := 0, KerningTable := [] } : KRNG) } : BFFNT).KRNG
          (krngPayloadPos ({ FFNT := { b.FFNT with TotalFileSize := fileSizeOf b (KRNG.encodeOrdered b.KRNG.KerningTable ord (krngPayloadPos b)) }, FINF := { b.FINF with TGLPOffset := tglpPayloadPos, CWDHOffset := cwdhPayloadPos b, CMAPOffset := cmapPayloadPos b }, TGLP := b.TGLP, CWDHs := b.CWDHs, CMAPs := b.CMAPs.map cmapNorm, KRNG := ({ MagicHeader := [], SectionSize := 0, KerningTable := [] } : KRNG) } : BFFNT)) = ([] : Bytes) from rfl,
        hkrB (krngPayloadPos b)]
      have hfsz : fileSizeOf ({ FFNT := { b.FFNT with TotalFileSize := fileSizeOf b (KRNG.encodeOrdered b.KRNG.KerningTable ord (krngPayloadPos b)) }, FINF := { b.FINF with TGLPOffset := tglpPayloadPos, CWDHOffset := cwdhPayloadPos b, CMAPOffset := cmapPayloadPos b }, TGLP := b.TGLP, CWDHs := b.CWDHs, CMAPs := b.CMAPs.map cmapNorm, KRNG := ({ MagicHeader := [], SectionSize := 0, KerningTable := [] } : KRNG) } : BFFNT) ([] : Bytes) =
          fileSizeOf b ([] : Bytes) := by
        exact fileSizeOf_congr _ b _ _ rfl rfl rfl (by rw [hcmn]) rfl
      have hffr : ffntRawOf ({ FFNT := { b.FFNT with TotalFileSize := fileSizeOf b (KRNG.encodeOrdered b.KRNG.KerningTable ord (krngPayloadPos b)) }, FINF := { b.FINF with TGLPOffset := tglpPayloadPos, CWDHOffset := cwdhPayloadPos b, CMAPOffset := cmapPayloadPos b }, TGLP := b.TGLP, CWDHs := b.CWDHs, CMAPs := b.CMAPs.map cmapNorm, KRNG := ({ MagicHeader := [], SectionSize := 0, KerningTable := [] } : KRNG) } : BFFNT) ([] : Bytes) =
          ffntRawOf b ([] : Bytes) := by
        exact ffntRawOf_congr _ b _ _ ⟨rfl, rfl, rfl, rfl, rfl⟩ hfsz
      rw [hffr, hcmn]
      rfl
    · rw [hRshape, hEshape, hKRp0, hKRs0]
  · -- non-empty kerning table
    have hkeysne : b.KRNG.KerningTable.map Prod.fst ≠ [] := by
      intro h0
      exact ht (List.map_eq_nil_iff.mp h0)
    have hordne : ord ≠ [] := by
      intro h0
      rw [h0] at hp
      exact hkeysne hp.symm.eq_nil
    have hsortne : getFirstCharsOrdered b.KRNG.KerningTable ≠ [] := by
      intro h0
      have hper := List.perm_insertionSort (· ≤ ·) (b.KRNG.KerningTable.map Prod.fst)
      unfold getFirstCharsOrdered at h0
      rw [h0] at hper
      exact hkeysne hper.symm.eq_nil
    have htake4 : (KRNG.encodeOrdered b.KRNG.KerningTable ord (krngPayloadPos b)).take 4 = (KRNG.Encode b.KRNG (krngPayloadPos b)).take 4 := by
      rw [take4_encodeOrdered _ _ _ hordne]
      show _ = (KRNG.encodeOrdered b.KRNG.KerningTable
        (getFirstCharsOrdered b.KRNG.KerningTable) (krngPayloadPos b)).take 4
      rw [take4_encodeOrdered _ _ _ hsortne]
    have hmt : matchKRNGAt (BFFNT.encodeWithKrng b (KRNG.encodeOrdered b.KRNG.KerningTable ord)) (krngSectionStart b) := by
      unfold matchKRNGAt
      rw [hRshape, show krngSectionStart b = (ffntRawOf b (KRNG.encodeOrdered b.KRNG.KerningTable ord (krngPayloadPos b)) ++ finfRawOf b ++ tglpRawOf b ++ cwdhsRawOf b ++ cmapsRawOf b : Bytes).length from hP5len.symm,
        drop_prefix _ _ _ rfl, take4_encodeOrdered _ _ _ hordne]
    have hnomatch : ∀ j, j < krngSectionStart b → ¬ matchKRNGAt (BFFNT.encodeWithKrng b (KRNG.encodeOrdered b.KRNG.KerningTable ord)) j := by
      intro j hj hmt'
      apply hmagic j hj
      rw [hEshape]
      rw [hRshape] at hmt'
      exact (matchKRNGAt_congr (ffntRawOf b (KRNG.encodeOrdered b.KRNG.KerningTable ord (krngPayloadPos b)) ++ finfRawOf b ++ tglpRawOf b ++ cwdhsRawOf b ++ cmapsRawOf b) (KRNG.encodeOrdered b.KRNG.KerningTable ord (krngPayloadPos b)) (KRNG.Encode b.KRNG (krngPayloadPos b)) htake4 j
        (by rw [hP5len]; omega)).mp hmt'
    have hfind : findKRNG (BFFNT.encodeWithKrng b (KRNG.encodeOrdered b.KRNG.KerningTable ord)) = some (krngSectionStart b) :=
      findKRNG_first _ _ hmt hnomatch
    have h6 : KRNG.Decode (BFFNT.encodeWithKrng b (KRNG.encodeOrdered b.KRNG.KerningTable ord)) = .ok (({ MagicHeader := KRNG_MAGIC_HEADER, SectionSize := KRNG_HEADER_SIZE + (padToNext4ByteBoundary (krngPayloadPos b) (u16BE ord.length ++ krngEntryBytes b.KRNG.KerningTable ord (ord.length * 4 + 2) ++ krngPairArrayBytes b.KRNG.KerningTable ord)).length, KerningTable := ord.map fun c => (c, lookupPairs b.KRNG.KerningTable c) } : KRNG)) := by
      rw [krng_decode_eq, hfind]
      have hcall := krngDecodeFrom_encode b.KRNG.KerningTable ord (krngPayloadPos b)
        (ffntRawOf b (KRNG.encodeOrdered b.KRNG.KerningTable ord (krngPayloadPos b)) ++ finfRawOf b ++ tglpRawOf b ++ cwdhsRawOf b ++ cmapsRawOf b) hnd hvt hp hsmall hordne
      rw [hP5len] at hcall
      rw [← hRshape] at hcall
      exact hcall
    refine ⟨{ FFNT := { b.FFNT with TotalFileSize := fileSizeOf b (KRNG.encodeOrdered b.KRNG.KerningTable ord (krngPayloadPos b)) }, FINF := { b.FINF with TGLPOffset := tglpPayloadPos, CWDHOffset := cwdhPayloadPos b, CMAPOffset := cmapPayloadPos b }, TGLP := b.TGLP, CWDHs := b.CWDHs, CMAPs := b.CMAPs.map cmapNorm, KRNG := ({ MagicHeader := KRNG_MAGIC_HEADER, SectionSize := KRNG_HEADER_SIZE + (padToNext4ByteBoundary (krngPayloadPos b) (u16BE ord.length ++ krngEntryBytes b.KRNG.KerningTable ord (ord.length * 4 + 2) ++ krngPairArrayBytes b.KRNG.KerningTable ord)).length, KerningTable := ord.map fun c => (c, lookupPairs b.KRNG.KerningTable c) } : KRNG) }, ?_, ?_, ?_⟩
    · unfold BFFNT.Decode
      rw [h1, ok_bind, h2, ok_bind, h3, ok_bind]
      dsimp only
      rw [h4, ok_bind, h5, ok_bind, h6, ok_bind]
      rfl
    · show BFFNT.encodeWithKrng _ (KRNG.Encode _) =
        BFFNT.encodeWithKrng b (KRNG.Encode b.KRNG)
      rw [encodeWithKrng_shape, encodeWithKrng_shape]
      have hcmn : cmapsRawOf ({ FFNT := { b.FFNT with TotalFileSize := fileSizeOf b (KRNG.encodeOrdered b.KRNG.KerningTable ord (krngPayloadPos b)) }, FINF := { b.FINF with TGLPOffset := tglpPayloadPos, CWDHOffset := cwdhPayloadPos b, CMAPOffset := cmapPayloadPos b }, TGLP := b.TGLP, CWDHs := b.CWDHs, CMAPs := b.CMAPs.map cmapNorm, KRNG := ({ MagicHeader := KRNG_MAGIC_HEADER, SectionSize := KRNG_HEADER_SIZE + (padToNext4ByteBoundary (krngPayloadPos b) (u16BE ord.length ++ krngEntryBytes b.KRNG.KerningTable ord (ord.length * 4 + 2) ++ krngPairArrayBytes b.KRNG.KerningTable ord)).length, KerningTable := ord.map fun c => (c, lookupPairs b.KRNG.KerningTable c) } : KRNG) } : BFFNT) = cmapsRawOf b :=
        EncodeCMAPs_norm b.CMAPs (cmapPayloadPos b)
      have hkrpos2 : krngPayloadPos ({ FFNT := { b.FFNT with TotalFileSize := fileSizeOf b (KRNG.encodeOrdered b.KRNG.KerningTable ord (krngPayloadPos b)) }, FINF := { b.FINF with TGLPOffset := tglpPayloadPos, CWDHOffset := cwdhPayloadPos b, CMAPOffset := cmapPayloadPos b }, TGLP := b.TGLP, CWDHs := b.CWDHs, CMAPs := b.CMAPs.map cmapNorm, KRNG := ({ MagicHeader := KRNG_MAGIC_HEADER, SectionSize := KRNG_HEADER_SIZE + (padToNext4ByteBoundary (krngPayloadPos b) (u16BE ord.length ++ krngEntryBytes b.KRNG.KerningTable ord (ord.length * 4 + 2) ++ krngPairArrayBytes b.KRNG.KerningTable ord)).length, KerningTable := ord.map fun c => (c, lookupPairs b.KRNG.KerningTable c) } : KRNG) } : BFFNT) = krngPayloadPos b := by
        exact krngPayloadPos_congr _ b rfl (by rw [hcmn])
      have hkrenc : KRNG.Encode ({ FFNT := { b.FFNT with TotalFileSize := fileSizeOf b (KRNG.encodeOrdered b.KRNG.KerningTable ord (krngPayloadPos b)) }, FINF := { b.FINF with TGLPOffset := tglpPayloadPos, CWDHOffset := cwdhPayloadPos b, CMAPOffset := cmapPayloadPos b }, TGLP := b.TGLP, CWDHs := b.CWDHs, CMAPs := b.CMAPs.map cmapNorm, KRNG := ({ MagicHeader := KRNG_MAGIC_HEADER, SectionSize := KRNG_HEADER_SIZE + (padToNext4ByteBoundary (krngPayloadPos b) (u16BE ord.length ++ krngEntryBytes b.KRNG.KerningTable ord (ord.length * 4 + 2) ++ krngPairArrayBytes b.KRNG.KerningTable ord)).length, KerningTable := ord.map fun c => (c, lookupPairs b.KRNG.KerningTable c) } : KRNG) } : BFFNT).KRNG
          (krngPayloadPos ({ FFNT := { b.FFNT with TotalFileSize := fileSizeOf b (KRNG.encodeOrdered b.KRNG.KerningTable ord (krngPayloadPos b)) }, FINF := { b.FINF with TGLPOffset := tglpPayloadPos, CWDHOffset := cwdhPayloadPos b, CMAPOffset := cmapPayloadPos b }, TGLP := b.TGLP, CWDHs := b.CWDHs, CMAPs := b.CMAPs.map cmapNorm, KRNG := ({ MagicHeader := KRNG_MAGIC_HEADER, SectionSize := KRNG_HEADER_SIZE + (padToNext4ByteBoundary (krngPayloadPos b) (u16BE ord.length ++ krngEntryBytes b.KRNG.KerningTable ord (ord.length * 4 + 2) ++ krngPairArrayBytes b.KRNG.KerningTable ord)).length, KerningTable := ord.map fun c => (c, lookupPairs b.KRNG.KerningTable c) } : KRNG) } : BFFNT)) = KRNG.Encode b.KRNG (krngPayloadPos b) := by
        rw [hkrpos2]
        show KRNG.encodeOrdered (ord.map fun c => (c, lookupPairs b.KRNG.KerningTable c))
          (getFirstCharsOrdered (ord.map fun c => (c, lookupPairs b.KRNG.KerningTable c)))
          (krngPayloadPos b) =
          KRNG.encodeOrdered b.KRNG.KerningTable (getFirstCharsOrdered b.KRNG.KerningTable) (krngPayloadPos b)
        exact tableEncode_eq b.KRNG.KerningTable ord (krngPayloadPos b) hnd hp
      have hfsz : fileSizeOf ({ FFNT := { b.FFNT with TotalFileSize := fileSizeOf b (KRNG.encodeOrdered b.KRNG.KerningTable ord (krngPayloadPos b)) }, FINF := { b.FINF with TGLPOffset := tglpPayloadPos, CWDHOffset := cwdhPayloadPos b, CMAPOffset := cmapPayloadPos b }, TGLP := b.TGLP, CWDHs := b.CWDHs, CMAPs := b.CMAPs.map cmapNorm, KRNG := ({ MagicHeader := KRNG_MAGIC_HEADER, SectionSize := KRNG_HEADER_SIZE + (padToNext4ByteBoundary (krngPayloadPos b) (u16BE ord.length ++ krngEntryBytes b.KRNG.KerningTable ord (ord.length * 4 + 2) ++ krngPairArrayBytes b.KRNG.KerningTable ord)).length, KerningTable := ord.map fun c => (c, lookupPairs b.KRNG.KerningTable c) } : KRNG) } : BFFNT) (KRNG.Encode ({ FFNT := { b.FFNT with TotalFileSize := fileSizeOf b (KRNG.encodeOrdered b.KRNG.KerningTable ord (krngPayloadPos b)) }, FINF := { b.FINF with TGLPOffset := tglpPayloadPos, CWDHOffset := cwdhPayloadPos b, CMAPOffset := cmapPayloadPos b }, TGLP := b.TGLP, CWDHs := b.CWDHs, CMAPs := b.CMAPs.map cmapNorm, KRNG := ({ MagicHeader := KRNG_MAGIC_HEADER, SectionSize := KRNG_HEADER_SIZE + (padToNext4ByteBoundary (krngPayloadPos b) (u16BE ord.length ++ krngEntryBytes b.KRNG.KerningTable ord (ord.length * 4 + 2) ++ krngPairArrayBytes b.KRNG.KerningTable ord)).length, KerningTable := ord.map fun c => (c, lookupPairs b.KRNG.KerningTable c) } : KRNG) } : BFFNT).KRNG
          (krngPayloadPos ({ FFNT := { b.FFNT with TotalFileSize := fileSizeOf b (KRNG.encodeOrdered b.KRNG.KerningTable ord (krngPayloadPos b)) }, FINF := { b.FINF with TGLPOffset := tglpPayloadPos, CWDHOffset := cwdhPayloadPos b, CMAPOffset := cmapPayloadPos b }, TGLP := b.TGLP, CWDHs := b.CWDHs, CMAPs := b.CMAPs.map cmapNorm, KRNG := ({ MagicHeader := KRNG_MAGIC_HEADER, SectionSize := KRNG_HEADER_SIZE + (padToNext4ByteBoundary (krngPayloadPos b) (u16BE ord.length ++ krngEntryBytes b.KRNG.KerningTable ord (ord.length * 4 + 2) ++ krngPairArrayBytes b.KRNG.KerningTable ord)).length, KerningTable := ord.map fun c => (c, lookupPairs b.KRNG.KerningTable c) } : KRNG) } : BFFNT))) = fileSizeOf b (KRNG.Encode b.KRNG (krngPayloadPos b)) := by
        exact fileSizeOf_congr _ b _ _ rfl rfl rfl (by rw [hcmn]) (by rw [hkrenc])
      have hffr : ffntRawOf ({ FFNT := { b.FFNT with TotalFileSize := fileSizeOf b (KRNG.encodeOrdered b.KRNG.KerningTable ord (krngPayloadPos b)) }, FINF := { b.FINF with TGLPOffset := tglpPayloadPos, CWDHOffset := cwdhPayloadPos b, CMAPOffset := cmapPayloadPos b }, TGLP := b.TGLP, CWDHs := b.CWDHs, CMAPs := b.CMAPs.map cmapNorm, KRNG := ({ MagicHeader := KRNG_MAGIC_HEADER, SectionSize := KRNG_HEADER_SIZE + (padToNext4ByteBoundary (krngPayloadPos b) (u16BE ord.length ++ krngEntryBytes b.KRNG.KerningTable ord (ord.length * 4 + 2) ++ krngPairArrayBytes b.KRNG.KerningTable ord)).length, KerningTable := ord.map fun c => (c, lookupPairs b.KRNG.KerningTable c) } : KRNG) } : BFFNT) (KRNG.Encode ({ FFNT := { b.FFNT with TotalFileSize := fileSizeOf b (KRNG.encodeOrdered b.KRNG.KerningTable ord (krngPayloadPos b)) }, FINF := { b.FINF with TGLPOffset := tglpPayloadPos, CWDHOffset := cwdhPayloadPos b, CMAPOffset := cmapPayloadPos b }, TGLP := b.TGLP, CWDHs := b.CWDHs, CMAPs := b.CMAPs.map cmapNorm, KRNG := ({ MagicHeader := KRNG_MAGIC_HEADER, SectionSize := KRNG_HEADER_SIZE + (padToNext4ByteBoundary (krngPayloadPos b) (u16BE ord.length ++ krngEntryBytes b.KRNG.KerningTable ord (ord.length * 4 + 2) ++ krngPairArrayBytes b.KRNG.KerningTable ord)).length, KerningTable := ord.map fun c => (c, lookupPairs b.KRNG.KerningTable c) } : KRNG) } : BFFNT).KRNG
          (krngPayloadPos ({ FFNT := { b.FFNT with TotalFileSize := fileSizeOf b (KRNG.encodeOrdered b.KRNG.KerningTable ord (krngPayloadPos b)) }, FINF := { b.FINF with TGLPOffset := tglpPayloadPos, CWDHOffset := cwdhPayloadPos b, CMAPOffset := cmapPayloadPos b }, TGLP := b.TGLP, CWDHs := b.CWDHs, CMAPs := b.CMAPs.map cmapNorm, KRNG := ({ MagicHeader := KRNG_MAGIC_HEADER, SectionSize := KRNG_HEADER_SIZE + (padToNext4ByteBoundary (krngPayloadPos b) (u16BE ord.length ++ krngEntryBytes b.KRNG.KerningTable ord (ord.length * 4 + 2) ++ krngPairArrayBytes b.KRNG.KerningTable ord)).length, KerningTable := ord.map fun c => (c, lookupPairs b.KRNG.KerningTable c) } : KRNG) } : BFFNT))) = ffntRawOf b (KRNG.Encode b.KRNG (krngPayloadPos b)) := by
        exact ffntRawOf_congr _ b _ _ ⟨rfl, rfl, rfl, rfl, rfl⟩ hfsz
      rw [hffr, hkrenc, hcmn]
      rfl
    · rw [hRshape, hEshape,
        show krngSectionStart b = ((ffntRawOf b (KRNG.encodeOrdered b.KRNG.KerningTable ord (krngPayloadPos b)) ++ finfRawOf b ++ tglpRawOf b ++ cwdhsRawOf b ++ cmapsRawOf b : Bytes)).length from hP5len.symm,
        List.take_left, List.take_left]

set_option maxRecDepth 40000 in
/-- Witness for C1: the concrete example document, with the kerning
first-characters emitted in descending order [76, 65]; decoding the encoded
buffer succeeds and re-encoding reproduces the canonical encoding. -/
theorem encode_decode_roundtrip_witness :
    ∃ b' : BFFNT,
      BFFNT.Decode (BFFNT.encodeWithKrng exDoc
        (KRNG.encodeOrdered exDoc.KRNG.KerningTable [76, 65])) = .ok b' ∧
      BFFNT.Encode b' = BFFNT.Encode exDoc ∧
      (BFFNT.encodeWithKrng exDoc
          (KRNG.encodeOrdered exDoc.KRNG.KerningTable [76, 65])).take
          (krngSectionStart exDoc) =
        (BFFNT.Encode exDoc).take (krngSectionStart exDoc) :=
  encode_decode_roundtrip exDoc [76, 65] (by and_intros <;> decide) (by decide)

end Bffnt
